import Mathlib

/-!
# JupiterMag field-line tracer (`libjupitermag/trace.cc`)

A shallow embedding of the `Trace` class of `trace.cc` and theorems about it.

Conventions of the embedding

* `double` is read in two ways.  For the statements that do not depend on
  rounding it is an ordered field `α` with exact arithmetic; the C math library
  (`sqrt`, `cos`, `sin`, `atan2`, `fmod`, `M_PI`) is the record `Libm α`, so every
  definition is an executable function of the number type and its math library,
  and the theorems instantiate it with the real numbers (`realLibm`).  For the
  statements that depend on rounding, on infinities or on NaN it is `F64`,
  IEEE 754 binary64 with rounding to nearest, ties to even: `Field` and
  `_CalculateHalphaStartPoints` are written for any arithmetic and are used at
  `F64` as they stand, and `StepVector`, `Step` and its loop are given once more
  at `F64` (`StepVector64`, `StepTrial64`, `StepControl64`, `StepLoop64`,
  `Step64`), where `x / 0` is an infinity or a NaN and a comparison with a NaN
  is false.
* `int` is `Int`; array indices are `Int`, as in the source.
* A pointer to storage is the `Array` it points to.  Every element access goes
  through `rd` / `wr`, which fault outside `0 ≤ i < size`.
* A `while` loop whose number of iterations is not bounded by its text takes
  fuel and faults with `Fault.outOfFuel` when the fuel is used up.
* Member functions take the object `T : Trace α` first; a member function that
  assigns members returns the new object.
-/

/-! ## Faults, checked memory and counted loops -/

/-- What stops an execution: a loop that used up its fuel, or an element
access at an index outside the storage. -/
inductive Fault where
  | outOfFuel : Fault
  | outOfBounds (index : Int) : Fault
deriving DecidableEq, Repr

/-- An execution either faults or yields a value. -/
abbrev Exec (σ : Type) : Type := Except Fault σ

/-- Read `a[i]`. -/
def rd {β : Type} (a : Array β) (i : Int) : Exec β :=
  if 0 ≤ i then
    match a[i.toNat]? with
    | some v => Except.ok v
    | none => Except.error (Fault.outOfBounds i)
  else Except.error (Fault.outOfBounds i)

/-- Write `a[i] = v`. -/
def wr {β : Type} (a : Array β) (i : Int) (v : β) : Exec (Array β) :=
  if 0 ≤ i ∧ i.toNat < a.size then Except.ok (a.setD i.toNat v)
  else Except.error (Fault.outOfBounds i)

/-- The loop `for (i = lo; i < hi; i++) body`, threading the state. -/
def forLoop {σ : Type} (lo hi : Int) (body : Int → σ → Exec σ) (s : σ) : Exec σ :=
  (List.range (hi - lo).toNat).foldlM (fun st (k : Nat) => body (lo + (k : Int)) st) s

/-- Storage obtained from `new β[n]`: `n` elements of indeterminate value `u`. -/
def newArray {β : Type} (n : Int) (u : β) : Array β := Array.mkArray n.toNat u

/-- Read `a[i][j]`. -/
def rd2 {β : Type} (a : Array (Array β)) (i j : Int) : Exec β := do
  let row ← rd a i
  rd row j

/-- Write `a[i][j] = v`: the row `a[i]` is read, updated at `j` and stored back. -/
def wr2 {β : Type} (a : Array (Array β)) (i j : Int) (v : β) : Exec (Array (Array β)) := do
  let row ← rd a i
  let row ← wr row j v
  wr a i row

/-- The diagnostics that the member functions print before returning early. -/
inductive Message where
  /-- Text "Input positions already set, ignoring...". -/
  | inputPosAlreadySet : Message
  /-- Text "Attempted to trace twice? not happening mate...". -/
  | tracedTwice : Message
  /-- Text "Need InputPos() before trace". -/
  | needInputPos : Message
  /-- Text "Set model function with SetModel() first". -/
  | needSetModel : Message
  /-- Text "Run SetModelParams() before tracing". -/
  | needModelParams : Message
  /-- Text "Run the 'SetAlpha()' function prior to calculating h_alpha". -/
  | needSetAlpha : Message
  /-- Text "1 or more values of alpha must be provided to calculate h_alpha". -/
  | needAlpha : Message
deriving DecidableEq, Repr

/-! ## The math library -/

/-- The functions of `<math.h>` the tracer calls. -/
structure Libm (α : Type) where
  sqrt : α → α
  cos : α → α
  sin : α → α
  atan2 : α → α → α
  fmod : α → α → α
  pi : α

/-- Type `FieldFuncPtr` of `trace.h`: a field contributor, returning `(Bx, By, Bz)`. -/
abbrev FieldFuncPtr (α : Type) : Type := α → α → α → α × α × α

/-! ## The object -/

/-- Members of `class Trace` that `trace.cc` uses.  `tracedField_`, `traced_`,
`allocTrace_`, `StepSize_`, `InitStep_`, `MinStep_`, `MaxStep_`, `ErrMax_`, `MaxR_`
and `bxm_` are used by `trace.cc` without a declaration in `trace.h`. -/
structure Trace (α : Type) where
  Funcs_ : Array (FieldFuncPtr α)
  nf_ : Int
  inputPos_ : Bool
  inputModelParams_ : Bool
  allocModelParams_ : Bool
  traceConfigured_ : Bool
  traced_ : Bool
  tracedField_ : Bool
  allocTrace_ : Bool
  hasFootprints_ : Bool
  allocFootprints_ : Bool
  hasDist_ : Bool
  allocDist_ : Bool
  hasR_ : Bool
  allocR_ : Bool
  hasRnorm_ : Bool
  allocRnorm_ : Bool
  hasHalpha_ : Bool
  allocHalpha_ : Bool
  allocHalpha3D_ : Bool
  setModel_ : Bool
  allocNstep_ : Bool
  allocEqFP_ : Bool
  allocEndpoints_ : Bool
  allocMP_ : Bool
  allocAlpha_ : Bool
  n_ : Int
  x0_ : Array α
  y0_ : Array α
  z0_ : Array α
  MaxLen_ : Int
  DSMax_ : α
  StepSize_ : α
  Verbose_ : Bool
  TraceDir_ : Int
  InitStep_ : α
  MinStep_ : α
  MaxStep_ : α
  ErrMax_ : α
  MaxR_ : α
  nstep_ : Array Int
  x_ : Array (Array α)
  y_ : Array (Array α)
  z_ : Array (Array α)
  bx_ : Array (Array α)
  by_ : Array (Array α)
  bz_ : Array (Array α)
  bxm_ : Array (Array α)
  xfn_ : Array α
  yfn_ : Array α
  zfn_ : Array α
  xfs_ : Array α
  yfs_ : Array α
  zfs_ : Array α
  xfe_ : Array α
  yfe_ : Array α
  zfe_ : Array α
  nalpha_ : Int
  alpha0_ : Array α
  alpha1_ : Array α
  Delta_ : α
  S_ : Array (Array α)
  R_ : Array (Array α)
  Rnorm_ : Array (Array α)
  Halpha_ : Array α
  Halpha3D_ : Array (Array (Array α))
  FP_ : Array (Array α)

/-- An object whose storage is all zero bits: one content the storage can have
before the constructor runs. -/
def Trace.blank {α : Type} [OfNat α 0] : Trace α where
  Funcs_ := #[]
  nf_ := 0
  inputPos_ := false
  inputModelParams_ := false
  allocModelParams_ := false
  traceConfigured_ := false
  traced_ := false
  tracedField_ := false
  allocTrace_ := false
  hasFootprints_ := false
  allocFootprints_ := false
  hasDist_ := false
  allocDist_ := false
  hasR_ := false
  allocR_ := false
  hasRnorm_ := false
  allocRnorm_ := false
  hasHalpha_ := false
  allocHalpha_ := false
  allocHalpha3D_ := false
  setModel_ := false
  allocNstep_ := false
  allocEqFP_ := false
  allocEndpoints_ := false
  allocMP_ := false
  allocAlpha_ := false
  n_ := 0
  x0_ := #[]
  y0_ := #[]
  z0_ := #[]
  MaxLen_ := 0
  DSMax_ := 0
  StepSize_ := 0
  Verbose_ := false
  TraceDir_ := 0
  InitStep_ := 0
  MinStep_ := 0
  MaxStep_ := 0
  ErrMax_ := 0
  MaxR_ := 0
  nstep_ := #[]
  x_ := #[]
  y_ := #[]
  z_ := #[]
  bx_ := #[]
  by_ := #[]
  bz_ := #[]
  bxm_ := #[]
  xfn_ := #[]
  yfn_ := #[]
  zfn_ := #[]
  xfs_ := #[]
  yfs_ := #[]
  zfs_ := #[]
  xfe_ := #[]
  yfe_ := #[]
  zfe_ := #[]
  nalpha_ := 0
  alpha0_ := #[]
  alpha1_ := #[]
  Delta_ := 0
  S_ := #[]
  R_ := #[]
  Rnorm_ := #[]
  Halpha_ := #[]
  Halpha3D_ := #[]
  FP_ := #[]

/-- The identifier `True` that `ContinueTrace` returns at the radial cutoff.
`trace.cc` declares no `True`; it is read as the Boolean constant true. -/
def True_ : Bool := true

section Kernels

variable {α : Type} [LinearOrderedField α]

/-- Method `Trace::ContinueTrace` (trace.cc 464-492): the returned flag and the
value stored in `R[0]`.  The source's `x**2` is the square of `x`. -/
def Trace.ContinueTrace (M : Libm α) (T : Trace α) (x y z : α) : Bool × α :=
  let R := M.sqrt (x * x + y * y + z * z)
  if R ≥ T.MaxR_ then (True_, R)
  else
    let a : α := 1.0
    let b : α := 0.935
    let rho := M.sqrt (x ^ 2 + y ^ 2)
    let t := M.atan2 z rho
    let rhoj := a * M.cos t
    let zj := b * M.sin t
    let Rj := M.sqrt (rhoj * rhoj + zj * zj)
    if R < Rj then (false, R) else (true, R)

/-- Method `Trace::Field` (trace.cc 432-447): the sum of the `nf_` field
contributors at `(x, y, z)`, accumulated in the order of registration, in any
arithmetic. -/
def Trace.Field {β : Type} [Add β] [OfScientific β] (T : Trace β) (x y z : β) :
    Exec (β × β × β) :=
  forLoop 0 T.nf_ (fun i B => do
    let f ← rd T.Funcs_ i
    let b := f x y z
    pure (B.1 + b.1, B.2.1 + b.2.1, B.2.2 + b.2.2)) ((0.0 : β), (0.0 : β), (0.0 : β))

/-- Method `Trace::StepVector` (trace.cc 449-462): the field direction at
`(x, y, z)` scaled by `step3`, in exact arithmetic.  Division is the field's
(`q / 0 = 0`); `StepVector64` is the method in `double` arithmetic. -/
def Trace.StepVector (M : Libm α) (T : Trace α) (x y z step3 : α) : Exec (α × α × α) := do
  let b ← T.Field x y z
  let s3bm := step3 / M.sqrt (b.1 * b.1 + b.2.1 * b.2.1 + b.2.2 * b.2.2)
  pure (s3bm * b.1, s3bm * b.2.1, s3bm * b.2.2)

/-- The locals of `Trace::Step` that one pass of its loop body computes: the
five sub-step vectors and `Err`. -/
structure SubSteps (α : Type) where
  rx1 : α
  ry1 : α
  rz1 : α
  rx2 : α
  ry2 : α
  rz2 : α
  rx3 : α
  ry3 : α
  rz3 : α
  rx4 : α
  ry4 : α
  rz4 : α
  rx5 : α
  ry5 : α
  rz5 : α
  Err : α

/-- Lines 516-536 of `Trace::Step`: the five sub-steps and the error estimate.
The source's `0.375(rx1 + 3*rx3)` is the product. -/
def Trace.StepTrial (M : Libm α) (T : Trace α) (x0 y0 z0 step3 : α) : Exec (SubSteps α) := do
  let r1 ← T.StepVector M x0 y0 z0 step3
  let x1 := x0 + r1.1
  let y1 := y0 + r1.2.1
  let z1 := z0 + r1.2.2
  let r2 ← T.StepVector M x1 y1 z1 step3
  let x2 := x0 + 0.5 * (r1.1 + r2.1)
  let y2 := y0 + 0.5 * (r1.2.1 + r2.2.1)
  let z2 := z0 + 0.5 * (r1.2.2 + r2.2.2)
  let r3 ← T.StepVector M x2 y2 z2 step3
  let x3 := x0 + 0.375 * (r1.1 + 3 * r3.1)
  let y3 := y0 + 0.375 * (r1.2.1 + 3 * r3.2.1)
  let z3 := z0 + 0.375 * (r1.2.2 + 3 * r3.2.2)
  let r4 ← T.StepVector M x3 y3 z3 step3
  let x4 := x0 + 1.5 * (r1.1 - 3 * r3.1 + 4 * r4.1)
  let y4 := y0 + 1.5 * (r1.2.1 - 3 * r3.2.1 + 4 * r4.2.1)
  let z4 := z0 + 1.5 * (r1.2.2 - 3 * r3.2.2 + 4 * r4.2.2)
  let r5 ← T.StepVector M x4 y4 z4 step3
  let Err := |r1.1 - 4.5 * r3.1 + 4 * r4.1 - 0.5 * r5.1|
  let Err := Err + |r1.2.1 - 4.5 * r3.2.1 + 4 * r4.2.1 - 0.5 * r5.2.1|
  let Err := Err + |r1.2.2 - 4.5 * r3.2.2 + 4 * r4.2.2 - 0.5 * r5.2.2|
  pure
    { rx1 := r1.1, ry1 := r1.2.1, rz1 := r1.2.2, rx2 := r2.1, ry2 := r2.2.1, rz2 := r2.2.2,
      rx3 := r3.1, ry3 := r3.2.1, rz3 := r3.2.2, rx4 := r4.1, ry4 := r4.2.1, rz4 := r4.2.2,
      rx5 := r5.1, ry5 := r5.2.1, rz5 := r5.2.2, Err := Err }

/-- Lines 538-555 of `Trace::Step`: from `Err` and `step[0]`, the new `step[0]`
and the new value of `repeat`. -/
def Trace.StepControl (T : Trace α) (Err step : α) : α × Bool :=
  let sr : α × Bool :=
    if Err ≤ T.ErrMax_ ∧ |step| ≤ T.MaxStep_ then (step, false)
    else
      let sr : α × Bool :=
        if Err > T.ErrMax_ then
          if step > T.MinStep_ then (step * 0.5, true) else (step, false)
        else (step, true)
      if |sr.1| > T.MaxStep_ then (T.MaxStep_, sr.2) else sr
  if Err < 0.04 * T.ErrMax_ ∧ |sr.1| < T.MaxStep_ / 1.5 then (1.5 * sr.1, sr.2) else sr

/-- The loop `while (repeat)` of `Trace::Step` (lines 514-557); `step3` was
computed before the loop and is not assigned in it.  Yields the final `step[0]`
and the sub-step vectors of the last pass. -/
def Trace.StepLoop (M : Libm α) (T : Trace α) (x0 y0 z0 step3 : α) :
    Nat → α → Exec (α × SubSteps α)
  | 0, _ => Except.error Fault.outOfFuel
  | fuel + 1, step => do
    let tr ← T.StepTrial M x0 y0 z0 step3
    let sr := T.StepControl tr.Err step
    if sr.2 then Trace.StepLoop M T x0 y0 z0 step3 fuel sr.1 else pure (sr.1, tr)

/-- What `Trace::Step` stores through its pointer arguments. -/
structure StepResult (α : Type) where
  step : α
  x : α
  y : α
  z : α
  Bx : α
  By : α
  Bz : α

/-- Method `Trace::Step` (trace.cc 495-564). -/
def Trace.Step (M : Libm α) (T : Trace α) (fuel : Nat) (x0 y0 z0 step : α) :
    Exec (StepResult α) := do
  let step3 := step / 3.0
  let out ← T.StepLoop M x0 y0 z0 step3 fuel step
  let tr := out.2
  let x := x0 + 0.5 * (tr.rx1 + 4 * tr.rx4 + tr.rx5)
  let y := y0 + 0.5 * (tr.ry1 + 4 * tr.ry4 + tr.ry5)
  let z := z0 + 0.5 * (tr.rz1 + 4 * tr.rz4 + tr.rz5)
  let B ← T.Field x y z
  pure { step := out.1, x := x, y := y, z := z, Bx := B.1, By := B.2.1, Bz := B.2.2 }

/-- Method `Trace::ReverseElements` (trace.cc 566-574); `n/2` is C's division.
The source declares the parameter as `double x` and indexes it: it is the array. -/
def Trace.ReverseElements (n : Int) (x : Array α) : Exec (Array α) :=
  forLoop 0 (Int.tdiv n 2) (fun i x => do
    let tmp ← rd x i
    let v ← rd x (n - i - 1)
    let x ← wr x i v
    wr x (n - i - 1) tmp) x

/-- The storage `Trace::RKMTrace` writes through its pointer arguments. -/
structure TraceBuf (α : Type) where
  nstep : Int
  R : Array α
  x : Array α
  y : Array α
  z : Array α
  Bx : Array α
  By : Array α
  Bz : Array α

/-- The locals `cont` and `step` of `Trace::RKMTrace` with the storage. -/
structure RKMState (α : Type) where
  cont : Bool
  step : α
  buf : TraceBuf α

/-- One pass of the body of the tracing loops of `Trace::RKMTrace` (lines
594-598 and 616-620); `fuel` is the fuel of `Step`.  The source passes the local
`step` where `Step` expects `double *step`: `Step` updates that local. -/
def Trace.RKMBody (M : Libm α) (T : Trace α) (fuel : Nat) (s : RKMState α) :
    Exec (RKMState α) := do
  let b := s.buf
  let px ← rd b.x (b.nstep - 1)
  let py ← rd b.y (b.nstep - 1)
  let pz ← rd b.z (b.nstep - 1)
  let r ← T.Step M fuel px py pz s.step
  let x ← wr b.x b.nstep r.x
  let y ← wr b.y b.nstep r.y
  let z ← wr b.z b.nstep r.z
  let Bx ← wr b.Bx b.nstep r.Bx
  let By ← wr b.By b.nstep r.By
  let Bz ← wr b.Bz b.nstep r.Bz
  let c := T.ContinueTrace M (← rd x b.nstep) (← rd y b.nstep) (← rd z b.nstep)
  let R ← wr b.R b.nstep c.2
  pure
    { cont := c.1, step := r.step,
      buf := { nstep := b.nstep + 1, R := R, x := x, y := y, z := z,
               Bx := Bx, By := By, Bz := Bz } }

/-- The loop `while ((cont) && (nstep[0] < bound))` of `Trace::RKMTrace` (lines
593-599 and 615-621), run for at most `count` passes: it faults when the
condition still holds after `count` passes. `fuel` is the fuel of each `Step`. -/
def Trace.RKMLoop (M : Libm α) (T : Trace α) (fuel : Nat) (bound : Int) :
    Nat → RKMState α → Exec (RKMState α)
  | 0, s => if s.cont && decide (s.buf.nstep < bound) then Except.error Fault.outOfFuel else pure s
  | count + 1, s =>
    if s.cont && decide (s.buf.nstep < bound) then do
      let s ← T.RKMBody M fuel s
      Trace.RKMLoop M T fuel bound count s
    else pure s

/-- Lines 581-588 of `Trace::RKMTrace`: the seed is stored as sample `0`.  The
local `step` is not initialised by the source; its first assignment
`step = InitStep_` (line 592) is made here. -/
def Trace.RKMInit (M : Libm α) (T : Trace α) (x0 y0 z0 : α) (b : TraceBuf α) :
    Exec (RKMState α) := do
  let x ← wr b.x 0 x0
  let y ← wr b.y 0 y0
  let z ← wr b.z 0 z0
  let B ← T.Field x0 y0 z0
  let Bx ← wr b.Bx 0 B.1
  let By ← wr b.By 0 B.2.1
  let Bz ← wr b.Bz 0 B.2.2
  let c := T.ContinueTrace M (← rd x 0) (← rd y 0) (← rd z 0)
  let R ← wr b.R 0 c.2
  pure
    { cont := c.1, step := T.InitStep_,
      buf := { nstep := 1, R := R, x := x, y := y, z := z, Bx := Bx, By := By, Bz := Bz } }

/-- Lines 602-614 of `Trace::RKMTrace`: the seven arrays are reversed, `cont` is
computed again at the last sample and `step = -InitStep_`. -/
def Trace.RKMTurn (M : Libm α) (T : Trace α) (s : RKMState α) : Exec (RKMState α) := do
  let b := s.buf
  let x ← Trace.ReverseElements b.nstep b.x
  let y ← Trace.ReverseElements b.nstep b.y
  let z ← Trace.ReverseElements b.nstep b.z
  let Bx ← Trace.ReverseElements b.nstep b.Bx
  let By ← Trace.ReverseElements b.nstep b.By
  let Bz ← Trace.ReverseElements b.nstep b.Bz
  let R ← Trace.ReverseElements b.nstep b.R
  let c := T.ContinueTrace M (← rd x (b.nstep - 1)) (← rd y (b.nstep - 1)) (← rd z (b.nstep - 1))
  let R ← wr R (b.nstep - 1) c.2
  pure
    { cont := c.1, step := -T.InitStep_,
      buf := { nstep := b.nstep, R := R, x := x, y := y, z := z, Bx := Bx, By := By, Bz := Bz } }

/-- Method `Trace::RKMTrace` (trace.cc 576-624) on the storage `b`; `fuel` is the
fuel of each `Step`.  Each tracing loop adds one to `nstep[0]` per pass, so it
is run for `bound - nstep[0]` passes at most. -/
def Trace.RKMTrace (M : Libm α) (T : Trace α) (fuel : Nat) (x0 y0 z0 : α) (b : TraceBuf α) :
    Exec (TraceBuf α) := do
  let s ← T.RKMInit M x0 y0 z0 b
  let s ←
    (if T.TraceDir_ = 1 ∨ T.TraceDir_ = 0 then
      T.RKMLoop M fuel (Int.tdiv T.MaxLen_ 2 - 1) (Int.tdiv T.MaxLen_ 2 - 1 - s.buf.nstep).toNat s
    else pure s)
  let s ← T.RKMTurn M s
  let s ←
    (if T.TraceDir_ = -1 ∨ T.TraceDir_ = 0 then
      T.RKMLoop M fuel (T.MaxLen_ - 1) (T.MaxLen_ - 1 - s.buf.nstep).toNat s
    else pure s)
  pure s.buf

/-- Lines 581-600 of `Trace::RKMTrace`: the seed is stored and the trace is run
along the field; the state before the arrays are reversed. -/
def Trace.RKMForward (M : Libm α) (T : Trace α) (fuel : Nat) (x0 y0 z0 : α)
    (b : TraceBuf α) : Exec (RKMState α) := do
  let s ← T.RKMInit M x0 y0 z0 b
  (if T.TraceDir_ = 1 ∨ T.TraceDir_ = 0 then
    T.RKMLoop M fuel (Int.tdiv T.MaxLen_ 2 - 1) (Int.tdiv T.MaxLen_ 2 - 1 - s.buf.nstep).toNat s
  else pure s)

/-! ## Construction, configuration and the tracing entry points -/

/-- Method `Trace::SetTraceCFG()` (trace.cc 191-200): the default parameters. -/
def Trace.SetTraceCFGDefault {β : Type} [OfScientific β] (T : Trace β) : Trace β :=
  { T with MaxLen_ := 1000, StepSize_ := 0.1, Verbose_ := false, TraceDir_ := 0 }

/-- Method `Trace::SetTraceCFG(int, double, bool, int)` (trace.cc 179-189).  The
source assigns `DSMax_ = DSMax`, an identifier it does not declare: its value is
the argument `DSMax` here; the parameter `StepSize` is not used by the body. -/
def Trace.SetTraceCFG (T : Trace α) (DSMax : α) (MaxLen : Int) (_StepSize : α)
    (Verbose : Bool) (TraceDir : Int) : Trace α :=
  { T with MaxLen_ := MaxLen, DSMax_ := DSMax, Verbose_ := Verbose, TraceDir_ := TraceDir }

/-- The constructor `Trace::Trace` (trace.cc 3-37) run on the storage `raw`:
members it does not assign keep the content of `raw`. -/
def Trace.ctor {β : Type} [OfScientific β] (raw : Trace β) (Funcs : Array (FieldFuncPtr β)) :
    Trace β :=
  Trace.SetTraceCFGDefault
    { raw with
      Funcs_ := Funcs, nf_ := Funcs.size
      inputPos_ := false, inputModelParams_ := false, allocModelParams_ := false
      traceConfigured_ := false, traced_ := false, allocTrace_ := false
      hasFootprints_ := false, allocFootprints_ := false, hasDist_ := false
      allocDist_ := false, hasR_ := false, allocR_ := false, hasRnorm_ := false
      allocRnorm_ := false, hasHalpha_ := false, allocHalpha_ := false
      allocHalpha3D_ := false, setModel_ := false, allocNstep_ := false
      allocEqFP_ := false, allocEndpoints_ := false, allocMP_ := false
      allocAlpha_ := false }

/-- Method `Trace::InputPos` (trace.cc 154-177); `u` is the content of fresh
storage.  Returns the object and the diagnostic printed, if any. -/
def Trace.InputPos (u : α) (T : Trace α) (n : Int) (x y z : Array α) :
    Exec (Trace α × Option Message) :=
  if T.inputPos_ then pure (T, some Message.inputPosAlreadySet)
  else do
    let T : Trace α :=
      { T with n_ := n, x0_ := newArray n u, y0_ := newArray n u, z0_ := newArray n u }
    let T ← forLoop 0 T.n_ (fun i (T : Trace α) => do
      let x0 ← wr T.x0_ i (← rd x i)
      let y0 ← wr T.y0_ i (← rd y i)
      let z0 ← wr T.z0_ i (← rd z i)
      pure { T with x0_ := x0, y0_ := y0, z0_ := z0 }) T
    pure ({ T with inputPos_ := true }, none)

/-- Method `Trace::_TraceField` (trace.cc 677-729); `u` is the content of fresh
storage.  After the four checks it allocates the end points; its loop over the
seeds holds no statement besides the progress `printf`, and the comments
"perform trace" and "get B vectors along trace".  Returns the object and the
diagnostic printed, if any. -/
def Trace._TraceField (u : α) (T : Trace α) : Trace α × Option Message :=
  if T.tracedField_ then (T, some Message.tracedTwice)
  else if !T.inputPos_ then (T, some Message.needInputPos)
  else if !T.setModel_ then (T, some Message.needSetModel)
  else if !T.inputModelParams_ then (T, some Message.needModelParams)
  else
    ({ T with
        xfn_ := newArray T.n_ u, yfn_ := newArray T.n_ u, zfn_ := newArray T.n_ u
        xfs_ := newArray T.n_ u, yfs_ := newArray T.n_ u, zfs_ := newArray T.n_ u
        allocEndpoints_ := true }, none)

/-- Method `Trace::TraceField()` (trace.cc 646-674); `ui` and `u` are the content
of fresh `int` and `double` storage.  `x_ = new double*[n_]` with
`x_[i] = new double[MaxLen_]` for every `i < n_` is `n_` rows of `MaxLen_`
elements. -/
def Trace.TraceField (ui : Int) (u : α) (T : Trace α) : Trace α × Option Message :=
  let T : Trace α :=
    if !T.allocNstep_ then { T with nstep_ := newArray T.n_ ui, allocNstep_ := true } else T
  let T : Trace α :=
    { T with
      x_ := newArray T.n_ (newArray T.MaxLen_ u), y_ := newArray T.n_ (newArray T.MaxLen_ u)
      z_ := newArray T.n_ (newArray T.MaxLen_ u), bx_ := newArray T.n_ (newArray T.MaxLen_ u)
      by_ := newArray T.n_ (newArray T.MaxLen_ u), bz_ := newArray T.n_ (newArray T.MaxLen_ u)
      allocTrace_ := true }
  T._TraceField u

/-- Method `Trace::TraceField(int*, double**, ...)` (trace.cc 627-643): the
caller's storage is linked, then `_TraceField` runs.  The source assigns the
`bx` argument to `bxm_`. -/
def Trace.TraceFieldInto (u : α) (T : Trace α) (nstep : Array Int)
    (x y z bx by_arg bz : Array (Array α)) : Trace α × Option Message :=
  let T : Trace α :=
    { T with nstep_ := nstep, x_ := x, y_ := y, z_ := z, bxm_ := bx, by_ := by_arg, bz_ := bz }
  T._TraceField u

/-! ## Derived series -/

/-- Lines 756-759 of `Trace::_CalculateTraceDist`: the body of the loop over `j`,
acting on the storage `S_`. -/
def Trace.TraceDistStep (M : Libm α) (T : Trace α) (i j : Int) (S : Array (Array α)) :
    Exec (Array (Array α)) := do
  let dx := (← rd2 T.x_ i j) - (← rd2 T.x_ i (j - 1))
  let dy := (← rd2 T.y_ i j) - (← rd2 T.y_ i (j - 1))
  let dz := (← rd2 T.z_ i j) - (← rd2 T.z_ i (j - 1))
  wr2 S i j ((← rd2 S i (j - 1)) + M.sqrt (dx * dx + dy * dy + dz * dz))

/-- Lines 754-760 of `Trace::_CalculateTraceDist`: the body of the loop over `i`. -/
def Trace.TraceDistRow (M : Libm α) (T : Trace α) (i : Int) (S : Array (Array α)) :
    Exec (Array (Array α)) := do
  let S ← wr2 S i 0 (0.0 : α)
  forLoop 1 (← rd T.nstep_ i) (T.TraceDistStep M i) S

/-- Method `Trace::_CalculateTraceDist` (trace.cc 750-763). -/
def Trace._CalculateTraceDist (M : Libm α) (T : Trace α) : Exec (Trace α) := do
  let S ← forLoop 0 T.n_ (T.TraceDistRow M) T.S_
  pure { T with S_ := S, hasDist_ := true }

/-- Method `Trace::CalculateTraceDist()` (trace.cc 732-741). -/
def Trace.CalculateTraceDist (M : Libm α) (u : α) (T : Trace α) : Exec (Trace α) :=
  Trace._CalculateTraceDist M
    { T with S_ := newArray T.n_ (newArray T.MaxLen_ u), allocDist_ := true }

/-- Method `Trace::CalculateTraceDist(double**)` (trace.cc 743-747). -/
def Trace.CalculateTraceDistInto (M : Libm α) (T : Trace α) (S : Array (Array α)) :
    Exec (Trace α) :=
  Trace._CalculateTraceDist M { T with S_ := S }

/-- Method `Trace::_CalculateTraceR` (trace.cc 785-797): the loop over `j`
starts at `0` and its statement is `S_[i][j] = S_[i][j-1] + sqrt(x2 + y2 + z2)`. -/
def Trace._CalculateTraceR (M : Libm α) (T : Trace α) : Exec (Trace α) := do
  let S ← forLoop 0 T.n_ (fun i S => do
    forLoop 0 (← rd T.nstep_ i) (fun j S => do
      let x2 := (← rd2 T.x_ i j) * (← rd2 T.x_ i j)
      let y2 := (← rd2 T.y_ i j) * (← rd2 T.y_ i j)
      let z2 := (← rd2 T.z_ i j) * (← rd2 T.z_ i j)
      wr2 S i j ((← rd2 S i (j - 1)) + M.sqrt (x2 + y2 + z2))) S) T.S_
  pure { T with S_ := S, hasR_ := true }

/-- Method `Trace::CalculateTraceR()` (trace.cc 767-776). -/
def Trace.CalculateTraceR (M : Libm α) (u : α) (T : Trace α) : Exec (Trace α) :=
  Trace._CalculateTraceR M
    { T with R_ := newArray T.n_ (newArray T.MaxLen_ u), allocR_ := true }

/-- Method `Trace::CalculateTraceR(double**)` (trace.cc 778-783). -/
def Trace.CalculateTraceRInto (M : Libm α) (T : Trace α) (R : Array (Array α)) :
    Exec (Trace α) :=
  Trace._CalculateTraceR M { T with R_ := R }

/-- Method `Trace::_CalculateTraceRnorm` (trace.cc 818-827): both loops run with
an empty body (the comment "need footprints and R done first"), then
`hasRnorm_` is set. -/
def Trace._CalculateTraceRnorm (T : Trace α) : Exec (Trace α) := do
  let T ← forLoop 0 T.n_ (fun i (T : Trace α) => do
    forLoop 0 (← rd T.nstep_ i) (fun _ (T : Trace α) => pure T) T) T
  pure { T with hasRnorm_ := true }

/-- Method `Trace::CalculateTraceRnorm()` (trace.cc 800-809). -/
def Trace.CalculateTraceRnorm (u : α) (T : Trace α) : Exec (Trace α) :=
  Trace._CalculateTraceRnorm
    { T with Rnorm_ := newArray T.n_ (newArray T.MaxLen_ u), allocRnorm_ := true }

/-- Method `Trace::CalculateTraceRnorm(double**)` (trace.cc 811-816). -/
def Trace.CalculateTraceRnormInto (T : Trace α) (Rnorm : Array (Array α)) : Exec (Trace α) :=
  Trace._CalculateTraceRnorm { T with Rnorm_ := Rnorm }

/-! ## Footprints -/

/-- Method `Trace::_CalculateTraceFP` (trace.cc 848-861); `u` is the content of
fresh storage.  The equatorial arrays are allocated, the loop over the seeds
has an empty body, and `hasFootprints_` is set. -/
def Trace._CalculateTraceFP (u : α) (T : Trace α) : Trace α :=
  { T with
    xfe_ := newArray T.n_ u, yfe_ := newArray T.n_ u, zfe_ := newArray T.n_ u
    allocEqFP_ := true, hasFootprints_ := true }

/-- Method `Trace::CalculateTraceFP()` (trace.cc 830-839): `n_` rows of 15 elements. -/
def Trace.CalculateTraceFP (u : α) (T : Trace α) : Trace α :=
  Trace._CalculateTraceFP u
    { T with FP_ := newArray T.n_ (newArray 15 u), allocFootprints_ := true }

/-- Method `Trace::CalculateTraceFP(double**)` (trace.cc 841-846). -/
def Trace.CalculateTraceFPInto (u : α) (T : Trace α) (FP : Array (Array α)) : Trace α :=
  Trace._CalculateTraceFP u { T with FP_ := FP }

/-! ## The flux-tube expansion `h_alpha` -/

/-- Method `Trace::SetAlpha` (trace.cc 202-219); `u` is the content of fresh storage. -/
def Trace.SetAlpha (M : Libm α) (u : α) (T : Trace α) (nalpha : Int) (alpha : Array α)
    (Delta : α) : Exec (Trace α) := do
  let T : Trace α :=
    { T with
      nalpha_ := nalpha, alpha0_ := newArray nalpha u, alpha1_ := newArray nalpha u
      allocAlpha_ := true }
  let dtor := M.pi / 180.0
  let T ← forLoop 0 nalpha (fun i (T : Trace α) => do
    let a0 ← wr T.alpha0_ i ((← rd alpha i) * dtor)
    let a1 ← wr T.alpha1_ i (M.fmod ((← rd alpha i) * dtor + M.pi) (2 * M.pi))
    pure { T with alpha0_ := a0, alpha1_ := a1 }) T
  pure { T with Delta_ := Delta }

/-- Method `Trace::TracePosition` (trace.cc 222-242).  `T0` is the object that
the declaration `Trace T;` yields (the sources declare no constructor without
arguments); `ui`, `u` are the content of fresh storage and `DSMax` the
undeclared identifier of `SetTraceCFG`.  The argument `i` is not used. -/
def Trace.TracePosition (M : Libm α) (ui : Int) (u DSMax : α) (T0 : Trace α) (T : Trace α)
    (_i : Int) (x y z : α) : Exec (Trace α) := do
  let A ← Trace.InputPos u T0 1 #[x] #[y] #[z]
  let A := A.1.SetTraceCFG DSMax T.MaxLen_ T.StepSize_ false 0
  let A := (A.TraceField ui u).1
  A.CalculateTraceDist M u

/-- Method `Trace::_CalculateHalphaStartPoints` (trace.cc 406-430): the two
start points `(xe0, ye0, ze0)` and `(xe1, ye1, ze1)`. -/
def Trace._CalculateHalphaStartPoints {β : Type} [Add β] [Sub β] [Mul β] [Neg β]
    (M : Libm β) (T : Trace β) (i j : Int) : Exec ((β × β × β) × (β × β × β)) := do
  let dt := T.Delta_ * M.cos (← rd T.alpha0_ j)
  let dp := T.Delta_ * M.sin (← rd T.alpha0_ j)
  let beta := M.atan2 (-(← rd T.xfe_ i)) (-(← rd T.yfe_ i))
  let dx := dp * M.cos beta - dt * M.sin beta
  let dy := dp * M.sin beta + dt * M.cos beta
  pure (((← rd T.xfe_ i) + dx, (← rd T.yfe_ i) + dy, (← rd T.zfe_ i)),
    ((← rd T.xfe_ i) - dx, (← rd T.yfe_ i) - dy, (← rd T.zfe_ i)))

/-- The six arrays `xc0, yc0, zc0, xc1, yc1, zc1` of `_CalculateTraceHalpha`. -/
structure ClosestPos (α : Type) where
  xc0 : Array α
  yc0 : Array α
  zc0 : Array α
  xc1 : Array α
  yc1 : Array α
  zc1 : Array α

/-- The two functions that `_CalculateTraceHalpha` calls and `trace.cc` does not
define; `ρ` is the type `MatrixArray`.  `TraceClosestPos` yields the content of
the six arrays it is given to fill. -/
structure HalphaExt (α ρ : Type) where
  TraceRotationMatrices : Int → Array α → Array α → Array α → ρ
  TraceClosestPos : ρ → Int → Array α → Array α → Array α →
    Int → Array α → Array α → Array α → Int → Array α → Array α → Array α →
    ClosestPos α → ClosestPos α

/-- Lines 278-290 of `Trace::_CalculateTraceHalpha`: the body of the loop over
`k`, which stores `halpha[k]` from the closest points `c`. -/
def Trace.HalphaStep (M : Libm α) (T : Trace α) (i : Int) (c : ClosestPos α) (k : Int)
    (halpha : Array α) : Exec (Array α) := do
  let dx := (← rd2 T.x_ i k) - (← rd c.xc0 k)
  let dy := (← rd2 T.y_ i k) - (← rd c.yc0 k)
  let dz := (← rd2 T.z_ i k) - (← rd c.zc0 k)
  let d := M.sqrt (dx * dx + dy * dy + dz * dz)
  let h0 := d / T.Delta_
  let dx := (← rd2 T.x_ i k) - (← rd c.xc1 k)
  let dy := (← rd2 T.y_ i k) - (← rd c.yc1 k)
  let dz := (← rd2 T.z_ i k) - (← rd c.zc1 k)
  let d := M.sqrt (dx * dx + dy * dy + dz * dz)
  let h1 := d / T.Delta_
  wr halpha k (0.5 * (h0 + h1))

/-- Lines 275-292 of `Trace::_CalculateTraceHalpha`: the loop over `k`. -/
def Trace.HalphaLoop (M : Libm α) (T : Trace α) (i : Int) (c : ClosestPos α)
    (halpha : Array α) : Exec (Array α) := do
  forLoop 0 (← rd T.nstep_ i) (T.HalphaStep M i c) halpha

/-- Method `Trace::_CalculateTraceHalpha` (trace.cc 244-300); the parameters
before `T` are those of `TracePosition` and the two functions of `E`. -/
def Trace._CalculateTraceHalpha {ρ : Type} (M : Libm α) (E : HalphaExt α ρ) (ui : Int)
    (u DSMax : α) (T0 : Trace α) (T : Trace α) (i j : Int) (halpha : Array α) :
    Exec (Array α) := do
  let p ← T._CalculateHalphaStartPoints M i j
  let R := E.TraceRotationMatrices (← rd T.nstep_ i) (← rd T.bx_ i) (← rd T.by_ i)
    (← rd T.bz_ i)
  let A0 ← Trace.TracePosition M ui u DSMax T0 T i p.1.1 p.1.2.1 p.1.2.2
  let A1 ← Trace.TracePosition M ui u DSMax T0 T i p.2.1 p.2.2.1 p.2.2.2
  let n ← rd T.nstep_ i
  let c : ClosestPos α :=
    { xc0 := newArray n u, yc0 := newArray n u, zc0 := newArray n u
      xc1 := newArray n u, yc1 := newArray n u, zc1 := newArray n u }
  let c := E.TraceClosestPos R n (← rd T.x_ i) (← rd T.y_ i) (← rd T.z_ i)
    (← rd A0.nstep_ 0) (← rd A0.x_ 0) (← rd A0.y_ 0) (← rd A0.z_ 0)
    (← rd A1.nstep_ 0) (← rd A1.x_ 0) (← rd A1.y_ 0) (← rd A1.z_ 0) c
  T.HalphaLoop M i c halpha

/-- Method `Trace::_CalculateHalpha` (trace.cc 302-316). -/
def Trace._CalculateHalpha {ρ : Type} (M : Libm α) (E : HalphaExt α ρ) (ui : Int)
    (u DSMax : α) (T0 : Trace α) (T : Trace α) : Exec (Trace α) :=
  forLoop 0 T.n_ (fun i (T : Trace α) => do
    let I := i * (T.nalpha_ * T.MaxLen_)
    forLoop 0 T.nalpha_ (fun j (T : Trace α) => do
      let J := j * T.MaxLen_
      let row ← Trace._CalculateTraceHalpha M E ui u DSMax T0 T i j (← rd2 T.Halpha3D_ i j)
      let T : Trace α := { T with Halpha3D_ := (← wr2 T.Halpha3D_ i j row) }
      forLoop 0 T.MaxLen_ (fun k (T : Trace α) => do
        let H ← wr T.Halpha_ (I + J + k) (← rd (← rd2 T.Halpha3D_ i j) k)
        pure { T with Halpha_ := H }) T) T) T

/-- Method `Trace::_CheckHalpha` (trace.cc 319-333): the result and the
diagnostic printed, if any. -/
def Trace._CheckHalpha (T : Trace α) : Bool × Option Message :=
  if !T.allocAlpha_ then (false, some Message.needSetAlpha)
  else if T.nalpha_ ≤ 0 then (false, some Message.needAlpha)
  else (true, none)

/-- Method `Trace::CalculateHalpha()` (trace.cc 335-355): the object and the
diagnostic printed, if any. -/
def Trace.CalculateHalpha {ρ : Type} (M : Libm α) (E : HalphaExt α ρ) (ui : Int)
    (u DSMax : α) (T0 : Trace α) (T : Trace α) : Exec (Trace α × Option Message) :=
  if !T._CheckHalpha.1 then pure (T, T._CheckHalpha.2)
  else do
    let T : Trace α :=
      { T with
        Halpha_ := newArray (T.n_ * T.nalpha_ * T.MaxLen_) u
        Halpha3D_ := newArray T.n_ (newArray T.nalpha_ (newArray T.MaxLen_ u))
        allocHalpha_ := true, allocHalpha3D_ := true }
    let T ← Trace._CalculateHalpha M E ui u DSMax T0 T
    pure (T, none)

/-- Method `Trace::CalculateHalpha(double*)` (trace.cc 357-376). -/
def Trace.CalculateHalphaFlat {ρ : Type} (M : Libm α) (E : HalphaExt α ρ) (ui : Int)
    (u DSMax : α) (T0 : Trace α) (T : Trace α) (halpha : Array α) :
    Exec (Trace α × Option Message) :=
  if !T._CheckHalpha.1 then pure (T, T._CheckHalpha.2)
  else do
    let T : Trace α :=
      { T with
        Halpha_ := halpha
        Halpha3D_ := newArray T.n_ (newArray T.nalpha_ (newArray T.MaxLen_ u))
        allocHalpha3D_ := true }
    let T ← Trace._CalculateHalpha M E ui u DSMax T0 T
    pure (T, none)

/-- Method `Trace::CalculateHalpha(double***)` (trace.cc 378-391). -/
def Trace.CalculateHalpha3D {ρ : Type} (M : Libm α) (E : HalphaExt α ρ) (ui : Int)
    (u DSMax : α) (T0 : Trace α) (T : Trace α) (halpha3d : Array (Array (Array α))) :
    Exec (Trace α × Option Message) :=
  if !T._CheckHalpha.1 then pure (T, T._CheckHalpha.2)
  else do
    let T : Trace α :=
      { T with
        Halpha_ := newArray (T.n_ * T.nalpha_ * T.MaxLen_) u
        Halpha3D_ := halpha3d, allocHalpha_ := true }
    let T ← Trace._CalculateHalpha M E ui u DSMax T0 T
    pure (T, none)

/-- Method `Trace::CalculateHalpha(double*, double***)` (trace.cc 393-404). -/
def Trace.CalculateHalphaBoth {ρ : Type} (M : Libm α) (E : HalphaExt α ρ) (ui : Int)
    (u DSMax : α) (T0 : Trace α) (T : Trace α) (halpha : Array α)
    (halpha3d : Array (Array (Array α))) : Exec (Trace α × Option Message) :=
  if !T._CheckHalpha.1 then pure (T, T._CheckHalpha.2)
  else do
    let T : Trace α := { T with Halpha_ := halpha, Halpha3D_ := halpha3d }
    let T ← Trace._CalculateHalpha M E ui u DSMax T0 T
    pure (T, none)

end Kernels

/-- Every array of the storage holds exactly `N` elements. -/
def TraceBuf.Sized {α : Type} (b : TraceBuf α) (N : Nat) : Prop :=
  b.R.size = N ∧ b.x.size = N ∧ b.y.size = N ∧ b.z.size = N ∧
    b.Bx.size = N ∧ b.By.size = N ∧ b.Bz.size = N

/-- Element `a[i][k]` of two-dimensional storage (`0` outside it); used to
state what a computation stored. -/
def at2 {α : Type} [Zero α] (a : Array (Array α)) (i k : Nat) : α := (a.getD i #[]).getD k 0

/-- Two-dimensional storage of `N` rows of `L` elements. -/
def Shaped {α : Type} (a : Array (Array α)) (N L : Nat) : Prop :=
  a.size = N ∧ ∀ (i : Nat) (row : Array α), a[i]? = some row → row.size = L

/-! ## The uniform axial field scenario -/

/-- The field evaluator returning `(0, 0, 1)` everywhere. -/
def uniformZ {α : Type} [LinearOrderedField α] : FieldFuncPtr α := fun _ _ _ => (0, 0, 1)

/-- The object of the scenario: constructed with the uniform axial field (so
`TraceDir_ = 0`), then `MaxLen_ = 100`, `InitStep_ = MinStep_ = MaxStep_ = 0.5`,
`MaxR_ = 10` and the given `ErrMax_`. -/
def scenarioObj {α : Type} [LinearOrderedField α] (ErrMax : α) : Trace α :=
  { Trace.ctor Trace.blank #[uniformZ] with
    MaxLen_ := 100, InitStep_ := 0.5, MinStep_ := 0.5, MaxStep_ := 0.5
    MaxR_ := 10, ErrMax_ := ErrMax }

/-- Storage of `N` elements per array, all zero. -/
def zeroBuf {α : Type} [LinearOrderedField α] (N : Nat) : TraceBuf α :=
  { nstep := 0, R := Array.mkArray N 0, x := Array.mkArray N 0, y := Array.mkArray N 0,
    z := Array.mkArray N 0, Bx := Array.mkArray N 0, By := Array.mkArray N 0,
    Bz := Array.mkArray N 0 }

/-! ## Objects used as concrete inputs -/

/-- The scenario object after `InputPos(1, (6), (0), (0))`. -/
def seededObj {α : Type} [LinearOrderedField α] : Trace α :=
  { scenarioObj (0 : α) with n_ := 1, x0_ := #[6], y0_ := #[0], z0_ := #[0], inputPos_ := true }

/-- A batch of one seed that holds a two-sample trace in its own storage and
whose `tracedField_` is true. -/
def tracedObj {α : Type} [LinearOrderedField α] : Trace α :=
  { (seededObj : Trace α) with
    MaxLen_ := 2, tracedField_ := true, allocNstep_ := true, allocTrace_ := true
    nstep_ := #[2]
    x_ := #[#[6, 6]], y_ := #[#[0, 0]], z_ := #[#[0, 0.5]]
    bx_ := #[#[0, 0]], by_ := #[#[0, 0]], bz_ := #[#[1, 1]] }

/-- The object as the constructor leaves it: no positions, no trace. -/
def freshObj {α : Type} [LinearOrderedField α] : Trace α := Trace.ctor Trace.blank #[uniformZ]

/-- The traced batch `tracedObj` with its end-point arrays allocated (zeroed). -/
def tracedEndObj {α : Type} [LinearOrderedField α] : Trace α :=
  { (tracedObj : Trace α) with
    xfn_ := #[0], yfn_ := #[0], zfn_ := #[0], xfs_ := #[0], yfs_ := #[0], zfs_ := #[0]
    allocEndpoints_ := true }

/-- Closest points `(1, 0, 0)` and `(1, 0, 0)` for one step. -/
def unitClosest {α : Type} [LinearOrderedField α] : ClosestPos α :=
  { xc0 := #[1], yc0 := #[0], zc0 := #[0], xc1 := #[1], yc1 := #[0], zc1 := #[0] }

/-- Stand-ins for the two functions `trace.cc` does not define: no rotation
matrices, and `unitClosest` as the closest points of every trace. -/
def unitExt {α : Type} [LinearOrderedField α] : HalphaExt α Unit where
  TraceRotationMatrices := fun _ _ _ _ => ()
  TraceClosestPos := fun _ _ _ _ _ _ _ _ _ _ _ _ _ _ => unitClosest

/-- A batch of one seed whose trace is the single sample `(0, 0, 0)`, with its
footprint at the origin, one probe angle and the separation `Delta`. -/
def alphaObj {α : Type} [LinearOrderedField α] (Delta : α) : Trace α :=
  { (seededObj : Trace α) with
    MaxLen_ := 1, nstep_ := #[1], x_ := #[#[0]], y_ := #[#[0]], z_ := #[#[0]]
    bx_ := #[#[0]], by_ := #[#[0]], bz_ := #[#[1]], xfe_ := #[0], yfe_ := #[0], zfe_ := #[0]
    allocAlpha_ := true, nalpha_ := 1, alpha0_ := #[0], alpha1_ := #[0], Delta_ := Delta }

/-- A field evaluator with a kink: `(0, 1, 0)` where `x² > 0.25` and `(1, 0, 0)`
elsewhere; a unit vector everywhere. -/
def kinkField {α : Type} [LinearOrderedField α] : FieldFuncPtr α :=
  fun x _ _ => if 0.25 < x * x then (0, 1, 0) else (1, 0, 0)

/-- An object constructed with `kinkField`, then `MinStep_ = 0.1`, `MaxStep_ = 5`
and `ErrMax_ = 0.01`. -/
def kinkObj {α : Type} [LinearOrderedField α] : Trace α :=
  { Trace.ctor Trace.blank #[kinkField] with MinStep_ := 0.1, MaxStep_ := 5, ErrMax_ := 0.01 }

/-- The object `alphaObj 2` with the direction flag `TraceDir_ = 1` (trace along
the field only). -/
def forwardObj {α : Type} [LinearOrderedField α] : Trace α :=
  { (alphaObj (2 : α)) with TraceDir_ := 1 }

/-! ## Binary64 arithmetic as `double`

The type `double` of the source is IEEE 754 binary64 with the default rounding
(to nearest, ties to even).  A finite value is an integer multiple `n · 2⁻¹⁰⁷⁴`
of the smallest subnormal; the two zeros are one value `fin 0`, which division
takes as `+0`.  Every operation computes the exact rational result and rounds
it to 53 significant bits; an operation of the source is one such operation (no
fused multiply-add, no wider intermediate precision).  A `double` proper is
`fin n` with `|n| < 2 ^ 2098` and at most 53 significant bits in `n`: the
operations yield only such values, and the statements hold for the other
`fin n` as well unless they say otherwise. -/

/-- A value of type `double`: finite `n · 2⁻¹⁰⁷⁴`, an infinity, or a NaN. -/
inductive F64 where
  /-- The finite value `n · 2⁻¹⁰⁷⁴`. -/
  | fin (n : Int) : F64
  /-- Minus infinity when `neg`, plus infinity otherwise. -/
  | inf (neg : Bool) : F64
  /-- Not a number. -/
  | nan : F64
deriving DecidableEq

namespace F64

/-- The quotient `q / d` rounded to the nearest integer, ties to even. -/
def roundEven (q d : Nat) : Nat :=
  if 2 * (q % d) < d then q / d
  else if d < 2 * (q % d) then q / d + 1
  else if (q / d) % 2 = 0 then q / d else q / d + 1

/-- One step of the search for the leading bit: `e + b` when `2 ^ (e + b) ≤ f`. -/
def topStep (f b e : Nat) : Nat := if 2 ^ (e + b) ≤ f then e + b else e

/-- The position of the leading bit of `f`: the greatest `e < 4096` with
`2 ^ e ≤ f`, and `0` for `f = 0`. -/
def topBit (f : Nat) : Nat :=
  topStep f 1 (topStep f 2 (topStep f 4 (topStep f 8 (topStep f 16 (topStep f 32
    (topStep f 64 (topStep f 128 (topStep f 256 (topStep f 512 (topStep f 1024
      (topStep f 2048 0)))))))))))

/-- The magnitude `q / d`, in units of `2⁻¹⁰⁷⁴`, rounded to 53 significant bits:
to a multiple of `2 ^ k`, where `k` is the number of bits of `q / d` beyond 53. -/
def roundMag (q d : Nat) : Nat :=
  roundEven q (d * 2 ^ (topBit (q / d) + 1 - 53)) * 2 ^ (topBit (q / d) + 1 - 53)

/-- The rational `num / den`, in units of `2⁻¹⁰⁷⁴`, rounded to a `double`; a
rounded magnitude of `2¹⁰²⁴` (that is `2 ^ 2098` units) or more is an infinity. -/
def round (num : Int) (den : Nat) : F64 :=
  if 2 ^ 2098 ≤ roundMag num.natAbs den then inf (decide (num < 0))
  else fin (if num < 0 then -(roundMag num.natAbs den : Int) else (roundMag num.natAbs den : Int))

/-- Operator `+` of `double`. -/
def add : F64 → F64 → F64
  | fin a, fin b => round (a + b) 1
  | fin _, inf s => inf s
  | inf s, fin _ => inf s
  | inf s, inf t => if s = t then inf s else nan
  | _, _ => nan

/-- Unary `-` of `double`. -/
def neg : F64 → F64
  | fin a => fin (-a)
  | inf s => inf (!s)
  | nan => nan

/-- Operator `-` of `double`. -/
def sub (a b : F64) : F64 := add a (neg b)

/-- Operator `*` of `double`. -/
def mul : F64 → F64 → F64
  | fin a, fin b => round (a * b) (2 ^ 1074)
  | fin a, inf s => if a = 0 then nan else inf (decide (a < 0) != s)
  | inf s, fin b => if b = 0 then nan else inf (s != decide (b < 0))
  | inf s, inf t => inf (s != t)
  | _, _ => nan

/-- Operator `/` of `double`: `x / 0` is an infinity for `x ≠ 0` and `0 / 0` is
a NaN. -/
def div : F64 → F64 → F64
  | fin a, fin b =>
    if b = 0 then (if a = 0 then nan else inf (decide (a < 0)))
    else round (if b < 0 then -(a * ((2 ^ 1074 : Nat) : Int)) else a * ((2 ^ 1074 : Nat) : Int))
      b.natAbs
  | fin _, inf _ => fin 0
  | inf s, fin b => inf (s != decide (b < 0))
  | _, _ => nan

/-- Function `fabs` of `<math.h>`. -/
def fabs : F64 → F64
  | fin a => fin |a|
  | inf _ => inf false
  | nan => nan

/-- Operator `<=` of `double`: false when an operand is a NaN. -/
def le : F64 → F64 → Bool
  | fin a, fin b => decide (a ≤ b)
  | fin _, inf s => !s
  | inf s, fin _ => s
  | inf s, inf t => s || !t
  | _, _ => false

/-- Operator `<` of `double`: false when an operand is a NaN. -/
def lt : F64 → F64 → Bool
  | fin a, fin b => decide (a < b)
  | fin _, inf s => !s
  | inf s, fin _ => s
  | inf s, inf t => s && !t
  | _, _ => false

/-- Newton's iteration for the integer square root of `N`, from a start `x`
above it: it stops at the first iterate that is not smaller. -/
def isqrtIter (N : Nat) : Nat → Nat → Nat
  | 0, x => x
  | fuel + 1, x => if (x + N / x) / 2 < x then isqrtIter N fuel ((x + N / x) / 2) else x

/-- The integer square root of `N < 2 ^ 4096`. -/
def isqrt (N : Nat) : Nat := if N = 0 then 0 else isqrtIter N 64 (2 ^ (topBit N / 2 + 1))

/-- Function `sqrt` of `<math.h>`, which IEEE 754 requires to be correctly
rounded: the integer square root of the value scaled by `2 ^ 128`, with a sticky
bit, rounded. -/
def sqrt : F64 → F64
  | fin n =>
    if n < 0 then nan
    else
      round ((2 * isqrt (n.toNat * 2 ^ 1074 * 2 ^ 128)
        + (if isqrt (n.toNat * 2 ^ 1074 * 2 ^ 128) * isqrt (n.toNat * 2 ^ 1074 * 2 ^ 128)
            = n.toNat * 2 ^ 1074 * 2 ^ 128 then 0 else 1) : Nat) : Int) (2 ^ 65)
  | inf s => if s then nan else inf false
  | nan => nan

instance instAdd : Add F64 := ⟨add⟩

instance instSub : Sub F64 := ⟨sub⟩

instance instMul : Mul F64 := ⟨mul⟩

instance instDiv : Div F64 := ⟨div⟩

instance instNeg : Neg F64 := ⟨neg⟩

instance instLE : LE F64 := ⟨fun a b => le a b = true⟩

instance instLT : LT F64 := ⟨fun a b => lt a b = true⟩

instance instDecLE (a b : F64) : Decidable (a ≤ b) := inferInstanceAs (Decidable (le a b = true))

instance instDecLT (a b : F64) : Decidable (a < b) := inferInstanceAs (Decidable (lt a b = true))

/-- An integer constant converted to `double`. -/
instance instOfNat (n : Nat) : OfNat F64 n := ⟨round ((n * 2 ^ 1074 : Nat) : Int) 1⟩

/-- A decimal floating constant `m · 10^(±e)`, correctly rounded. -/
instance instOfScientific : OfScientific F64 :=
  ⟨fun m s e => if s then round ((m * 2 ^ 1074 : Nat) : Int) (10 ^ e)
    else round ((m * 10 ^ e * 2 ^ 1074 : Nat) : Int) 1⟩

end F64

/-! ## The integration step in `double` arithmetic

The methods `StepVector` and `Step` once more, with the operators, `fabs` and
comparisons of `double`: every product, sum and quotient is rounded, a quotient
by zero is an infinity or a NaN, and a comparison with a NaN is false. -/

/-- Method `Trace::StepVector` (trace.cc 449-462) in `double` arithmetic. -/
def Trace.StepVector64 (M : Libm F64) (T : Trace F64) (x y z step3 : F64) :
    Exec (F64 × F64 × F64) := do
  let b ← T.Field x y z
  let s3bm := step3 / M.sqrt (b.1 * b.1 + b.2.1 * b.2.1 + b.2.2 * b.2.2)
  pure (s3bm * b.1, s3bm * b.2.1, s3bm * b.2.2)

/-- Lines 516-536 of `Trace::Step` in `double` arithmetic: the five sub-steps
and the error estimate.  The source's `0.375(rx1 + 3*rx3)` is the product. -/
def Trace.StepTrial64 (M : Libm F64) (T : Trace F64) (x0 y0 z0 step3 : F64) :
    Exec (SubSteps F64) := do
  let r1 ← T.StepVector64 M x0 y0 z0 step3
  let x1 := x0 + r1.1
  let y1 := y0 + r1.2.1
  let z1 := z0 + r1.2.2
  let r2 ← T.StepVector64 M x1 y1 z1 step3
  let x2 := x0 + 0.5 * (r1.1 + r2.1)
  let y2 := y0 + 0.5 * (r1.2.1 + r2.2.1)
  let z2 := z0 + 0.5 * (r1.2.2 + r2.2.2)
  let r3 ← T.StepVector64 M x2 y2 z2 step3
  let x3 := x0 + 0.375 * (r1.1 + 3 * r3.1)
  let y3 := y0 + 0.375 * (r1.2.1 + 3 * r3.2.1)
  let z3 := z0 + 0.375 * (r1.2.2 + 3 * r3.2.2)
  let r4 ← T.StepVector64 M x3 y3 z3 step3
  let x4 := x0 + 1.5 * (r1.1 - 3 * r3.1 + 4 * r4.1)
  let y4 := y0 + 1.5 * (r1.2.1 - 3 * r3.2.1 + 4 * r4.2.1)
  let z4 := z0 + 1.5 * (r1.2.2 - 3 * r3.2.2 + 4 * r4.2.2)
  let r5 ← T.StepVector64 M x4 y4 z4 step3
  let Err := F64.fabs (r1.1 - 4.5 * r3.1 + 4 * r4.1 - 0.5 * r5.1)
  let Err := Err + F64.fabs (r1.2.1 - 4.5 * r3.2.1 + 4 * r4.2.1 - 0.5 * r5.2.1)
  let Err := Err + F64.fabs (r1.2.2 - 4.5 * r3.2.2 + 4 * r4.2.2 - 0.5 * r5.2.2)
  pure
    { rx1 := r1.1, ry1 := r1.2.1, rz1 := r1.2.2, rx2 := r2.1, ry2 := r2.2.1, rz2 := r2.2.2,
      rx3 := r3.1, ry3 := r3.2.1, rz3 := r3.2.2, rx4 := r4.1, ry4 := r4.2.1, rz4 := r4.2.2,
      rx5 := r5.1, ry5 := r5.2.1, rz5 := r5.2.2, Err := Err }

/-- Lines 538-555 of `Trace::Step` in `double` arithmetic: from `Err` and
`step[0]`, the new `step[0]` and the new value of `repeat`. -/
def Trace.StepControl64 (T : Trace F64) (Err step : F64) : F64 × Bool :=
  let sr : F64 × Bool :=
    if Err ≤ T.ErrMax_ ∧ F64.fabs step ≤ T.MaxStep_ then (step, false)
    else
      let sr : F64 × Bool :=
        if Err > T.ErrMax_ then
          if step > T.MinStep_ then (step * 0.5, true) else (step, false)
        else (step, true)
      if F64.fabs sr.1 > T.MaxStep_ then (T.MaxStep_, sr.2) else sr
  if Err < 0.04 * T.ErrMax_ ∧ F64.fabs sr.1 < T.MaxStep_ / 1.5 then (1.5 * sr.1, sr.2) else sr

/-- The loop `while (repeat)` of `Trace::Step` (lines 514-557) in `double`
arithmetic; `step3` was computed before the loop and is not assigned in it. -/
def Trace.StepLoop64 (M : Libm F64) (T : Trace F64) (x0 y0 z0 step3 : F64) :
    Nat → F64 → Exec (F64 × SubSteps F64)
  | 0, _ => Except.error Fault.outOfFuel
  | fuel + 1, step => do
    let tr ← T.StepTrial64 M x0 y0 z0 step3
    let sr := T.StepControl64 tr.Err step
    if sr.2 then Trace.StepLoop64 M T x0 y0 z0 step3 fuel sr.1 else pure (sr.1, tr)

/-- Method `Trace::Step` (trace.cc 495-564) in `double` arithmetic. -/
def Trace.Step64 (M : Libm F64) (T : Trace F64) (fuel : Nat) (x0 y0 z0 step : F64) :
    Exec (StepResult F64) := do
  let step3 := step / 3.0
  let out ← T.StepLoop64 M x0 y0 z0 step3 fuel step
  let tr := out.2
  let x := x0 + 0.5 * (tr.rx1 + 4 * tr.rx4 + tr.rx5)
  let y := y0 + 0.5 * (tr.ry1 + 4 * tr.ry4 + tr.ry5)
  let z := z0 + 0.5 * (tr.rz1 + 4 * tr.rz4 + tr.rz5)
  let B ← T.Field x y z
  pure { step := out.1, x := x, y := y, z := z, Bx := B.1, By := B.2.1, Bz := B.2.2 }

/-- The math library on `double` as far as C fixes it: `sqrt` is correctly
rounded and `fmod` is exact; `cos`, `sin` and `atan2` are given at the angle
zero (`cos 0 = 1`, `sin 0 = 0`, `atan2(0, x) = 0` for `x > 0`) and are NaN
elsewhere, where the result depends on the library. -/
def libm64 : Libm F64 where
  sqrt := F64.sqrt
  cos := fun a => if a = F64.fin 0 then 1 else F64.nan
  sin := fun a => if a = F64.fin 0 then 0 else F64.nan
  atan2 := fun y x => if y = F64.fin 0 ∧ 0 < x then 0 else F64.nan
  fmod := fun x y =>
    match x, y with
    | F64.fin a, F64.fin b => if b = 0 then F64.nan else F64.fin (Int.tmod a b)
    | F64.fin a, F64.inf _ => F64.fin a
    | _, _ => F64.nan
  pi := 3.141592653589793

/-- A field contributor that returns `(bx, 0, 0)` everywhere. -/
def alongX64 (bx : F64) : FieldFuncPtr F64 := fun _ _ _ => (bx, 0, 0)

/-- An object constructed with the contributors `(1e16, 0, 0)`, `(1, 0, 0)` and
`(-1e16, 0, 0)`, registered in this order. -/
def cancelObj64 : Trace F64 :=
  Trace.ctor Trace.blank #[alongX64 1e16, alongX64 1, alongX64 (-1e16)]

/-- The same three contributors registered in the order `(1e16, 0, 0)`,
`(-1e16, 0, 0)`, `(1, 0, 0)`. -/
def cancelObjSwap64 : Trace F64 :=
  Trace.ctor Trace.blank #[alongX64 1e16, alongX64 (-1e16), alongX64 1]

/-- An object constructed with the uniform field `(0, 0, 1)`, then
`MinStep_ = 0.001`, `MaxStep_ = 2` and the given `ErrMax_`. -/
def uniformObj64 (ErrMax : F64) : Trace F64 :=
  { Trace.ctor Trace.blank #[fun _ _ _ => (0, 0, 1)] with
    MinStep_ := 0.001, MaxStep_ := 2, ErrMax_ := ErrMax }

/-- An object constructed with the uniform field `(1e-200, 0, 0)`, then
`MinStep_ = 0.001`, `MaxStep_ = 2` and `ErrMax_ = 0.001`. -/
def faintObj64 : Trace F64 :=
  { Trace.ctor Trace.blank #[alongX64 1e-200] with
    MinStep_ := 0.001, MaxStep_ := 2, ErrMax_ := 0.001 }

/-- Truncation toward zero, as used by `fmod`. -/
noncomputable def truncR (q : ℝ) : ℝ := if 0 ≤ q then (⌊q⌋ : ℝ) else (⌈q⌉ : ℝ)

/-- The math library over the real numbers: `atan2 y x` is the argument of
`x + y i`, which is `0` at the origin as in C. -/
noncomputable def realLibm : Libm ℝ where
  sqrt := Real.sqrt
  cos := Real.cos
  sin := Real.sin
  atan2 := fun y x => Complex.arg ⟨x, y⟩
  fmod := fun x y => x - truncR (x / y) * y
  pi := Real.pi

/-! ## Auxiliary definitions for the statements -/

/-- The zero-storage object with radial cutoff `MaxR_ = 10`. -/
noncomputable def objMaxR10 : Trace ℝ := { (Trace.blank : Trace ℝ) with MaxR_ := 10 }

/-- The radius `Rj` that `ContinueTrace` computes for the latitude `t`. -/
noncomputable def surfaceRj (t : ℝ) : ℝ :=
  Real.sqrt (1.0 * Real.cos t * (1.0 * Real.cos t) + 0.935 * Real.sin t * (0.935 * Real.sin t))

/-- Invariant of the tracing loops in the scenario: the loop goes on, the step
hint is `d`, and sample `k` is `(6, 0, z0 + d k)` for every `k < nstep`. -/
def UniformInv (z0 d : ℝ) (s : RKMState ℝ) : Prop :=
  s.buf.Sized 100 ∧ s.cont = true ∧ s.step = d ∧ 1 ≤ s.buf.nstep ∧
    ∀ k : Nat, (k : Int) < s.buf.nstep →
      s.buf.x[k]? = some 6 ∧ s.buf.y[k]? = some 0 ∧ s.buf.z[k]? = some (z0 + d * k)

/-- The term `_CalculateTraceDist` adds at sample `k` of seed `i`: the Euclidean
distance between the samples `k` and `k - 1`. -/
noncomputable def segLen (T : Trace ℝ) (i k : Nat) : ℝ :=
  Real.sqrt ((at2 T.x_ i k - at2 T.x_ i (k - 1)) * (at2 T.x_ i k - at2 T.x_ i (k - 1))
    + (at2 T.y_ i k - at2 T.y_ i (k - 1)) * (at2 T.y_ i k - at2 T.y_ i (k - 1))
    + (at2 T.z_ i k - at2 T.z_ i (k - 1)) * (at2 T.z_ i k - at2 T.z_ i (k - 1)))

/-- A batch of one seed holding the three samples `(0,0,0)`, `(3,0,0)`, `(3,4,0)`. -/
def threeSampleObj {α : Type} [LinearOrderedField α] : Trace α :=
  { (seededObj : Trace α) with
    MaxLen_ := 3, nstep_ := #[3]
    x_ := #[#[0, 3, 3]], y_ := #[#[0, 0, 4]], z_ := #[#[0, 0, 0]], S_ := #[#[7, 7, 7]] }

/-- The separation that `_CalculateTraceHalpha` computes at step `k` of seed `i`:
the Euclidean distance between the sample and the point `(xc[k], yc[k], zc[k])`. -/
noncomputable def sepLen (T : Trace ℝ) (i k : Nat) (xc yc zc : Array ℝ) : ℝ :=
  Real.sqrt ((at2 T.x_ i k - xc.getD k 0) * (at2 T.x_ i k - xc.getD k 0)
    + (at2 T.y_ i k - yc.getD k 0) * (at2 T.y_ i k - yc.getD k 0)
    + (at2 T.z_ i k - zc.getD k 0) * (at2 T.z_ i k - zc.getD k 0))

/-- The value `_CalculateTraceHalpha` stores in `halpha[k]`. -/
noncomputable def halphaValue (T : Trace ℝ) (i k : Nat) (c : ClosestPos ℝ) : ℝ :=
  0.5 * (sepLen T i k c.xc0 c.yc0 c.zc0 / T.Delta_ + sepLen T i k c.xc1 c.yc1 c.zc1 / T.Delta_)

/-- Sample `k` of the storage `b` is what one call of `Step` yields from sample
`k - 1`: position and field vector. -/
def StepLink {α : Type} [LinearOrderedField α] (M : Libm α) (T : Trace α) (b : TraceBuf α)
    (k : Nat) : Prop :=
  ∃ (px py pz st : α) (fuel : Nat) (res : StepResult α),
    b.x[k - 1]? = some px ∧ b.y[k - 1]? = some py ∧ b.z[k - 1]? = some pz ∧
    T.Step M fuel px py pz st = Except.ok res ∧
    b.x[k]? = some res.x ∧ b.y[k]? = some res.y ∧ b.z[k]? = some res.z ∧
    b.Bx[k]? = some res.Bx ∧ b.By[k]? = some res.By ∧ b.Bz[k]? = some res.Bz

/-- The samples below index `m` of `b` are those of `c`, position and field. -/
def SameBelow {α : Type} (b c : TraceBuf α) (m : Int) : Prop :=
  ∀ k : Nat, (k : Int) < m →
    b.x[k]? = c.x[k]? ∧ b.y[k]? = c.y[k]? ∧ b.z[k]? = c.z[k]? ∧
    b.Bx[k]? = c.Bx[k]? ∧ b.By[k]? = c.By[k]? ∧ b.Bz[k]? = c.Bz[k]?

/-- The first start point of `_CalculateHalphaStartPoints` (trace.cc 413-424) as
a function of the probe angle `a`, for the separation `Delta` and the footprint
`(fx, fy, fz)`. -/
def HalphaStartPoint {α : Type} [LinearOrderedField α] (M : Libm α) (Delta a fx fy fz : α) :
    α × α × α :=
  let dt := Delta * M.cos a
  let dp := Delta * M.sin a
  let beta := M.atan2 (-fx) (-fy)
  let dx := dp * M.cos beta - dt * M.sin beta
  let dy := dp * M.sin beta + dt * M.cos beta
  (fx + dx, fy + dy, fz)

/-! ## Auxiliary definitions for the statements in `double` arithmetic -/

/-- The value is a `double`: a finite one is below `2¹⁰²⁴` in magnitude.  The
operations of `F64` yield only such values. -/
def F64.InRange : F64 → Prop
  | F64.fin n => n.natAbs < 2 ^ 2098
  | _ => True

/-- The sub-step vector that `StepVector` computes, in `double` arithmetic, where
the field is `(ux, uy, uz)`. -/
def uniformStepVector64 (M : Libm F64) (ux uy uz step3 : F64) : F64 × F64 × F64 :=
  (step3 / M.sqrt (ux * ux + uy * uy + uz * uz) * ux,
   step3 / M.sqrt (ux * ux + uy * uy + uz * uz) * uy,
   step3 / M.sqrt (ux * ux + uy * uy + uz * uz) * uz)

/-- The error estimate that `Step` computes, in `double` arithmetic, when its
five sub-step vectors are all `r`. -/
def uniformErr64 (r : F64 × F64 × F64) : F64 :=
  F64.fabs (r.1 - 4.5 * r.1 + 4 * r.1 - 0.5 * r.1)
    + F64.fabs (r.2.1 - 4.5 * r.2.1 + 4 * r.2.1 - 0.5 * r.2.1)
    + F64.fabs (r.2.2 - 4.5 * r.2.2 + 4 * r.2.2 - 0.5 * r.2.2)

instance F64.instDecInRange (x : F64) : Decidable x.InRange :=
  match x with
  | F64.fin n => inferInstanceAs (Decidable (n.natAbs < 2 ^ 2098))
  | F64.inf _ => isTrue trivial
  | F64.nan => isTrue trivial

/-! ## Lemmas on executions, checked memory and counted loops -/

@[simp] theorem Exec.ok_bind {σ τ : Type} (a : σ) (f : σ → Exec τ) :
    (Except.ok a >>= f) = f a := rfl

@[simp] theorem Exec.error_bind {σ τ : Type} (e : Fault) (f : σ → Exec τ) :
    ((Except.error e : Exec σ) >>= f) = Except.error e := rfl

@[simp] theorem Exec.pure_eq {σ : Type} (a : σ) : (pure a : Exec σ) = Except.ok a := rfl

theorem rd_eq_ok_iff {β : Type} (a : Array β) (i : Int) (v : β) :
    rd a i = Except.ok v ↔ 0 ≤ i ∧ a[i.toNat]? = some v := by
  unfold rd
  by_cases h : 0 ≤ i
  · cases hv : a[i.toNat]? <;> simp [h]
  · simp [h]

theorem rd_ofNat {β : Type} (a : Array β) (k : Nat) (v : β) (h : a[k]? = some v) :
    rd a (k : Int) = Except.ok v := by
  rw [rd_eq_ok_iff]
  exact ⟨Int.ofNat_nonneg k, by simpa using h⟩

theorem rd_neg {β : Type} (a : Array β) (i : Int) (h : i < 0) :
    rd a i = Except.error (Fault.outOfBounds i) := by
  unfold rd
  simp [not_le.mpr h]

theorem wr_ofNat {β : Type} (a : Array β) (k : Nat) (v : β) (h : k < a.size) :
    wr a (k : Int) v = Except.ok (a.setD k v) := by
  unfold wr
  simp [h]

theorem wr_eq_ok_iff {β : Type} (a a' : Array β) (i : Int) (v : β) :
    wr a i v = Except.ok a' ↔ (0 ≤ i ∧ i.toNat < a.size) ∧ a' = a.setD i.toNat v := by
  unfold wr
  by_cases h : 0 ≤ i ∧ i.toNat < a.size
  · simp [h, eq_comm]
  · simp [h]

theorem getElem?_setD {β : Type} (a : Array β) (k j : Nat) (v : β) (h : k < a.size) :
    (a.setD k v)[j]? = if k = j then some v else a[j]? := by
  by_cases hkj : k = j
  · subst hkj
    simp [Array.getElem?_setD_eq a h v]
  · simp only [hkj, if_false]
    simp only [Array.setD, h, dite_true]
    exact Array.getElem?_set_ne a ⟨k, h⟩ v hkj

theorem forLoop_of_le {σ : Type} (lo hi : Int) (body : Int → σ → Exec σ) (s : σ)
    (h : hi ≤ lo) : forLoop lo hi body s = Except.ok s := by
  unfold forLoop
  have : (hi - lo).toNat = 0 := by omega
  simp [this]

theorem forLoop_succ {σ : Type} (lo hi : Int) (body : Int → σ → Exec σ) (s : σ)
    (h : lo ≤ hi) : forLoop lo (hi + 1) body s = forLoop lo hi body s >>= body hi := by
  unfold forLoop
  have h1 : (hi + 1 - lo).toNat = (hi - lo).toNat + 1 := by omega
  have h2 : lo + (((hi - lo).toNat : Nat) : Int) = hi := by omega
  rw [h1, List.range_succ, List.foldlM_append]
  congr 1
  funext st
  simp only [List.foldlM, h2]
  cases body hi st <;> rfl

/-- Invariant rule for a counted loop that does not fault. -/
theorem forLoop_inv {σ : Type} (P : Int → σ → Prop) (lo hi : Int) (body : Int → σ → Exec σ)
    (s : σ) (hle : lo ≤ hi) (h0 : P lo s)
    (hstep : ∀ i st, lo ≤ i → i < hi → P i st → ∃ st', body i st = Except.ok st' ∧ P (i + 1) st') :
    ∃ s', forLoop lo hi body s = Except.ok s' ∧ P hi s' := by
  obtain ⟨n, rfl⟩ : ∃ n : Nat, hi = lo + n := ⟨(hi - lo).toNat, by omega⟩
  clear hle
  induction n with
  | zero => exact ⟨s, forLoop_of_le _ _ _ _ (by simp), by simpa using h0⟩
  | succ n ih =>
    obtain ⟨s1, hs1, hP1⟩ := ih (fun i st h1 h2 hP => hstep i st h1 (by push_cast; omega) hP)
    obtain ⟨s2, hs2, hP2⟩ := hstep (lo + n) s1 (by omega) (by push_cast; omega) hP1
    refine ⟨s2, ?_, ?_⟩
    · have : lo + ((n + 1 : Nat) : Int) = (lo + n) + 1 := by push_cast; ring
      rw [this, forLoop_succ _ _ _ _ (by omega), hs1]
      exact hs2
    · have : lo + ((n + 1 : Nat) : Int) = (lo + n) + 1 := by push_cast; ring
      rw [this]
      exact hP2

theorem rd_exists {β : Type} (a : Array β) (i : Int) (h0 : 0 ≤ i) (h : i < a.size) :
    ∃ v, rd a i = Except.ok v := by
  have hlt : i.toNat < a.size := by omega
  refine ⟨a[i.toNat], ?_⟩
  rw [rd_eq_ok_iff]
  exact ⟨h0, Array.getElem?_eq_getElem hlt⟩

theorem wr_ok {β : Type} (a : Array β) (i : Int) (v : β) (h0 : 0 ≤ i) (h : i < a.size) :
    wr a i v = Except.ok (a.setD i.toNat v) := by
  rw [wr_eq_ok_iff]
  exact ⟨⟨h0, by omega⟩, rfl⟩

theorem rd_setD_same {β : Type} (a : Array β) (i : Int) (v : β) (h0 : 0 ≤ i) (h : i < a.size) :
    rd (a.setD i.toNat v) i = Except.ok v := by
  rw [rd_eq_ok_iff]
  refine ⟨h0, ?_⟩
  rw [getElem?_setD a _ _ v (by omega)]
  simp

/-! ## The integrator step: fuel -/

section Fuel

variable {α : Type} [LinearOrderedField α]

theorem StepLoop_mono (M : Libm α) (T : Trace α) (x0 y0 z0 step3 : α) :
    ∀ (f : Nat) (step : α) (r : α × SubSteps α),
      T.StepLoop M x0 y0 z0 step3 f step = Except.ok r →
      ∀ k : Nat, T.StepLoop M x0 y0 z0 step3 (f + k) step = Except.ok r := by
  intro f
  induction f with
  | zero =>
    intro step r h
    simp [Trace.StepLoop] at h
  | succ f ih =>
    intro step r h k
    have hk : f + 1 + k = (f + k) + 1 := by omega
    rw [hk]
    unfold Trace.StepLoop at h ⊢
    cases htr : T.StepTrial M x0 y0 z0 step3 with
    | error e => simp [htr] at h
    | ok tr =>
      simp only [htr, Exec.ok_bind] at h ⊢
      by_cases hrep : (T.StepControl tr.Err step).2 = true
      · simp only [hrep, if_true] at h ⊢
        exact ih _ _ h k
      · simp only [hrep] at h ⊢
        exact h

theorem Step_mono (M : Libm α) (T : Trace α) (f : Nat) (x0 y0 z0 step : α) (r : StepResult α)
    (h : T.Step M f x0 y0 z0 step = Except.ok r) (f' : Nat) (hf : f ≤ f') :
    T.Step M f' x0 y0 z0 step = Except.ok r := by
  obtain ⟨k, rfl⟩ : ∃ k, f' = f + k := ⟨f' - f, by omega⟩
  unfold Trace.Step at h ⊢
  cases hl : T.StepLoop M x0 y0 z0 (step / 3.0) f step with
  | error e => simp [hl] at h
  | ok out =>
    have hl' := StepLoop_mono M T x0 y0 z0 _ f step out hl k
    simp only [hl] at h
    simp only [hl']
    exact h

/-- A `Step` that returns has evaluated the field at its start point. -/
theorem Field_ok_of_Step_ok (M : Libm α) (T : Trace α) (f : Nat) (x0 y0 z0 step : α)
    (r : StepResult α) (h : T.Step M f x0 y0 z0 step = Except.ok r) :
    ∃ B, T.Field x0 y0 z0 = Except.ok B := by
  cases hF : T.Field x0 y0 z0 with
  | ok B => exact ⟨B, rfl⟩
  | error e =>
    exfalso
    cases f with
    | zero => simp [Trace.Step, Trace.StepLoop] at h
    | succ f =>
      simp [Trace.Step, Trace.StepLoop, Trace.StepTrial, Trace.StepVector, hF] at h

end Fuel

/-! ## The continuation predicate -/

theorem ContinueTrace_real (T : Trace ℝ) (x y z : ℝ) :
    T.ContinueTrace realLibm x y z
      = if T.MaxR_ ≤ Real.sqrt (x * x + y * y + z * z) then
          (true, Real.sqrt (x * x + y * y + z * z))
        else if Real.sqrt (x * x + y * y + z * z)
            < surfaceRj (realLibm.atan2 z (Real.sqrt (x ^ 2 + y ^ 2))) then
          (false, Real.sqrt (x * x + y * y + z * z))
        else (true, Real.sqrt (x * x + y * y + z * z)) := rfl

theorem ContinueTrace_snd (T : Trace ℝ) (x y z : ℝ) :
    (T.ContinueTrace realLibm x y z).2 = Real.sqrt (x * x + y * y + z * z) := by
  rw [ContinueTrace_real]
  split_ifs <;> rfl

theorem ContinueTrace_fst_of_cutoff (T : Trace ℝ) (x y z : ℝ)
    (h : T.MaxR_ ≤ Real.sqrt (x * x + y * y + z * z)) :
    (T.ContinueTrace realLibm x y z).1 = true := by
  rw [ContinueTrace_real, if_pos h]

theorem cos_atan2_pole (z : ℝ) (hz : z ≠ 0) :
    Real.cos (realLibm.atan2 z 0) = 0 := by
  have hne : (⟨0, z⟩ : ℂ) ≠ 0 := by
    intro h
    exact hz (by simpa using congrArg Complex.im h)
  simp [realLibm, Complex.cos_arg hne]

theorem surfaceRj_pole (z : ℝ) (hz : z ≠ 0) : surfaceRj (realLibm.atan2 z 0) = 0.935 := by
  have hc := cos_atan2_pole z hz
  have hs : Real.sin (realLibm.atan2 z 0) * Real.sin (realLibm.atan2 z 0) = 1 := by
    have := Real.sin_sq_add_cos_sq (realLibm.atan2 z 0)
    rw [hc] at this
    nlinarith
  unfold surfaceRj
  rw [hc]
  have : (1.0 : ℝ) * 0 * (1.0 * 0) + 0.935 * Real.sin (realLibm.atan2 z 0)
      * (0.935 * Real.sin (realLibm.atan2 z 0)) = 0.935 * 0.935 := by
    linear_combination (0.935 * 0.935 : ℝ) * hs
  rw [this]
  exact Real.sqrt_mul_self (by norm_num)

theorem atan2_zero_of_nonneg (r : ℝ) (hr : 0 ≤ r) : realLibm.atan2 0 r = 0 := by
  have : (⟨r, 0⟩ : ℂ) = (r : ℂ) := rfl
  simp only [realLibm, this]
  exact Complex.arg_ofReal_of_nonneg hr

theorem surfaceRj_equator (r : ℝ) (hr : 0 ≤ r) : surfaceRj (realLibm.atan2 0 r) = 1 := by
  rw [atan2_zero_of_nonneg r hr]
  unfold surfaceRj
  norm_num

/-- The surface radius `Rj` of `ContinueTrace` never exceeds the equatorial radius. -/
theorem surfaceRj_le_one (t : ℝ) : surfaceRj t ≤ 1 := by
  unfold surfaceRj
  rw [show (1 : ℝ) = Real.sqrt 1 by simp]
  apply Real.sqrt_le_sqrt
  nlinarith [Real.sin_sq_add_cos_sq t, sq_nonneg (Real.sin t)]

/-- A point at radial distance at least `1` is never reported as inside the body. -/
theorem ContinueTrace_fst_of_one_le (T : Trace ℝ) (x y z : ℝ)
    (h : 1 ≤ Real.sqrt (x * x + y * y + z * z)) :
    (T.ContinueTrace realLibm x y z).1 = true := by
  rw [ContinueTrace_real]
  have := surfaceRj_le_one (realLibm.atan2 z (Real.sqrt (x ^ 2 + y ^ 2)))
  split_ifs with h1 h2
  · rfl
  · linarith
  · rfl

theorem ContinueTrace_pole (T : Trace ℝ) (z : ℝ) :
    T.ContinueTrace realLibm 0 0 z
      = (if T.MaxR_ ≤ |z| then true else if z = 0 then false else decide (0.935 ≤ |z|), |z|) := by
  have hR : Real.sqrt (0 * 0 + 0 * 0 + z * z) = |z| := by
    rw [show (0 : ℝ) * 0 + 0 * 0 + z * z = z * z by ring]
    exact Real.sqrt_mul_self_eq_abs z
  have hrho : Real.sqrt ((0 : ℝ) ^ 2 + 0 ^ 2) = 0 := by norm_num
  rw [ContinueTrace_real, hR, hrho]
  by_cases h1 : T.MaxR_ ≤ |z|
  · simp [h1]
  · by_cases hz : z = 0
    · subst hz
      rw [surfaceRj_equator 0 le_rfl]
      have h1' : ¬ T.MaxR_ ≤ 0 := by simpa using h1
      simp [h1']
    · rw [surfaceRj_pole z hz]
      by_cases h2 : |z| < 0.935
      · simp [h1, h2, hz, not_le.mpr h2]
      · simp [h1, h2, hz, not_lt.mp h2]

theorem ContinueTrace_equator (T : Trace ℝ) (x y : ℝ) :
    T.ContinueTrace realLibm x y 0
      = (if T.MaxR_ ≤ Real.sqrt (x ^ 2 + y ^ 2) then true
          else decide (1 ≤ Real.sqrt (x ^ 2 + y ^ 2)), Real.sqrt (x ^ 2 + y ^ 2)) := by
  have hR : Real.sqrt (x * x + y * y + 0 * 0) = Real.sqrt (x ^ 2 + y ^ 2) := by
    congr 1
    ring
  rw [ContinueTrace_real, hR, surfaceRj_equator _ (Real.sqrt_nonneg _)]
  by_cases h1 : T.MaxR_ ≤ Real.sqrt (x ^ 2 + y ^ 2)
  · simp [h1]
  · by_cases h2 : Real.sqrt (x ^ 2 + y ^ 2) < 1
    · simp [h1, h2, not_le.mpr h2]
    · simp [h1, h2, not_lt.mp h2]

/-- C1, the code as written: at or beyond the radial cutoff, that is whenever
`sqrt(x² + y² + z²) ≥ MaxR_`, `ContinueTrace` returns its constant `True`.  It
reports "continue" at every latitude, where the claim has it report "do not
continue". -/
theorem C1_ContinueTrace_cutoff_returns_true (T : Trace ℝ) (x y z : ℝ)
    (h : Real.sqrt (x * x + y * y + z * z) ≥ T.MaxR_) :
    T.ContinueTrace realLibm x y z = (true, Real.sqrt (x * x + y * y + z * z)) := by
  rw [ContinueTrace_real, if_pos h]

/-- C1 at the point `(10, 0, 0)` with `MaxR_ = 10`: `R = 10 ≥ MaxR_` and the
returned flag is true. -/
theorem C1_ContinueTrace_cutoff_returns_true_witness :
    Real.sqrt (10 * 10 + 0 * 0 + 0 * 0) ≥ objMaxR10.MaxR_ ∧
      objMaxR10.ContinueTrace realLibm 10 0 0
        = (true, Real.sqrt (10 * 10 + 0 * 0 + 0 * 0)) :=
  have h : Real.sqrt (10 * 10 + 0 * 0 + 0 * 0) ≥ objMaxR10.MaxR_ := by
    have h10 : Real.sqrt (10 * 10 + 0 * 0 + 0 * 0) = 10 := by
      rw [show (10 : ℝ) * 10 + 0 * 0 + 0 * 0 = 10 * 10 by norm_num]
      exact Real.sqrt_mul_self (by norm_num)
    rw [h10]
    exact le_refl (10 : ℝ)
  ⟨h, C1_ContinueTrace_cutoff_returns_true objMaxR10 10 0 0 h⟩

/-- C2 as stated fails: with `MaxR_ = 10 > 1`, `ContinueTrace` returns true
(tracing goes on) at the pole point `(0, 0, 0.935)` and at the equator point
`(1, 0, 0)`, both exactly on the surface. -/
theorem C2_surface_points_continue :
    (objMaxR10.ContinueTrace realLibm 0 0 0.935).1 = true ∧
      (objMaxR10.ContinueTrace realLibm 1 0 0).1 = true := by
  constructor
  · rw [ContinueTrace_pole]
    have h : |(0.935 : ℝ)| = 0.935 := abs_of_pos (by norm_num)
    simp only [h, objMaxR10]
    norm_num
  · rw [ContinueTrace_equator]
    have h : Real.sqrt ((1 : ℝ) ^ 2 + 0 ^ 2) = 1 := by norm_num
    simp only [h, objMaxR10]
    norm_num

/-- C2 amended: for `MaxR_ > 1` the surface test is strict.  At a pole point
(`x = y = 0`) `ContinueTrace` returns true when `|z| = 0.935` and false when
`|z| < 0.935`; at an equator point (`z = 0`) it returns true when
`sqrt(x² + y²) = 1` and false when `sqrt(x² + y²) < 1`. -/
theorem C2_ContinueTrace_surface_strict (T : Trace ℝ) (hMaxR : 1 < T.MaxR_) (x y z : ℝ) :
    (|z| = 0.935 → (T.ContinueTrace realLibm 0 0 z).1 = true) ∧
    (|z| < 0.935 → (T.ContinueTrace realLibm 0 0 z).1 = false) ∧
    (Real.sqrt (x ^ 2 + y ^ 2) = 1 → (T.ContinueTrace realLibm x y 0).1 = true) ∧
    (Real.sqrt (x ^ 2 + y ^ 2) < 1 → (T.ContinueTrace realLibm x y 0).1 = false) := by
  refine ⟨fun h => ?_, fun h => ?_, fun h => ?_, fun h => ?_⟩
  · have hz : z ≠ 0 := by
      rintro rfl
      norm_num at h
    have h1 : ¬ T.MaxR_ ≤ |z| := by
      rw [h]
      exact not_le.mpr (lt_trans (by norm_num) hMaxR)
    rw [ContinueTrace_pole]
    simp [h1, hz, h]
  · have h1 : ¬ T.MaxR_ ≤ |z| := not_le.mpr (lt_trans (lt_trans h (by norm_num)) hMaxR)
    rw [ContinueTrace_pole]
    have h0 : (0 : ℝ) < T.MaxR_ := lt_trans one_pos hMaxR
    by_cases hz : z = 0
    · simp [hz, h0]
    · simp [h1, hz, h]
  · have h1 : ¬ T.MaxR_ ≤ Real.sqrt (x ^ 2 + y ^ 2) := by
      rw [h]
      exact not_le.mpr hMaxR
    rw [ContinueTrace_equator]
    simp [h1, h]
  · have h1 : ¬ T.MaxR_ ≤ Real.sqrt (x ^ 2 + y ^ 2) := not_le.mpr (lt_trans h hMaxR)
    rw [ContinueTrace_equator]
    simp only [if_neg h1]
    exact decide_eq_false (not_le.mpr h)

/-- C2 amended, at `MaxR_ = 10`: the surface points `(0, 0, 0.935)` and `(1, 0, 0)`
continue, the interior points `(0, 0, 0.5)` and `(0.6, 0, 0)` stop. -/
theorem C2_ContinueTrace_surface_strict_witness :
    (1 : ℝ) < objMaxR10.MaxR_ ∧
    (objMaxR10.ContinueTrace realLibm 0 0 0.935).1 = true ∧
    (objMaxR10.ContinueTrace realLibm 0 0 0.5).1 = false ∧
    (objMaxR10.ContinueTrace realLibm 1 0 0).1 = true ∧
    (objMaxR10.ContinueTrace realLibm 0.6 0 0).1 = false :=
  have hM : (1 : ℝ) < objMaxR10.MaxR_ := by
    show (1 : ℝ) < 10
    norm_num
  ⟨hM,
    (C2_ContinueTrace_surface_strict objMaxR10 hM 1 0 0.935).1 (abs_of_pos (by norm_num)),
    (C2_ContinueTrace_surface_strict objMaxR10 hM 1 0 0.5).2.1
      (by rw [abs_of_pos (by norm_num : (0 : ℝ) < 0.5)]; norm_num),
    (C2_ContinueTrace_surface_strict objMaxR10 hM 1 0 0.935).2.2.1 (by norm_num),
    (C2_ContinueTrace_surface_strict objMaxR10 hM 0.6 0 0.935).2.2.2
      (by rw [Real.sqrt_lt' (by norm_num)]; norm_num)⟩

/-! ## Reversal of the forward half -/

section Reverse

variable {α : Type} [LinearOrderedField α]

/-- What `ReverseElements` does on storage that holds at least `n` elements: the
first `n` elements are reversed, the others are kept. -/
theorem ReverseElements_spec (n : Int) (x : Array α) (h0 : 0 ≤ n) (hn : n ≤ x.size) :
    ∃ x', Trace.ReverseElements n x = Except.ok x' ∧ x'.size = x.size ∧
      (∀ k : Nat, (k : Int) < n → x'[k]? = x[(n - 1 - k).toNat]?) ∧
      (∀ k : Nat, n ≤ k → x'[k]? = x[k]?) := by
  have hdiv : Int.tdiv n 2 = n / 2 := Int.tdiv_eq_ediv h0 (by norm_num)
  have hinv := forLoop_inv
    (fun (i : Int) (y : Array α) =>
      y.size = x.size ∧
      (∀ k : Nat, (k : Int) < i → y[k]? = x[(n - 1 - k).toNat]?) ∧
      (∀ k : Nat, n - 1 - i < k → (k : Int) < n → y[k]? = x[(n - 1 - k).toNat]?) ∧
      (∀ k : Nat, i ≤ k → (k : Int) ≤ n - 1 - i → y[k]? = x[k]?) ∧
      (∀ k : Nat, n ≤ k → y[k]? = x[k]?))
    0 (n / 2)
    (fun i x => do
      let tmp ← rd x i
      let v ← rd x (n - i - 1)
      let x ← wr x i v
      wr x (n - i - 1) tmp) x (by omega)
    ⟨rfl, fun k hk => by omega, fun k h1 h2 => by omega, fun _ _ _ => rfl, fun _ _ => rfl⟩
    (by
      intro i y hi0 hi ⟨hsz, hA, hB, hC, hD⟩
      have hi1 : i < n - i - 1 := by omega
      obtain ⟨tmp, htmp⟩ := rd_exists y i hi0 (by omega)
      obtain ⟨v, hv⟩ := rd_exists y (n - i - 1) (by omega) (by omega)
      have htmp' := ((rd_eq_ok_iff _ _ _).1 htmp).2
      have hv' := ((rd_eq_ok_iff _ _ _).1 hv).2
      have hw1 := wr_ok y i v hi0 (by omega)
      have hw2 := wr_ok (y.setD i.toNat v) (n - i - 1) tmp (by omega)
        (by rw [Array.size_setD]; omega)
      refine ⟨(y.setD i.toNat v).setD (n - i - 1).toNat tmp, ?_, ?_, ?_, ?_, ?_, ?_⟩
      · simp only [htmp, hv, hw1, hw2, Exec.ok_bind]
      · simp [hsz]
      · intro k hk
        rw [getElem?_setD _ _ _ _ (by rw [Array.size_setD]; omega),
          getElem?_setD _ _ _ _ (by omega)]
        have e1 : ¬ (n - i - 1).toNat = k := by omega
        by_cases e2 : i.toNat = k
        · rw [if_neg e1, if_pos e2, ← hv', hC (n - i - 1).toNat (by omega) (by omega)]
          congr 1
          omega
        · rw [if_neg e1, if_neg e2]
          exact hA k (by omega)
      · intro k hk1 hk2
        rw [getElem?_setD _ _ _ _ (by rw [Array.size_setD]; omega),
          getElem?_setD _ _ _ _ (by omega)]
        have e2 : ¬ i.toNat = k := by omega
        by_cases e1 : (n - i - 1).toNat = k
        · rw [if_pos e1, ← htmp', hC i.toNat (by omega) (by omega)]
          congr 1
          omega
        · rw [if_neg e1, if_neg e2]
          exact hB k (by omega) hk2
      · intro k hk1 hk2
        rw [getElem?_setD _ _ _ _ (by rw [Array.size_setD]; omega),
          getElem?_setD _ _ _ _ (by omega)]
        have e1 : ¬ (n - i - 1).toNat = k := by omega
        have e2 : ¬ i.toNat = k := by omega
        rw [if_neg e1, if_neg e2]
        exact hC k (by omega) (by omega)
      · intro k hk
        rw [getElem?_setD _ _ _ _ (by rw [Array.size_setD]; omega),
          getElem?_setD _ _ _ _ (by omega)]
        have e1 : ¬ (n - i - 1).toNat = k := by omega
        have e2 : ¬ i.toNat = k := by omega
        rw [if_neg e1, if_neg e2]
        exact hD k hk)
  obtain ⟨x', hx', hsz, hA, hB, hC, hD⟩ := hinv
  refine ⟨x', ?_, hsz, ?_, hD⟩
  · unfold Trace.ReverseElements
    rw [hdiv]
    exact hx'
  · intro k hk
    by_cases h1 : (k : Int) < n / 2
    · exact hA k h1
    · by_cases h2 : n - 1 - n / 2 < k
      · exact hB k h2 hk
      · rw [hC k (by omega) (by omega)]
        congr 1
        omega

end Reverse

/-! ## The tracing loops -/

section Loops

variable {α : Type} [LinearOrderedField α]

/-- One pass of the loop body on storage of `N` elements with `1 ≤ nstep < N`:
the sample is stored at index `nstep`, which is then increased. -/
theorem RKMBody_ok (M : Libm α) (T : Trace α) (fuel : Nat) (s : RKMState α) (N : Nat)
    (hsz : s.buf.Sized N) (h1 : 1 ≤ s.buf.nstep) (h2 : s.buf.nstep < N)
    (px py pz : α) (hpx : rd s.buf.x (s.buf.nstep - 1) = Except.ok px)
    (hpy : rd s.buf.y (s.buf.nstep - 1) = Except.ok py)
    (hpz : rd s.buf.z (s.buf.nstep - 1) = Except.ok pz)
    (r : StepResult α) (hr : T.Step M fuel px py pz s.step = Except.ok r) :
    T.RKMBody M fuel s = Except.ok
      { cont := (T.ContinueTrace M r.x r.y r.z).1, step := r.step,
        buf := { nstep := s.buf.nstep + 1,
                 R := s.buf.R.setD s.buf.nstep.toNat (T.ContinueTrace M r.x r.y r.z).2,
                 x := s.buf.x.setD s.buf.nstep.toNat r.x,
                 y := s.buf.y.setD s.buf.nstep.toNat r.y,
                 z := s.buf.z.setD s.buf.nstep.toNat r.z,
                 Bx := s.buf.Bx.setD s.buf.nstep.toNat r.Bx,
                 By := s.buf.By.setD s.buf.nstep.toNat r.By,
                 Bz := s.buf.Bz.setD s.buf.nstep.toNat r.Bz } } := by
  obtain ⟨hR, hx, hy, hz, hBx, hBy, hBz⟩ := hsz
  have h0 : 0 ≤ s.buf.nstep := by omega
  unfold Trace.RKMBody
  simp only [hpx, hpy, hpz, hr, Exec.ok_bind, Exec.pure_eq,
    wr_ok s.buf.x _ r.x h0 (by omega), wr_ok s.buf.y _ r.y h0 (by omega),
    wr_ok s.buf.z _ r.z h0 (by omega), wr_ok s.buf.Bx _ r.Bx h0 (by omega),
    wr_ok s.buf.By _ r.By h0 (by omega), wr_ok s.buf.Bz _ r.Bz h0 (by omega),
    rd_setD_same s.buf.x _ r.x h0 (by omega), rd_setD_same s.buf.y _ r.y h0 (by omega),
    rd_setD_same s.buf.z _ r.z h0 (by omega), wr_ok s.buf.R _ _ h0 (by omega)]

/-- Invariant rule for a tracing loop.  If every pass taken from a state
satisfying `P` returns (with enough `Step` fuel) a state satisfying `P` with
`nstep` one larger, then the loop returns, with enough fuel, a state satisfying
`P` in which the loop condition is false. -/
theorem RKMLoop_inv (M : Libm α) (T : Trace α) (bound : Int) (P : RKMState α → Prop)
    (hbody : ∀ s, P s → s.cont = true → s.buf.nstep < bound →
      ∃ (F : Nat) (s' : RKMState α), (∀ fuel, F ≤ fuel → T.RKMBody M fuel s = Except.ok s') ∧
        P s' ∧ s'.buf.nstep = s.buf.nstep + 1) :
    ∀ (count : Nat) (s : RKMState α), P s → (bound - s.buf.nstep).toNat ≤ count →
      ∃ (F : Nat) (s' : RKMState α),
        (∀ fuel, F ≤ fuel → T.RKMLoop M fuel bound count s = Except.ok s') ∧ P s' ∧
        s.buf.nstep ≤ s'.buf.nstep ∧ s'.buf.nstep ≤ max s.buf.nstep bound ∧
        (s'.cont = false ∨ bound ≤ s'.buf.nstep) := by
  intro count
  induction count with
  | zero =>
    intro s hP hc
    have hb : ¬ s.buf.nstep < bound := by omega
    refine ⟨0, s, fun fuel _ => ?_, hP, le_refl _, le_max_left _ _, Or.inr (by omega)⟩
    simp [Trace.RKMLoop, hb]
  | succ count ih =>
    intro s hP hc
    by_cases hcond : s.cont = true ∧ s.buf.nstep < bound
    · obtain ⟨F1, s1, hs1, hP1, hn1⟩ := hbody s hP hcond.1 hcond.2
      obtain ⟨F2, s2, hs2, hP2, hle, hmax, hfin⟩ := ih s1 hP1 (by omega)
      refine ⟨max F1 F2, s2, fun fuel hf => ?_, hP2, by omega, ?_, hfin⟩
      · unfold Trace.RKMLoop
        simp only [hcond.1, hcond.2, decide_True, Bool.and_self, if_true,
          hs1 fuel (le_trans (le_max_left _ _) hf), Exec.ok_bind]
        exact hs2 fuel (le_trans (le_max_right _ _) hf)
      · have h3 := hcond.2
        rcases le_max_iff.1 hmax with h4 | h4
        · exact le_max_of_le_right (by omega)
        · exact le_max_of_le_right h4
    · refine ⟨0, s, fun fuel _ => ?_, hP, le_refl _, le_max_left _ _, ?_⟩
      · unfold Trace.RKMLoop
        have : (s.cont && decide (s.buf.nstep < bound)) = false := by
          by_cases hc1 : s.cont = true
          · have : ¬ s.buf.nstep < bound := fun h => hcond ⟨hc1, h⟩
            simp [this]
          · simp [hc1]
        simp [this]
      · by_cases hc1 : s.cont = true
        · exact Or.inr (not_lt.mp fun h => hcond ⟨hc1, h⟩)
        · exact Or.inl (by simpa using hc1)

end Loops

/-! ## The phases of `RKMTrace` -/

section Phases

variable {α : Type} [LinearOrderedField α]

theorem RKMInit_ok (M : Libm α) (T : Trace α) (x0 y0 z0 : α) (b : TraceBuf α) (N : Nat)
    (hsz : b.Sized N) (hN : 1 ≤ N) (B : α × α × α) (hB : T.Field x0 y0 z0 = Except.ok B) :
    T.RKMInit M x0 y0 z0 b = Except.ok
      { cont := (T.ContinueTrace M x0 y0 z0).1, step := T.InitStep_,
        buf := { nstep := 1, R := b.R.setD 0 (T.ContinueTrace M x0 y0 z0).2,
                 x := b.x.setD 0 x0, y := b.y.setD 0 y0, z := b.z.setD 0 z0,
                 Bx := b.Bx.setD 0 B.1, By := b.By.setD 0 B.2.1, Bz := b.Bz.setD 0 B.2.2 } } := by
  obtain ⟨hR, hx, hy, hz, hBx, hBy, hBz⟩ := hsz
  have w : ∀ (a : Array α) (v : α), a.size = N → wr a 0 v = Except.ok (a.setD 0 v) :=
    fun a v h => wr_ok a 0 v le_rfl (by omega)
  have r : ∀ (a : Array α) (v : α), a.size = N → rd (a.setD 0 v) 0 = Except.ok v :=
    fun a v h => rd_setD_same a 0 v le_rfl (by omega)
  unfold Trace.RKMInit
  simp only [w _ _ hx, w _ _ hy, w _ _ hz, w _ _ hBx, w _ _ hBy, w _ _ hBz, w _ _ hR,
    r _ _ hx, r _ _ hy, r _ _ hz, hB, Exec.ok_bind, Exec.pure_eq]

/-- The turn between the two tracing loops: `nstep` and the sizes are kept, the
first `nstep` samples are reversed, and `cont` is computed at the sample that
was at index `0`. -/
theorem RKMTurn_ok (M : Libm α) (T : Trace α) (s : RKMState α) (N : Nat)
    (hsz : s.buf.Sized N) (h1 : 1 ≤ s.buf.nstep) (h2 : s.buf.nstep ≤ N) :
    ∃ s', T.RKMTurn M s = Except.ok s' ∧ s'.buf.Sized N ∧ s'.buf.nstep = s.buf.nstep ∧
      s'.step = -T.InitStep_ ∧
      (∀ k : Nat, (k : Int) < s.buf.nstep →
        s'.buf.x[k]? = s.buf.x[(s.buf.nstep - 1 - k).toNat]? ∧
        s'.buf.y[k]? = s.buf.y[(s.buf.nstep - 1 - k).toNat]? ∧
        s'.buf.z[k]? = s.buf.z[(s.buf.nstep - 1 - k).toNat]? ∧
        s'.buf.Bx[k]? = s.buf.Bx[(s.buf.nstep - 1 - k).toNat]? ∧
        s'.buf.By[k]? = s.buf.By[(s.buf.nstep - 1 - k).toNat]? ∧
        s'.buf.Bz[k]? = s.buf.Bz[(s.buf.nstep - 1 - k).toNat]?) ∧
      (∀ px py pz : α, s.buf.x[0]? = some px → s.buf.y[0]? = some py → s.buf.z[0]? = some pz →
        s'.cont = (T.ContinueTrace M px py pz).1) := by
  obtain ⟨hR, hx, hy, hz, hBx, hBy, hBz⟩ := hsz
  have h0 : 0 ≤ s.buf.nstep := by omega
  have hm : 0 ≤ s.buf.nstep - 1 := by omega
  have gx : s.buf.nstep ≤ s.buf.x.size := by omega
  have gy : s.buf.nstep ≤ s.buf.y.size := by omega
  have gz : s.buf.nstep ≤ s.buf.z.size := by omega
  have gBx : s.buf.nstep ≤ s.buf.Bx.size := by omega
  have gBy : s.buf.nstep ≤ s.buf.By.size := by omega
  have gBz : s.buf.nstep ≤ s.buf.Bz.size := by omega
  have gR : s.buf.nstep ≤ s.buf.R.size := by omega
  have lx : s.buf.nstep - 1 < s.buf.x.size := by omega
  have ly : s.buf.nstep - 1 < s.buf.y.size := by omega
  have lz : s.buf.nstep - 1 < s.buf.z.size := by omega
  have lR : s.buf.nstep - 1 < s.buf.R.size := by omega
  have e : (s.buf.nstep - 1 - ((s.buf.nstep - 1).toNat : Int)).toNat = 0 := by omega
  have hlast : (((s.buf.nstep - 1).toNat : Nat) : Int) < s.buf.nstep := by omega
  obtain ⟨x', ex, sx, vx, -⟩ := ReverseElements_spec s.buf.nstep s.buf.x h0 gx
  obtain ⟨y', ey, sy, vy, -⟩ := ReverseElements_spec s.buf.nstep s.buf.y h0 gy
  obtain ⟨z', ez, sz, vz, -⟩ := ReverseElements_spec s.buf.nstep s.buf.z h0 gz
  obtain ⟨Bx', eBx, sBx, vBx, -⟩ := ReverseElements_spec s.buf.nstep s.buf.Bx h0 gBx
  obtain ⟨By', eBy, sBy, vBy, -⟩ := ReverseElements_spec s.buf.nstep s.buf.By h0 gBy
  obtain ⟨Bz', eBz, sBz, vBz, -⟩ := ReverseElements_spec s.buf.nstep s.buf.Bz h0 gBz
  obtain ⟨R', eR, sR, -, -⟩ := ReverseElements_spec s.buf.nstep s.buf.R h0 gR
  obtain ⟨qx, hqx⟩ := rd_exists x' (s.buf.nstep - 1) hm (by rw [sx]; exact lx)
  obtain ⟨qy, hqy⟩ := rd_exists y' (s.buf.nstep - 1) hm (by rw [sy]; exact ly)
  obtain ⟨qz, hqz⟩ := rd_exists z' (s.buf.nstep - 1) hm (by rw [sz]; exact lz)
  have hw := wr_ok R' (s.buf.nstep - 1) (T.ContinueTrace M qx qy qz).2 hm (by rw [sR]; exact lR)
  refine ⟨{ cont := (T.ContinueTrace M qx qy qz).1, step := -T.InitStep_,
            buf := { nstep := s.buf.nstep,
                     R := R'.setD (s.buf.nstep - 1).toNat (T.ContinueTrace M qx qy qz).2,
                     x := x', y := y', z := z', Bx := Bx', By := By', Bz := Bz' } },
    ?_, ?_, ?_, ?_, ?_, ?_⟩
  · unfold Trace.RKMTurn
    simp only [ex, ey, ez, eBx, eBy, eBz, eR, hqx, hqy, hqz, hw, Exec.ok_bind, Exec.pure_eq]
  · exact ⟨by simp only [Array.size_setD]; exact sR.trans hR, sx.trans hx, sy.trans hy,
      sz.trans hz, sBx.trans hBx, sBy.trans hBy, sBz.trans hBz⟩
  · rfl
  · rfl
  · intro k hk
    exact ⟨vx k hk, vy k hk, vz k hk, vBx k hk, vBy k hk, vBz k hk⟩
  · intro px py pz hpx hpy hpz
    have kx := vx (s.buf.nstep - 1).toNat hlast
    have ky := vy (s.buf.nstep - 1).toNat hlast
    have kz := vz (s.buf.nstep - 1).toNat hlast
    rw [e] at kx ky kz
    rw [((rd_eq_ok_iff _ _ _).1 hqx).2, hpx] at kx
    rw [((rd_eq_ok_iff _ _ _).1 hqy).2, hpy] at ky
    rw [((rd_eq_ok_iff _ _ _).1 hqz).2, hpz] at kz
    cases kx
    cases ky
    cases kz
    rfl

/-- A tracing loop on storage of `N` elements, with a bound below `N`, returns
whenever every `Step` does; it keeps the sizes and stops at the bound at the latest. -/
theorem RKMLoop_sized (M : Libm α) (T : Trace α) (bound : Int) (N : Nat) (hb : bound < N)
    (hStep : ∀ x y z st : α, ∃ (fuel : Nat) (r : StepResult α),
      T.Step M fuel x y z st = Except.ok r)
    (s : RKMState α) (hsz : s.buf.Sized N) (h1 : 1 ≤ s.buf.nstep) :
    ∃ (F : Nat) (s' : RKMState α),
      (∀ fuel, F ≤ fuel →
        T.RKMLoop M fuel bound (bound - s.buf.nstep).toNat s = Except.ok s') ∧
      s'.buf.Sized N ∧ s.buf.nstep ≤ s'.buf.nstep ∧ s'.buf.nstep ≤ max s.buf.nstep bound := by
  obtain ⟨F, s', hrun, ⟨hsz', _⟩, hle, hmax, _⟩ :=
    RKMLoop_inv M T bound (fun s => s.buf.Sized N ∧ 1 ≤ s.buf.nstep)
      (by
        intro s ⟨hs, hn⟩ _ hlt
        obtain ⟨hR, hx, hy, hz, hBx, hBy, hBz⟩ := hs
        obtain ⟨px, hpx⟩ := rd_exists s.buf.x (s.buf.nstep - 1) (by omega) (by omega)
        obtain ⟨py, hpy⟩ := rd_exists s.buf.y (s.buf.nstep - 1) (by omega) (by omega)
        obtain ⟨pz, hpz⟩ := rd_exists s.buf.z (s.buf.nstep - 1) (by omega) (by omega)
        obtain ⟨f, r, hr⟩ := hStep px py pz s.step
        refine ⟨f, _, fun fuel hf => RKMBody_ok M T fuel s N ⟨hR, hx, hy, hz, hBx, hBy, hBz⟩ hn
          (by omega) px py pz hpx hpy hpz r (Step_mono M T f px py pz s.step r hr fuel hf),
          ⟨?_, ?_⟩, rfl⟩
        · refine ⟨?_, ?_, ?_, ?_, ?_, ?_, ?_⟩ <;> simp only [Array.size_setD] <;> assumption
        · show 1 ≤ s.buf.nstep + 1
          omega)
      (bound - s.buf.nstep).toNat s ⟨hsz, h1⟩ le_rfl
  exact ⟨F, s', hrun, hsz', hle, hmax⟩

/-- A tracing loop guarded by the direction test `c`. -/
theorem RKMPhase_sized (M : Libm α) (T : Trace α) (c : Prop) [Decidable c] (bound : Int)
    (N : Nat) (hb : bound < N)
    (hStep : ∀ x y z st : α, ∃ (fuel : Nat) (r : StepResult α),
      T.Step M fuel x y z st = Except.ok r)
    (s : RKMState α) (hsz : s.buf.Sized N) (h1 : 1 ≤ s.buf.nstep) :
    ∃ (F : Nat) (s' : RKMState α),
      (∀ fuel, F ≤ fuel →
        (if c then T.RKMLoop M fuel bound (bound - s.buf.nstep).toNat s else pure s)
          = Except.ok s') ∧
      s'.buf.Sized N ∧ s.buf.nstep ≤ s'.buf.nstep ∧ s'.buf.nstep ≤ max s.buf.nstep bound := by
  by_cases hc : c
  · obtain ⟨F, s', hrun, h⟩ := RKMLoop_sized M T bound N hb hStep s hsz h1
    exact ⟨F, s', fun fuel hf => by rw [if_pos hc]; exact hrun fuel hf, h⟩
  · exact ⟨0, s, fun fuel _ => by rw [if_neg hc]; rfl, hsz, le_rfl, le_max_left _ _⟩

/-- C4: for `MaxLen_ ≥ 1`, storage of `MaxLen_` elements per array, every seed,
every direction flag and every field evaluator for which each `Step` returns,
`RKMTrace` returns (for all large enough `Step` fuel) without an access outside
the storage, and the step count it leaves satisfies `1 ≤ nstep ≤ MaxLen_`. -/
theorem C4_RKMTrace_nstep_bounds (M : Libm α) (T : Trace α) (x0 y0 z0 : α) (b : TraceBuf α)
    (hMaxLen : 1 ≤ T.MaxLen_) (hsz : b.Sized T.MaxLen_.toNat)
    (hStep : ∀ x y z st : α, ∃ (fuel : Nat) (r : StepResult α),
      T.Step M fuel x y z st = Except.ok r) :
    ∃ (F : Nat) (r : TraceBuf α),
      (∀ fuel, F ≤ fuel → T.RKMTrace M fuel x0 y0 z0 b = Except.ok r) ∧
      1 ≤ r.nstep ∧ r.nstep ≤ T.MaxLen_ ∧ r.Sized T.MaxLen_.toNat := by
  have hN : ((T.MaxLen_.toNat : Nat) : Int) = T.MaxLen_ := by omega
  have hN1 : 1 ≤ T.MaxLen_.toNat := by omega
  have hdiv : Int.tdiv T.MaxLen_ 2 = T.MaxLen_ / 2 := Int.tdiv_eq_ediv (by omega) (by norm_num)
  have hb1 : Int.tdiv T.MaxLen_ 2 - 1 < (T.MaxLen_.toNat : Nat) := by rw [hdiv]; omega
  have hb2 : T.MaxLen_ - 1 < (T.MaxLen_.toNat : Nat) := by omega
  obtain ⟨f0, r0, hr0⟩ := hStep x0 y0 z0 0
  obtain ⟨B, hB⟩ := Field_ok_of_Step_ok M T f0 x0 y0 z0 0 r0 hr0
  obtain ⟨s0, hinit, hs0, hn0⟩ : ∃ s0, T.RKMInit M x0 y0 z0 b = Except.ok s0 ∧
      s0.buf.Sized T.MaxLen_.toNat ∧ s0.buf.nstep = 1 := by
    refine ⟨_, RKMInit_ok M T x0 y0 z0 b _ hsz hN1 B hB, ?_, rfl⟩
    obtain ⟨hR, hx, hy, hz, hBx, hBy, hBz⟩ := hsz
    refine ⟨?_, ?_, ?_, ?_, ?_, ?_, ?_⟩ <;> simp only [Array.size_setD] <;> assumption
  obtain ⟨F1, s1, hrun1, hs1, hle1, hmax1⟩ :=
    RKMPhase_sized M T (T.TraceDir_ = 1 ∨ T.TraceDir_ = 0) _ _ hb1 hStep s0 hs0 (by omega)
  have hn1 : 1 ≤ s1.buf.nstep := by omega
  have hn1' : s1.buf.nstep ≤ (T.MaxLen_.toNat : Nat) := by
    rcases le_max_iff.1 hmax1 with h | h <;> omega
  obtain ⟨s2, hturn, hs2, hn2, -, -, -⟩ := RKMTurn_ok M T s1 _ hs1 hn1 hn1'
  obtain ⟨F2, s3, hrun2, hs3, hle3, hmax3⟩ :=
    RKMPhase_sized M T (T.TraceDir_ = -1 ∨ T.TraceDir_ = 0) _ _ hb2 hStep s2 hs2 (by omega)
  refine ⟨max F1 F2, s3.buf, fun fuel hf => ?_, by omega, ?_, hs3⟩
  · have e1 := hrun1 fuel (le_trans (le_max_left _ _) hf)
    have e2 := hrun2 fuel (le_trans (le_max_right _ _) hf)
    simp only [Exec.pure_eq] at e1 e2
    unfold Trace.RKMTrace
    simp only [hinit, Exec.ok_bind, Exec.pure_eq, e1, hturn, e2]
  · rcases le_max_iff.1 hmax3 with h | h <;> omega

end Phases

/-! ## The integrator in a uniform axial field -/

theorem StepControl_exit (T : Trace ℝ) (Err step : ℝ) (h1 : Err ≤ T.ErrMax_)
    (h2 : |step| ≤ T.MaxStep_) : (T.StepControl Err step).2 = false := by
  unfold Trace.StepControl
  simp only [h1, h2, and_self, if_true]
  split_ifs <;> rfl

theorem StepControl_keep (T : Trace ℝ) (Err step : ℝ) (h1 : Err ≤ T.ErrMax_)
    (h2 : |step| ≤ T.MaxStep_) (h3 : ¬ |step| < T.MaxStep_ / 1.5) :
    T.StepControl Err step = (step, false) := by
  unfold Trace.StepControl
  simp only [h1, h2, and_self, if_true, h3, and_false, if_false]

theorem StepControl_clamp (T : Trace ℝ) (Err step : ℝ) (h1 : Err ≤ T.ErrMax_)
    (h2 : ¬ |step| ≤ T.MaxStep_) (h3 : 0 ≤ T.MaxStep_) :
    (T.StepControl Err step).1 = T.MaxStep_ := by
  have h4 : ¬ Err > T.ErrMax_ := not_lt.mpr h1
  have h5 : |step| > T.MaxStep_ := not_le.mp h2
  have h6 : ¬ |T.MaxStep_| < T.MaxStep_ / 1.5 := by
    rw [abs_of_nonneg h3, not_lt]
    have : T.MaxStep_ / 1.5 = T.MaxStep_ * (2 / 3) := by norm_num [div_eq_mul_inv]
    rw [this]
    nlinarith
  unfold Trace.StepControl
  simp only [h2, and_false, if_false, h4, h5, if_true, h6]

section Uniform

variable (T : Trace ℝ) (hF : ∀ x y z : ℝ, T.Field x y z = Except.ok (0, 0, 1))
include hF

theorem StepVector_uniform (x y z s3 : ℝ) :
    T.StepVector realLibm x y z s3 = Except.ok (0, 0, s3) := by
  unfold Trace.StepVector
  simp [hF, realLibm]

theorem StepTrial_uniform (x y z s3 : ℝ) :
    ∃ tr, T.StepTrial realLibm x y z s3 = Except.ok tr ∧ tr.Err = 0 ∧
      tr.rx1 = 0 ∧ tr.rx4 = 0 ∧ tr.rx5 = 0 ∧ tr.ry1 = 0 ∧ tr.ry4 = 0 ∧ tr.ry5 = 0 ∧
      tr.rz1 = s3 ∧ tr.rz4 = s3 ∧ tr.rz5 = s3 := by
  refine ⟨{ rx1 := 0, ry1 := 0, rz1 := s3, rx2 := 0, ry2 := 0, rz2 := s3, rx3 := 0, ry3 := 0,
            rz3 := s3, rx4 := 0, ry4 := 0, rz4 := s3, rx5 := 0, ry5 := 0, rz5 := s3,
            Err := |(0 : ℝ) - 4.5 * 0 + 4 * 0 - 0.5 * 0| + |(0 : ℝ) - 4.5 * 0 + 4 * 0 - 0.5 * 0|
              + |s3 - 4.5 * s3 + 4 * s3 - 0.5 * s3| }, ?_, ?_, rfl, rfl, rfl, rfl,
    rfl, rfl, rfl, rfl, rfl⟩
  · unfold Trace.StepTrial
    simp only [StepVector_uniform T hF, Exec.ok_bind, Exec.pure_eq]
  show |(0 : ℝ) - 4.5 * 0 + 4 * 0 - 0.5 * 0| + |(0 : ℝ) - 4.5 * 0 + 4 * 0 - 0.5 * 0|
    + |s3 - 4.5 * s3 + 4 * s3 - 0.5 * s3| = 0
  have : s3 - 4.5 * s3 + 4 * s3 - 0.5 * s3 = 0 := by ring
  rw [this]
  norm_num

/-- In the uniform field every `Step` returns within two passes of its loop. -/
theorem Step_uniform_returns (hE : 0 ≤ T.ErrMax_) (hM : 0 ≤ T.MaxStep_) (x y z st : ℝ) :
    ∃ r, T.Step realLibm 2 x y z st = Except.ok r := by
  obtain ⟨tr, htr, hErr, -⟩ := StepTrial_uniform T hF x y z (st / 3.0)
  have hle : tr.Err ≤ T.ErrMax_ := by rw [hErr]; exact hE
  unfold Trace.Step
  by_cases h : |st| ≤ T.MaxStep_
  · have hc := StepControl_exit T tr.Err st hle h
    simp [Trace.StepLoop, htr, hc, hF]
  · have hc1 := StepControl_clamp T tr.Err st hle h hM
    have hc2 := StepControl_exit T tr.Err T.MaxStep_ hle (by rw [abs_of_nonneg hM])
    by_cases hrep : (T.StepControl tr.Err st).2 = true
    · simp [Trace.StepLoop, htr, hrep, hc1, hc2, hF]
    · simp [Trace.StepLoop, htr, hrep, hF]

/-- In the uniform field a step whose length is at most `MaxStep_` and not
below `MaxStep_ / 1.5` moves the point by `st` along `z` and keeps the hint. -/
theorem Step_uniform_exact (hE : 0 ≤ T.ErrMax_) (x y z st : ℝ) (h1 : |st| ≤ T.MaxStep_)
    (h2 : ¬ |st| < T.MaxStep_ / 1.5) (fuel : Nat) (hfuel : 1 ≤ fuel) :
    T.Step realLibm fuel x y z st
      = Except.ok { step := st, x := x, y := y, z := z + st, Bx := 0, By := 0, Bz := 1 } := by
  obtain ⟨f, rfl⟩ : ∃ f, fuel = f + 1 := ⟨fuel - 1, by omega⟩
  obtain ⟨tr, htr, hErr, a1, a4, a5, b1, b4, b5, c1, c4, c5⟩ :=
    StepTrial_uniform T hF x y z (st / 3.0)
  have hle : tr.Err ≤ T.ErrMax_ := by rw [hErr]; exact hE
  have hc := StepControl_keep T tr.Err st hle h1 h2
  unfold Trace.Step
  simp only [Trace.StepLoop, htr, hc, Exec.ok_bind, Exec.pure_eq, hF, a1, a4, a5, b1, b4, b5,
    c1, c4, c5, Bool.false_eq_true, if_false]
  congr 1
  have ex : x + 0.5 * (0 + 4 * 0 + 0) = x := by norm_num
  have ez : z + 0.5 * (st / 3.0 + 4 * (st / 3.0) + st / 3.0) = z + st := by ring
  rw [ex, ez]
  have ey : y + 0.5 * (0 + 4 * 0 + 0) = y := by norm_num
  rw [ey]

end Uniform

theorem scenarioObj_Field (e x y z : ℝ) :
    (scenarioObj e).Field x y z = Except.ok (0, 0, 1) := by
  have hnf : (scenarioObj e).nf_ = 0 + 1 := rfl
  unfold Trace.Field
  rw [hnf, forLoop_succ _ _ _ _ le_rfl, forLoop_of_le _ _ _ _ le_rfl]
  simp [rd, scenarioObj, Trace.ctor, Trace.SetTraceCFGDefault, uniformZ]
  norm_num

/-- C4 in the uniform axial field scenario (`MaxLen_ = 100`, `ErrMax_ = 0`, seed
`(6, 0, 0)`, zeroed storage of 100 elements): every `Step` returns, so the trace
is produced and `1 ≤ nstep ≤ MaxLen_`. -/
theorem C4_RKMTrace_nstep_bounds_witness :
    ∃ (F : Nat) (r : TraceBuf ℝ),
      (∀ fuel, F ≤ fuel →
        (scenarioObj (0 : ℝ)).RKMTrace realLibm fuel 6 0 0 (zeroBuf 100) = Except.ok r) ∧
      1 ≤ r.nstep ∧ r.nstep ≤ (scenarioObj (0 : ℝ)).MaxLen_ ∧
      r.Sized (scenarioObj (0 : ℝ)).MaxLen_.toNat :=
  C4_RKMTrace_nstep_bounds realLibm (scenarioObj (0 : ℝ)) 6 0 0 (zeroBuf 100)
    (by show (1 : Int) ≤ 100; decide)
    (by
      show (zeroBuf 100 : TraceBuf ℝ).Sized 100
      simp [TraceBuf.Sized, zeroBuf])
    (fun x y z st => ⟨2, Step_uniform_returns (scenarioObj (0 : ℝ)) (scenarioObj_Field 0)
      (le_refl (0 : ℝ)) (by show (0 : ℝ) ≤ 0.5; norm_num) x y z st⟩)

/-! ## The uniform axial field scenario: the trace the code produces -/

theorem ContinueTrace_scenario (e z : ℝ) :
    ((scenarioObj e).ContinueTrace realLibm 6 0 z).1 = true := by
  apply ContinueTrace_fst_of_one_le
  rw [Real.one_le_sqrt]
  nlinarith [sq_nonneg z]

theorem uniform_body (e : ℝ) (he : 0 ≤ e) (z0 d : ℝ) (hd : |d| = 0.5) (bound : Int)
    (hb : bound < 100) (s : RKMState ℝ) (hP : UniformInv z0 d s) (hlt : s.buf.nstep < bound) :
    ∃ (F : Nat) (s' : RKMState ℝ),
      (∀ fuel, F ≤ fuel → (scenarioObj e).RKMBody realLibm fuel s = Except.ok s') ∧
      UniformInv z0 d s' ∧ s'.buf.nstep = s.buf.nstep + 1 := by
  obtain ⟨hsz, hcont, hstep, h1, hval⟩ := hP
  have hsz' := hsz
  obtain ⟨hR, hx, hy, hz, hBx, hBy, hBz⟩ := hsz'
  have h0 : 0 ≤ s.buf.nstep := by omega
  have hm : 0 ≤ s.buf.nstep - 1 := by omega
  have hN : s.buf.nstep < ((100 : Nat) : Int) := by omega
  have hkl : (((s.buf.nstep - 1).toNat : Nat) : Int) < s.buf.nstep := by omega
  have hsucc : s.buf.nstep.toNat = (s.buf.nstep - 1).toNat + 1 := by omega
  have hlx : s.buf.nstep.toNat < s.buf.x.size := by omega
  have hly : s.buf.nstep.toNat < s.buf.y.size := by omega
  have hlz : s.buf.nstep.toNat < s.buf.z.size := by omega
  have hcase : ∀ k : Nat, (k : Int) < s.buf.nstep + 1 → ¬ s.buf.nstep.toNat = k →
      (k : Int) < s.buf.nstep := by
    intro k hk hne
    omega
  obtain ⟨vx, vy, vz⟩ := hval _ hkl
  have hpx := (rd_eq_ok_iff s.buf.x (s.buf.nstep - 1) 6).2 ⟨hm, vx⟩
  have hpy := (rd_eq_ok_iff s.buf.y (s.buf.nstep - 1) 0).2 ⟨hm, vy⟩
  have hpz := (rd_eq_ok_iff s.buf.z (s.buf.nstep - 1) _).2 ⟨hm, vz⟩
  have hM1 : |s.step| ≤ (scenarioObj e).MaxStep_ := by
    rw [hstep, hd]
    exact le_refl (0.5 : ℝ)
  have hM2 : ¬ |s.step| < (scenarioObj e).MaxStep_ / 1.5 := by
    rw [hstep, hd]
    show ¬ (0.5 : ℝ) < 0.5 / 1.5
    norm_num
  refine ⟨1, _, fun fuel hf => RKMBody_ok realLibm (scenarioObj e) fuel s 100 hsz h1 hN
    6 0 _ hpx hpy hpz _
    (Step_uniform_exact (scenarioObj e) (scenarioObj_Field e) he 6 0 _ s.step hM1 hM2 fuel hf),
    ⟨?_, ?_, ?_, ?_, ?_⟩, rfl⟩
  · exact ⟨by simp only [Array.size_setD]; exact hR, by simp only [Array.size_setD]; exact hx,
      by simp only [Array.size_setD]; exact hy, by simp only [Array.size_setD]; exact hz,
      by simp only [Array.size_setD]; exact hBx, by simp only [Array.size_setD]; exact hBy,
      by simp only [Array.size_setD]; exact hBz⟩
  · exact ContinueTrace_scenario e _
  · exact hstep
  · show 1 ≤ s.buf.nstep + 1
    exact le_trans h1 (by exact le_add_of_nonneg_right (by norm_num))
  · intro k hk
    show (s.buf.x.setD s.buf.nstep.toNat 6)[k]? = some 6 ∧
      (s.buf.y.setD s.buf.nstep.toNat 0)[k]? = some 0 ∧
      (s.buf.z.setD s.buf.nstep.toNat (z0 + d * ((s.buf.nstep - 1).toNat : ℝ) + s.step))[k]?
        = some (z0 + d * k)
    rw [getElem?_setD _ _ _ _ hlx, getElem?_setD _ _ _ _ hly, getElem?_setD _ _ _ _ hlz]
    by_cases hk' : s.buf.nstep.toNat = k
    · simp only [hk', if_true, true_and]
      congr 1
      rw [hstep, ← hk', hsucc]
      push_cast
      ring
    · simp only [hk', if_false]
      exact hval k (hcase k hk hk')

theorem uniform_loop (e : ℝ) (he : 0 ≤ e) (z0 d : ℝ) (hd : |d| = 0.5) (bound : Int)
    (hb : bound < 100) (s : RKMState ℝ) (hP : UniformInv z0 d s) :
    ∃ (F : Nat) (s' : RKMState ℝ),
      (∀ fuel, F ≤ fuel →
        (scenarioObj e).RKMLoop realLibm fuel bound (bound - s.buf.nstep).toNat s
          = Except.ok s') ∧
      UniformInv z0 d s' ∧ s'.buf.nstep = max s.buf.nstep bound := by
  obtain ⟨F, s', hrun, hP', hle, hmax, hfin⟩ :=
    RKMLoop_inv realLibm (scenarioObj e) bound (UniformInv z0 d)
      (fun s hP _ hlt => uniform_body e he z0 d hd bound hb s hP hlt)
      (bound - s.buf.nstep).toNat s hP le_rfl
  refine ⟨F, s', hrun, hP', ?_⟩
  have hc : bound ≤ s'.buf.nstep := by
    rcases hfin with h | h
    · rw [hP'.2.1] at h
      exact absurd h (by decide)
    · exact h
  exact le_antisymm hmax (max_le hle hc)

/-- C3, the code as written: in the scenario (seed `(6, 0, 0)`, field `(0, 0, 1)`,
`TraceDir_ = 0`, `MaxLen_ = 100`, all step sizes `0.5`, `MaxR_ = 10`, any
`ErrMax_ ≥ 0`) `RKMTrace` returns a trace of `nstep = 99` samples on the line
`x = 6`, `y = 0`, sample `k` having `z = 24 - k/2`: it runs from `z = 24` to
`z = -25`, past `|z| = 8`, until the length limits stop it. -/
theorem C3_scenario_trace_runs_to_length_limit (e : ℝ) (he : 0 ≤ e) :
    ∃ (F : Nat) (r : TraceBuf ℝ),
      (∀ fuel, F ≤ fuel →
        (scenarioObj e).RKMTrace realLibm fuel 6 0 0 (zeroBuf 100) = Except.ok r) ∧
      r.nstep = 99 ∧
      ∀ k : Nat, k < 99 →
        r.x[k]? = some 6 ∧ r.y[k]? = some 0 ∧ r.z[k]? = some (24 - 0.5 * (k : ℝ)) := by
  have hsz : (zeroBuf 100 : TraceBuf ℝ).Sized 100 := by simp [TraceBuf.Sized, zeroBuf]
  have hinit := RKMInit_ok realLibm (scenarioObj e) 6 0 0 (zeroBuf 100) 100 hsz (by norm_num)
    _ (scenarioObj_Field e 6 0 0)
  have hb1 : Int.tdiv (scenarioObj e).MaxLen_ 2 - 1 = 49 := rfl
  have hb2 : (scenarioObj e).MaxLen_ - 1 = 99 := rfl
  have hd1 : (scenarioObj e).TraceDir_ = 1 ∨ (scenarioObj e).TraceDir_ = 0 := Or.inr rfl
  have hd2 : (scenarioObj e).TraceDir_ = -1 ∨ (scenarioObj e).TraceDir_ = 0 := Or.inr rfl
  obtain ⟨s0, hs0, hP0, hn0⟩ : ∃ s0, (scenarioObj e).RKMInit realLibm 6 0 0 (zeroBuf 100)
      = Except.ok s0 ∧ UniformInv 0 0.5 s0 ∧ s0.buf.nstep = 1 := by
    refine ⟨_, hinit, ⟨?_, ContinueTrace_scenario e 0, rfl, le_refl _, ?_⟩, rfl⟩
    · simp [TraceBuf.Sized, zeroBuf]
    · intro k hk
      have hk0 : k = 0 := by
        have : (k : Int) < 1 := hk
        omega
      subst hk0
      simp [zeroBuf, getElem?_setD]
  obtain ⟨F1, s1, hrun1, hP1, hn1⟩ :=
    uniform_loop e he 0 0.5 (abs_of_pos (by norm_num)) 49 (by norm_num) s0 hP0
  have hn1' : s1.buf.nstep = 49 := by rw [hn1, hn0]; rfl
  obtain ⟨s2, hturn, hs2, hn2, hstep2, hval2, hcont2⟩ :=
    RKMTurn_ok realLibm (scenarioObj e) s1 100 hP1.1 hP1.2.2.2.1 (by rw [hn1']; norm_num)
  have hP2 : UniformInv 24 (-0.5) s2 := by
    refine ⟨hs2, ?_, ?_, by rw [hn2]; exact hP1.2.2.2.1, ?_⟩
    · obtain ⟨vx, vy, vz⟩ := hP1.2.2.2.2 0 (by rw [hn1']; norm_num)
      rw [hcont2 6 0 _ vx vy vz]
      exact ContinueTrace_scenario e _
    · rw [hstep2]
      show -(0.5 : ℝ) = -0.5
      rfl
    · intro k hk
      rw [hn2] at hk
      obtain ⟨wx, wy, wz, -⟩ := hval2 k hk
      have hk' : (((s1.buf.nstep - 1 - (k : Int)).toNat : Nat) : Int) < s1.buf.nstep := by omega
      obtain ⟨vx, vy, vz⟩ := hP1.2.2.2.2 _ hk'
      rw [wx, wy, wz, vx, vy, vz]
      refine ⟨rfl, rfl, ?_⟩
      congr 1
      have hc : (((s1.buf.nstep - 1 - (k : Int)).toNat : Nat) : ℝ) = 48 - (k : ℝ) := by
        have h48 : (s1.buf.nstep - 1 - (k : Int)).toNat = 48 - k := by omega
        have hk48 : k ≤ 48 := by omega
        rw [h48, Nat.cast_sub hk48]
        norm_num
      rw [hc]
      ring
  obtain ⟨F2, s3, hrun2, hP3, hn3⟩ :=
    uniform_loop e he 24 (-0.5) (by rw [abs_neg]; exact abs_of_pos (by norm_num)) 99 (by norm_num)
      s2 hP2
  have hn3' : s3.buf.nstep = 99 := by rw [hn3, hn2, hn1']; rfl
  refine ⟨max F1 F2, s3.buf, fun fuel hf => ?_, hn3', ?_⟩
  · have e1 := hrun1 fuel (le_trans (le_max_left _ _) hf)
    have e2 := hrun2 fuel (le_trans (le_max_right _ _) hf)
    unfold Trace.RKMTrace
    simp only [hs0, Exec.ok_bind, Exec.pure_eq, hd1, hd2, if_true, hb1, hb2, e1, hturn, e2]
  · intro k hk
    obtain ⟨vx, vy, vz⟩ := hP3.2.2.2.2 k (by rw [hn3']; exact_mod_cast hk)
    refine ⟨vx, vy, ?_⟩
    rw [vz]
    congr 1
    ring

/-- C3 at `ErrMax_ = 0`: the scenario yields `nstep = 99` and the samples
`(6, 0, 24 - k/2)`. -/
theorem C3_scenario_trace_runs_to_length_limit_witness :
    (0 : ℝ) ≤ 0 ∧
    ∃ (F : Nat) (r : TraceBuf ℝ),
      (∀ fuel, F ≤ fuel →
        (scenarioObj (0 : ℝ)).RKMTrace realLibm fuel 6 0 0 (zeroBuf 100) = Except.ok r) ∧
      r.nstep = 99 ∧
      ∀ k : Nat, k < 99 →
        r.x[k]? = some 6 ∧ r.y[k]? = some 0 ∧ r.z[k]? = some (24 - 0.5 * (k : ℝ)) :=
  ⟨le_refl 0, C3_scenario_trace_runs_to_length_limit 0 (le_refl 0)⟩

/-! ## The tracing entry point `TraceField` -/

section Entry

variable {α : Type}

/-- The members `_TraceField` never assigns. -/
theorem _TraceField_keeps (u : α) (T : Trace α) :
    (T._TraceField u).1.nstep_ = T.nstep_ ∧ (T._TraceField u).1.x_ = T.x_ ∧
    (T._TraceField u).1.y_ = T.y_ ∧ (T._TraceField u).1.z_ = T.z_ ∧
    (T._TraceField u).1.bx_ = T.bx_ ∧ (T._TraceField u).1.by_ = T.by_ ∧
    (T._TraceField u).1.bz_ = T.bz_ ∧ (T._TraceField u).1.tracedField_ = T.tracedField_ := by
  unfold Trace._TraceField
  split_ifs <;> exact ⟨rfl, rfl, rfl, rfl, rfl, rfl, rfl, rfl⟩

/-- A failed check of `_TraceField` prints a diagnostic and assigns nothing. -/
theorem _TraceField_of_missing (u : α) (T : Trace α)
    (h : T.tracedField_ = true ∨ T.inputPos_ = false ∨ T.setModel_ = false ∨
      T.inputModelParams_ = false) :
    (T._TraceField u).1 = T ∧ (T._TraceField u).2 ≠ none := by
  unfold Trace._TraceField
  split_ifs with h1 h2 h3 h4
  · exact ⟨rfl, by simp⟩
  · exact ⟨rfl, by simp⟩
  · exact ⟨rfl, by simp⟩
  · exact ⟨rfl, by simp⟩
  · exfalso
    rcases h with h | h | h | h
    · exact h1 h
    · simp [h] at h2
    · simp [h] at h3
    · simp [h] at h4

/-- C5, the code as written: `TraceField()` stores no trace.  Whatever the
object, after the call the step counts are the storage as it was allocated (or as
it was before, when already allocated) and the six trace arrays are fresh
storage of indeterminate content `u`: no step count and no sample is written,
and `tracedField_` is not set. -/
theorem C5_TraceField_stores_no_trace (ui : Int) (u : α) (T : Trace α) :
    (T.TraceField ui u).1.nstep_ = (if T.allocNstep_ then T.nstep_ else newArray T.n_ ui) ∧
    (T.TraceField ui u).1.x_ = newArray T.n_ (newArray T.MaxLen_ u) ∧
    (T.TraceField ui u).1.y_ = newArray T.n_ (newArray T.MaxLen_ u) ∧
    (T.TraceField ui u).1.z_ = newArray T.n_ (newArray T.MaxLen_ u) ∧
    (T.TraceField ui u).1.bx_ = newArray T.n_ (newArray T.MaxLen_ u) ∧
    (T.TraceField ui u).1.by_ = newArray T.n_ (newArray T.MaxLen_ u) ∧
    (T.TraceField ui u).1.bz_ = newArray T.n_ (newArray T.MaxLen_ u) ∧
    (T.TraceField ui u).1.tracedField_ = T.tracedField_ := by
  unfold Trace.TraceField
  obtain ⟨k1, k2, k3, k4, k5, k6, k7, k8⟩ := _TraceField_keeps u
    { (if (!T.allocNstep_) = true then
        { T with nstep_ := newArray T.n_ ui, allocNstep_ := true } else T) with
      x_ := newArray T.n_ (newArray T.MaxLen_ u), y_ := newArray T.n_ (newArray T.MaxLen_ u)
      z_ := newArray T.n_ (newArray T.MaxLen_ u), bx_ := newArray T.n_ (newArray T.MaxLen_ u)
      by_ := newArray T.n_ (newArray T.MaxLen_ u), bz_ := newArray T.n_ (newArray T.MaxLen_ u)
      allocTrace_ := true }
  refine ⟨?_, ?_, ?_, ?_, ?_, ?_, ?_, ?_⟩
  · cases hn : T.allocNstep_ <;> simp [hn] at k1 ⊢ <;> exact k1
  · cases hn : T.allocNstep_ <;> simp [hn] at k2 ⊢ <;> exact k2
  · cases hn : T.allocNstep_ <;> simp [hn] at k3 ⊢ <;> exact k3
  · cases hn : T.allocNstep_ <;> simp [hn] at k4 ⊢ <;> exact k4
  · cases hn : T.allocNstep_ <;> simp [hn] at k5 ⊢ <;> exact k5
  · cases hn : T.allocNstep_ <;> simp [hn] at k6 ⊢ <;> exact k6
  · cases hn : T.allocNstep_ <;> simp [hn] at k7 ⊢ <;> exact k7
  · cases hn : T.allocNstep_ <;> simp [hn] at k8 ⊢ <;> exact k8

/-- The scenario object is what `InputPos` makes of the constructed object. -/
theorem seededObj_eq :
    (scenarioObj (0 : ℝ)).InputPos 0 1 #[6] #[0] #[0] = Except.ok (seededObj, none) := by
  rfl

/-- Method `TraceField()` on the seeded scenario object with zeroed fresh storage: it
prints "Set model function with SetModel() first" and leaves `nstep_[0] = 0` and
an all-zero row for `x_[0]`. -/
theorem TraceField_seededObj :
    ((seededObj : Trace ℝ).TraceField 0 0).2 = some Message.needSetModel ∧
    ((seededObj : Trace ℝ).TraceField 0 0).1.nstep_ = #[0] ∧
    ((seededObj : Trace ℝ).TraceField 0 0).1.x_ = #[Array.mkArray 100 0] := by
  refine ⟨rfl, rfl, rfl⟩

/-- C8, the code as written: on an object whose `tracedField_` is true,
`TraceField()` prints "Attempted to trace twice?" and returns without tracing,
but only after it has replaced the six trace arrays by fresh storage: the
samples held before the call are no longer in the object. -/
theorem C8_TraceField_again_replaces_arrays (ui : Int) (u : α) (T : Trace α)
    (h : T.tracedField_ = true) :
    (T.TraceField ui u).2 = some Message.tracedTwice ∧
    (T.TraceField ui u).1.nstep_ = (if T.allocNstep_ then T.nstep_ else newArray T.n_ ui) ∧
    (T.TraceField ui u).1.x_ = newArray T.n_ (newArray T.MaxLen_ u) ∧
    (T.TraceField ui u).1.y_ = newArray T.n_ (newArray T.MaxLen_ u) ∧
    (T.TraceField ui u).1.z_ = newArray T.n_ (newArray T.MaxLen_ u) ∧
    (T.TraceField ui u).1.bx_ = newArray T.n_ (newArray T.MaxLen_ u) ∧
    (T.TraceField ui u).1.by_ = newArray T.n_ (newArray T.MaxLen_ u) ∧
    (T.TraceField ui u).1.bz_ = newArray T.n_ (newArray T.MaxLen_ u) := by
  unfold Trace.TraceField Trace._TraceField
  cases hn : T.allocNstep_ <;> simp [h]

/-- Fresh two-dimensional storage has rows of the length asked for. -/
theorem newArray_rows {β : Type} (n L : Int) (u : β) (hL : 0 ≤ L) :
    ∀ row ∈ (newArray n (newArray L u)).toList, (row.size : Int) = L := by
  intro row hrow
  simp only [newArray, Array.toList_mkArray] at hrow
  rw [List.eq_of_mem_replicate hrow]
  simp [Int.toNat_of_nonneg hL]

/-- C9, the code as written: on an object whose seeds `InputPos` has set (so
that `n_` is assigned) with the sizes `0 ≤ n_` and `0 ≤ MaxLen_`, and that lacks
the model or the model parameters, `TraceField()` prints a diagnostic and
returns without tracing, whatever `tracedField_` holds, but only after it has
allocated: `allocNstep_` and `allocTrace_` are true after the call, `nstep_` is
fresh storage unless it was allocated before, and the six trace arrays are
fresh storage of `n_` rows of `MaxLen_` elements.  This is the allocation
before the check of C8. -/
theorem C9_TraceField_refusal_keeps_allocation (ui : Int) (u : α) (T : Trace α)
    (hi : T.inputPos_ = true) (hn : 0 ≤ T.n_) (hL : 0 ≤ T.MaxLen_)
    (h : T.setModel_ = false ∨ T.inputModelParams_ = false) :
    ((T.TraceField ui u).2 = some Message.tracedTwice ∨
      (T.TraceField ui u).2 = some Message.needSetModel ∨
      (T.TraceField ui u).2 = some Message.needModelParams) ∧
    (T.TraceField ui u).1.allocNstep_ = true ∧
    (T.TraceField ui u).1.allocTrace_ = true ∧
    (T.TraceField ui u).1.nstep_ = (if T.allocNstep_ then T.nstep_ else newArray T.n_ ui) ∧
    (T.TraceField ui u).1.x_ = newArray T.n_ (newArray T.MaxLen_ u) ∧
    (T.TraceField ui u).1.y_ = newArray T.n_ (newArray T.MaxLen_ u) ∧
    (T.TraceField ui u).1.z_ = newArray T.n_ (newArray T.MaxLen_ u) ∧
    (T.TraceField ui u).1.bx_ = newArray T.n_ (newArray T.MaxLen_ u) ∧
    (T.TraceField ui u).1.by_ = newArray T.n_ (newArray T.MaxLen_ u) ∧
    (T.TraceField ui u).1.bz_ = newArray T.n_ (newArray T.MaxLen_ u) ∧
    ((T.TraceField ui u).1.x_.size : Int) = T.n_ ∧
    ∀ row ∈ (T.TraceField ui u).1.x_.toList, (row.size : Int) = T.MaxLen_ := by
  have hsz : ((newArray T.n_ (newArray T.MaxLen_ u)).size : Int) = T.n_ := by
    simp [newArray, Int.toNat_of_nonneg hn]
  have hrows := newArray_rows T.n_ T.MaxLen_ u hL
  have hx : (T.TraceField ui u).1.x_ = newArray T.n_ (newArray T.MaxLen_ u) := by
    unfold Trace.TraceField Trace._TraceField
    cases hN : T.allocNstep_ <;> cases ht : T.tracedField_ <;> cases hs : T.setModel_ <;>
      cases hp : T.inputModelParams_ <;> simp_all
  rw [hx]
  refine ⟨?_, ?_, ?_, ?_, rfl, ?_, ?_, ?_, ?_, ?_, hsz, hrows⟩
  all_goals
    unfold Trace.TraceField Trace._TraceField
    cases hN : T.allocNstep_ <;> cases ht : T.tracedField_ <;> cases hs : T.setModel_ <;>
      cases hp : T.inputModelParams_ <;> simp_all

/-- C8 on the traced object `tracedObj` with zeroed fresh storage: the call is
rejected with "Attempted to trace twice?", and the `z` samples `(0, 0.5)` the
object held are replaced by the fresh row `(0, 0)`. -/
theorem C8_TraceField_again_replaces_arrays_witness :
    (tracedObj : Trace ℝ).tracedField_ = true ∧
    (((tracedObj : Trace ℝ).TraceField 0 0).2 = some Message.tracedTwice ∧
    ((tracedObj : Trace ℝ).TraceField 0 0).1.nstep_
      = (if (tracedObj : Trace ℝ).allocNstep_ then (tracedObj : Trace ℝ).nstep_
          else newArray (tracedObj : Trace ℝ).n_ 0) ∧
    ((tracedObj : Trace ℝ).TraceField 0 0).1.x_ = newArray 1 (newArray 2 0) ∧
    ((tracedObj : Trace ℝ).TraceField 0 0).1.y_ = newArray 1 (newArray 2 0) ∧
    ((tracedObj : Trace ℝ).TraceField 0 0).1.z_ = newArray 1 (newArray 2 0) ∧
    ((tracedObj : Trace ℝ).TraceField 0 0).1.bx_ = newArray 1 (newArray 2 0) ∧
    ((tracedObj : Trace ℝ).TraceField 0 0).1.by_ = newArray 1 (newArray 2 0) ∧
    ((tracedObj : Trace ℝ).TraceField 0 0).1.bz_ = newArray 1 (newArray 2 0)) ∧
    ((tracedObj : Trace ℝ).TraceField 0 0).1.z_ ≠ (tracedObj : Trace ℝ).z_ :=
  have h := C8_TraceField_again_replaces_arrays 0 (0 : ℝ) tracedObj rfl
  ⟨rfl, h, by
    rw [h.2.2.2.2.1]
    intro hz
    have e1 : newArray (tracedObj : Trace ℝ).n_ (newArray (tracedObj : Trace ℝ).MaxLen_ (0 : ℝ))
        = #[#[0, 0]] := rfl
    have e2 : (tracedObj : Trace ℝ).z_ = #[#[0, 0.5]] := rfl
    rw [e1, e2] at hz
    simp at hz
    norm_num at hz⟩

/-- C9 on the seeded scenario object (`InputPos` has run with one seed, no
model is set, nothing is allocated) with zeroed fresh storage: the call is
refused, and the object is not as it was: both flags went from false to true
and `x_`, which held no storage, is one row of `MaxLen_ = 100` elements. -/
theorem C9_TraceField_refusal_keeps_allocation_witness :
    ((seededObj : Trace ℝ).inputPos_ = true ∧ 0 ≤ (seededObj : Trace ℝ).n_ ∧
      0 ≤ (seededObj : Trace ℝ).MaxLen_ ∧
      ((seededObj : Trace ℝ).setModel_ = false ∨
        (seededObj : Trace ℝ).inputModelParams_ = false)) ∧
    ((((seededObj : Trace ℝ).TraceField 0 0).2 = some Message.tracedTwice ∨
      ((seededObj : Trace ℝ).TraceField 0 0).2 = some Message.needSetModel ∨
      ((seededObj : Trace ℝ).TraceField 0 0).2 = some Message.needModelParams) ∧
    ((seededObj : Trace ℝ).TraceField 0 0).1.allocNstep_ = true ∧
    ((seededObj : Trace ℝ).TraceField 0 0).1.allocTrace_ = true ∧
    ((seededObj : Trace ℝ).TraceField 0 0).1.nstep_
      = (if (seededObj : Trace ℝ).allocNstep_ then (seededObj : Trace ℝ).nstep_
          else newArray (seededObj : Trace ℝ).n_ 0) ∧
    ((seededObj : Trace ℝ).TraceField 0 0).1.x_ = newArray 1 (newArray 100 0) ∧
    ((seededObj : Trace ℝ).TraceField 0 0).1.y_ = newArray 1 (newArray 100 0) ∧
    ((seededObj : Trace ℝ).TraceField 0 0).1.z_ = newArray 1 (newArray 100 0) ∧
    ((seededObj : Trace ℝ).TraceField 0 0).1.bx_ = newArray 1 (newArray 100 0) ∧
    ((seededObj : Trace ℝ).TraceField 0 0).1.by_ = newArray 1 (newArray 100 0) ∧
    ((seededObj : Trace ℝ).TraceField 0 0).1.bz_ = newArray 1 (newArray 100 0) ∧
    ((((seededObj : Trace ℝ).TraceField 0 0).1.x_.size : Nat) : Int) = 1 ∧
    ∀ row ∈ ((seededObj : Trace ℝ).TraceField 0 0).1.x_.toList, (row.size : Int) = 100) ∧
    ((seededObj : Trace ℝ).TraceField 0 0).2 = some Message.needSetModel ∧
    (seededObj : Trace ℝ).allocNstep_ = false ∧
    (seededObj : Trace ℝ).allocTrace_ = false ∧
    (seededObj : Trace ℝ).x_ = #[] ∧
    ((seededObj : Trace ℝ).TraceField 0 0).1.x_ = #[Array.mkArray 100 0] :=
  ⟨⟨rfl, by decide, by decide, Or.inl rfl⟩,
    C9_TraceField_refusal_keeps_allocation 0 (0 : ℝ) seededObj rfl (by decide) (by decide)
      (Or.inl rfl),
    rfl, rfl, rfl, rfl, rfl⟩

end Entry

/-! ## The normalised radial distance -/

theorem forLoop_pure {σ : Type} (lo hi : Int) (s : σ) :
    forLoop lo hi (fun _ (st : σ) => (pure st : Exec σ)) s = Except.ok s := by
  rcases le_total hi lo with h | h
  · exact forLoop_of_le _ _ _ _ h
  · obtain ⟨s', hs', rfl⟩ := forLoop_inv (fun _ (st : σ) => st = s) lo hi
      (fun _ (st : σ) => (pure st : Exec σ)) s h rfl (fun i st _ _ hst => ⟨st, rfl, hst⟩)
    exact hs'

/-- Method `_CalculateTraceRnorm` makes no test: when `nstep_` holds the `n_` step
counts that its loops read, it returns the object with `hasRnorm_` set. -/
theorem _CalculateTraceRnorm_ok {α : Type} (T : Trace α) (hn : T.n_ ≤ T.nstep_.size) :
    T._CalculateTraceRnorm = Except.ok { T with hasRnorm_ := true } := by
  unfold Trace._CalculateTraceRnorm
  have hloop : forLoop 0 T.n_ (fun i (T : Trace α) => do
      forLoop 0 (← rd T.nstep_ i) (fun _ (T : Trace α) => pure T) T) T = Except.ok T := by
    rcases le_total T.n_ 0 with h | h
    · exact forLoop_of_le _ _ _ _ h
    · obtain ⟨s', hs', rfl⟩ := forLoop_inv (fun _ (st : Trace α) => st = T) 0 T.n_
        (fun i (T : Trace α) => do
          forLoop 0 (← rd T.nstep_ i) (fun _ (T : Trace α) => pure T) T) T h rfl
        (fun i st h0 hi hst => by
          subst hst
          obtain ⟨m, hm⟩ := rd_exists st.nstep_ i h0 (by omega)
          refine ⟨st, ?_, rfl⟩
          show (rd st.nstep_ i >>= fun m => forLoop 0 m (fun _ (T : Trace α) => pure T) st)
            = Except.ok st
          rw [hm]
          exact forLoop_pure _ _ _)
      exact hs'
  rw [hloop]
  rfl

/-- C10, the code as written: `CalculateTraceRnorm` (both overloads) makes no
test of `hasR_` or `hasFootprints_`.  On every object whose `nstep_` holds the
`n_` step counts the loops read, whatever these two flags are, it returns
normally with `hasRnorm_` set to true and the flags `hasR_`, `hasFootprints_`
as they were. -/
theorem C10_CalculateTraceRnorm_sets_hasRnorm {α : Type} (u : α) (T : Trace α)
    (Rnorm : Array (Array α)) (hn : T.n_ ≤ T.nstep_.size) :
    T.CalculateTraceRnorm u = Except.ok
      { T with Rnorm_ := newArray T.n_ (newArray T.MaxLen_ u), allocRnorm_ := true,
               hasRnorm_ := true } ∧
    T.CalculateTraceRnormInto Rnorm = Except.ok { T with Rnorm_ := Rnorm, hasRnorm_ := true } := by
  constructor
  · exact _CalculateTraceRnorm_ok
      { T with Rnorm_ := newArray T.n_ (newArray T.MaxLen_ u), allocRnorm_ := true } hn
  · exact _CalculateTraceRnorm_ok { T with Rnorm_ := Rnorm } hn

/-- C10 on the seeded scenario object after `TraceField()`: `hasR_` and
`hasFootprints_` are false, and `CalculateTraceRnorm` returns with
`hasRnorm_ = true`. -/
theorem C10_CalculateTraceRnorm_sets_hasRnorm_witness :
    (((seededObj : Trace ℝ).TraceField 0 0).1.n_
      ≤ (((seededObj : Trace ℝ).TraceField 0 0).1.nstep_.size : Int)) ∧
    ((seededObj : Trace ℝ).TraceField 0 0).1.hasR_ = false ∧
    ((seededObj : Trace ℝ).TraceField 0 0).1.hasFootprints_ = false ∧
    (((seededObj : Trace ℝ).TraceField 0 0).1.CalculateTraceRnorm 0 = Except.ok
      { ((seededObj : Trace ℝ).TraceField 0 0).1 with
        Rnorm_ := newArray ((seededObj : Trace ℝ).TraceField 0 0).1.n_
          (newArray ((seededObj : Trace ℝ).TraceField 0 0).1.MaxLen_ 0),
        allocRnorm_ := true, hasRnorm_ := true } ∧
    ((seededObj : Trace ℝ).TraceField 0 0).1.CalculateTraceRnormInto #[] = Except.ok
      { ((seededObj : Trace ℝ).TraceField 0 0).1 with Rnorm_ := #[], hasRnorm_ := true }) :=
  have hn : ((seededObj : Trace ℝ).TraceField 0 0).1.n_
      ≤ (((seededObj : Trace ℝ).TraceField 0 0).1.nstep_.size : Int) := by
    show (1 : Int) ≤ ((1 : Nat) : Int)
    decide
  ⟨hn, rfl, rfl,
    C10_CalculateTraceRnorm_sets_hasRnorm 0 ((seededObj : Trace ℝ).TraceField 0 0).1 #[] hn⟩

/-! ## The radial distance -/

/-- A counted loop with at least one pass runs its body at `lo` first. -/
theorem forLoop_head {σ : Type} (lo hi : Int) (body : Int → σ → Exec σ) (s : σ) (h : lo < hi) :
    forLoop lo hi body s = body lo s >>= forLoop (lo + 1) hi body := by
  unfold forLoop
  obtain ⟨n, hn⟩ : ∃ n : Nat, (hi - lo).toNat = n + 1 := ⟨(hi - lo).toNat - 1, by omega⟩
  have hn' : (hi - (lo + 1)).toNat = n := by omega
  rw [hn, hn', List.range_succ_eq_map, List.foldlM_cons]
  have e0 : lo + ((0 : Nat) : Int) = lo := by simp
  rw [e0]
  congr 1
  funext s'
  rw [List.foldlM_map]
  congr 1
  funext st k
  congr 1
  push_cast
  ring

/-- C7, the code as written: for every batch with at least one seed whose
first trace has `nstep_[0] ≥ 1` (and whose first sample and `S_` row exist),
`_CalculateTraceR` faults on its first pass by reading `S_[0][-1]`, the element
one position before the first of the arc-length row: its statement is
`S_[i][j] = S_[i][j-1] + sqrt(x2 + y2 + z2)` with `j` starting at `0`, so it
reads and writes `S_` and never stores into `R_`. -/
theorem C7_CalculateTraceR_reads_S_before_first {α : Type} [LinearOrderedField α]
    (M : Libm α) (T : Trace α) (hn : 1 ≤ T.n_) (m : Int) (hm : rd T.nstep_ 0 = Except.ok m)
    (h1 : 1 ≤ m) (x0 y0 z0 : α) (hx : rd2 T.x_ 0 0 = Except.ok x0)
    (hy : rd2 T.y_ 0 0 = Except.ok y0) (hz : rd2 T.z_ 0 0 = Except.ok z0)
    (row : Array α) (hS : rd T.S_ 0 = Except.ok row) :
    T._CalculateTraceR M = Except.error (Fault.outOfBounds (-1)) := by
  have hrow : rd2 T.S_ 0 (0 - 1) = Except.error (Fault.outOfBounds (-1)) := by
    unfold rd2
    rw [hS]
    exact rd_neg row (-1) (by decide)
  unfold Trace._CalculateTraceR
  rw [forLoop_head 0 T.n_ _ _ (by omega)]
  simp only [hm, Exec.ok_bind]
  rw [forLoop_head 0 m _ _ (by omega)]
  simp only [hx, hy, hz, hrow, Exec.ok_bind, Exec.error_bind]

/-- C7 on a batch of one seed with the single sample `(3, 4, 0)`, `nstep_[0] = 1`
and a one-element row for `S_`: the call faults reading `S_[0][-1]`. -/
theorem C7_CalculateTraceR_reads_S_before_first_witness :
    (1 : Int) ≤ ({ (seededObj : Trace ℝ) with
        nstep_ := #[1], x_ := #[#[3]], y_ := #[#[4]], z_ := #[#[0]], S_ := #[#[0]],
        R_ := #[#[0]] } : Trace ℝ).n_ ∧
    rd ({ (seededObj : Trace ℝ) with
        nstep_ := #[1], x_ := #[#[3]], y_ := #[#[4]], z_ := #[#[0]], S_ := #[#[0]],
        R_ := #[#[0]] } : Trace ℝ).nstep_ 0 = Except.ok 1 ∧
    ({ (seededObj : Trace ℝ) with
        nstep_ := #[1], x_ := #[#[3]], y_ := #[#[4]], z_ := #[#[0]], S_ := #[#[0]],
        R_ := #[#[0]] } : Trace ℝ)._CalculateTraceR realLibm
      = Except.error (Fault.outOfBounds (-1)) :=
  ⟨by decide, rfl,
    C7_CalculateTraceR_reads_S_before_first realLibm _ (by decide) 1 rfl (by decide)
      3 4 0 rfl rfl rfl #[0] rfl⟩

/-! ## The arc length -/

section TwoDim

variable {α : Type} [Zero α]

theorem getD_setD_row (row : Array α) (j k : Nat) (v : α) (hj : j < row.size) :
    (row.setD j v).getD k 0 = if j = k then v else row.getD k 0 := by
  simp only [Array.getD_eq_get?, getElem?_setD row j k v hj]
  split_ifs <;> rfl

theorem at2_setD (a : Array (Array α)) (i i' k : Nat) (row' : Array α) (hi : i < a.size) :
    at2 (a.setD i row') i' k = if i = i' then row'.getD k 0 else at2 a i' k := by
  unfold at2
  simp only [Array.getD_eq_get?, getElem?_setD a i i' row' hi]
  split_ifs <;> rfl

theorem at2_of_row (a : Array (Array α)) (i k : Nat) (row : Array α) (h : a[i]? = some row) :
    at2 a i k = row.getD k 0 := by
  unfold at2
  simp only [Array.getD_eq_get?, h, Option.getD_some]

theorem rd_getD (row : Array α) (k : Int) (h0 : 0 ≤ k) (hk : k < row.size) :
    rd row k = Except.ok (row.getD k.toNat 0) := by
  have hlt : k.toNat < row.size := by omega
  rw [rd_eq_ok_iff]
  refine ⟨h0, ?_⟩
  rw [Array.getD_eq_get?, Array.getElem?_eq_getElem hlt]
  rfl

theorem rd2_ok (a : Array (Array α)) (i k : Int) (row : Array α) (h0i : 0 ≤ i)
    (hrow : a[i.toNat]? = some row) (h0k : 0 ≤ k) (hk : k < row.size) :
    rd2 a i k = Except.ok (at2 a i.toNat k.toNat) := by
  unfold rd2
  rw [(rd_eq_ok_iff a i row).2 ⟨h0i, hrow⟩]
  simp only [Exec.ok_bind]
  rw [rd_getD row k h0k hk, at2_of_row a _ _ row hrow]

omit [Zero α] in
theorem wr2_ok (a : Array (Array α)) (i k : Int) (v : α) (row : Array α) (h0i : 0 ≤ i)
    (hrow : a[i.toNat]? = some row) (h0k : 0 ≤ k) (hk : k < row.size) :
    wr2 a i k v = Except.ok (a.setD i.toNat (row.setD k.toNat v)) := by
  have hi : i < a.size := by
    by_contra hge
    have : a[i.toNat]? = none := by
      rw [Array.getElem?_eq_none_iff]
      omega
    rw [this] at hrow
    cases hrow
  unfold wr2
  rw [(rd_eq_ok_iff a i row).2 ⟨h0i, hrow⟩]
  simp only [Exec.ok_bind]
  rw [wr_ok row k v h0k hk]
  simp only [Exec.ok_bind]
  exact wr_ok a i _ h0i hi

omit [Zero α] in
theorem Shaped_setD (a : Array (Array α)) (N L i k : Nat) (v : α) (row : Array α)
    (h : Shaped a N L) (hrow : a[i]? = some row) :
    Shaped (a.setD i (row.setD k v)) N L := by
  have hi : i < a.size := by
    by_contra hge
    have : a[i]? = none := by
      rw [Array.getElem?_eq_none_iff]
      omega
    rw [this] at hrow
    cases hrow
  refine ⟨by rw [Array.size_setD]; exact h.1, ?_⟩
  intro i' row' hrow'
  rw [getElem?_setD a i i' _ hi] at hrow'
  split_ifs at hrow' with he
  · cases hrow'
    rw [Array.size_setD]
    exact h.2 i row hrow
  · exact h.2 i' row' hrow'

omit [Zero α] in
theorem Shaped_row (a : Array (Array α)) (N L i : Nat) (h : Shaped a N L) (hi : i < N) :
    ∃ row, a[i]? = some row ∧ row.size = L := by
  have hlt : i < a.size := by rw [h.1]; exact hi
  exact ⟨a[i], Array.getElem?_eq_getElem hlt, h.2 i _ (Array.getElem?_eq_getElem hlt)⟩

end TwoDim

theorem segLen_nonneg (T : Trace ℝ) (i k : Nat) : 0 ≤ segLen T i k := Real.sqrt_nonneg _

theorem TraceDistStep_ok (T : Trace ℝ) (N L : Nat) (hx : Shaped T.x_ N L)
    (hy : Shaped T.y_ N L) (hz : Shaped T.z_ N L) (S : Array (Array ℝ)) (i : Nat) (hi : i < N)
    (row : Array ℝ) (hrow : S[i]? = some row) (hrowL : row.size = L)
    (j : Nat) (h1 : 1 ≤ j) (hj : j < L) :
    T.TraceDistStep realLibm (i : Int) (j : Int) S
      = Except.ok (S.setD i (row.setD j (at2 S i (j - 1) + segLen T i j))) := by
  obtain ⟨rx, hrx, hrxL⟩ := Shaped_row T.x_ N L i hx hi
  obtain ⟨ry, hry, hryL⟩ := Shaped_row T.y_ N L i hy hi
  obtain ⟨rz, hrz, hrzL⟩ := Shaped_row T.z_ N L i hz hi
  have hi0 : (0 : Int) ≤ (i : Int) := Int.ofNat_nonneg i
  have hj0 : (0 : Int) ≤ (j : Int) := Int.ofNat_nonneg j
  have hjm0 : (0 : Int) ≤ (j : Int) - 1 := by omega
  have hjm : ((j : Int) - 1).toNat = j - 1 := by omega
  have hjL : ∀ r : Array ℝ, r.size = L → (j : Int) < r.size := by
    intro r hr
    omega
  have hjmL : ∀ r : Array ℝ, r.size = L → (j : Int) - 1 < r.size := by
    intro r hr
    omega
  have ti : ((i : Int)).toNat = i := Int.toNat_ofNat i
  have tj : ((j : Int)).toNat = j := Int.toNat_ofNat j
  have a1 := rd2_ok T.x_ i j rx hi0 (by rw [ti]; exact hrx) hj0 (hjL rx hrxL)
  have a2 := rd2_ok T.x_ i (j - 1) rx hi0 (by rw [ti]; exact hrx) hjm0 (hjmL rx hrxL)
  have b1 := rd2_ok T.y_ i j ry hi0 (by rw [ti]; exact hry) hj0 (hjL ry hryL)
  have b2 := rd2_ok T.y_ i (j - 1) ry hi0 (by rw [ti]; exact hry) hjm0 (hjmL ry hryL)
  have c1 := rd2_ok T.z_ i j rz hi0 (by rw [ti]; exact hrz) hj0 (hjL rz hrzL)
  have c2 := rd2_ok T.z_ i (j - 1) rz hi0 (by rw [ti]; exact hrz) hjm0 (hjmL rz hrzL)
  have d2 := rd2_ok S i (j - 1) row hi0 (by rw [ti]; exact hrow) hjm0 (hjmL row hrowL)
  rw [ti, tj] at a1 b1 c1
  rw [ti, hjm] at a2 b2 c2 d2
  unfold Trace.TraceDistStep
  simp only [a1, a2, b1, b2, c1, c2, d2, Exec.ok_bind]
  have w := wr2_ok S i j (at2 S i (j - 1) + segLen T i j) row hi0 (by rw [ti]; exact hrow) hj0
    (hjL row hrowL)
  rw [ti, tj] at w
  exact w

theorem at2_congr {α : Type} [Zero α] (a b : Array (Array α)) (i k : Nat) (h : a[i]? = b[i]?) :
    at2 a i k = at2 b i k := by
  unfold at2
  simp only [Array.getD_eq_get?, h]

theorem at2_update {α : Type} [Zero α] (S : Array (Array α)) (i j k : Nat) (v : α)
    (row : Array α) (hrow : S[i]? = some row) (hj : j < row.size) :
    at2 (S.setD i (row.setD j v)) i k = if j = k then v else at2 S i k := by
  have hi : i < S.size := by
    by_contra hge
    have : S[i]? = none := by
      rw [Array.getElem?_eq_none_iff]
      omega
    rw [this] at hrow
    cases hrow
  rw [at2_setD S i i k _ hi, if_pos rfl, getD_setD_row row j k v hj, at2_of_row S i k row hrow]

theorem getElem?_update_other {α : Type} (S : Array (Array α)) (i i' : Nat) (r : Array α)
    (row : Array α) (hrow : S[i]? = some row) (hne : i' ≠ i) :
    (S.setD i r)[i']? = S[i']? := by
  have hi : i < S.size := by
    by_contra hge
    have : S[i]? = none := by
      rw [Array.getElem?_eq_none_iff]
      omega
    rw [this] at hrow
    cases hrow
  rw [getElem?_setD S i i' r hi, if_neg (fun h => hne h.symm)]

/-- The loop over `j` of `_CalculateTraceDist` for seed `i`: it returns, keeps the
shape of `S_`, the other rows and `S_[i][0]`, and leaves the recurrence
`S_[i][k] = S_[i][k-1] + segLen` at every `1 ≤ k < m`. -/
theorem TraceDistLoop_ok (T : Trace ℝ) (N L : Nat) (hx : Shaped T.x_ N L)
    (hy : Shaped T.y_ N L) (hz : Shaped T.z_ N L) (S : Array (Array ℝ)) (hS : Shaped S N L)
    (i : Nat) (hi : i < N) (m : Int) (hm : m ≤ L) (h0 : at2 S i 0 = 0) :
    ∃ S', forLoop 1 m (T.TraceDistStep realLibm i) S = Except.ok S' ∧ Shaped S' N L ∧
      (∀ i' : Nat, i' ≠ i → S'[i']? = S[i']?) ∧ at2 S' i 0 = 0 ∧
      ∀ k : Nat, 1 ≤ k → (k : Int) < m → at2 S' i k = at2 S' i (k - 1) + segLen T i k := by
  rcases le_total m 1 with hle | hle
  · exact ⟨S, forLoop_of_le _ _ _ _ hle, hS, fun _ _ => rfl, h0, fun k h1 hk => by omega⟩
  · obtain ⟨S', hrun, hS', hoth, h0', hrec⟩ := forLoop_inv
      (fun (j : Int) (S' : Array (Array ℝ)) => Shaped S' N L ∧
        (∀ i' : Nat, i' ≠ i → S'[i']? = S[i']?) ∧ at2 S' i 0 = 0 ∧
        ∀ k : Nat, 1 ≤ k → (k : Int) < j → at2 S' i k = at2 S' i (k - 1) + segLen T i k)
      1 m (T.TraceDistStep realLibm i) S hle
      ⟨hS, fun _ _ => rfl, h0, fun k h1 hk => by omega⟩
      (by
        intro j S' hj1 hjm ⟨hS', hoth, h0', hrec⟩
        obtain ⟨j', rfl⟩ : ∃ j' : Nat, j = (j' : Int) := ⟨j.toNat, by omega⟩
        have hj1' : 1 ≤ j' := by omega
        have hjL : j' < L := by omega
        have hcase : ∀ k : Nat, (k : Int) < (j' : Int) + 1 → ¬ j' = k → (k : Int) < (j' : Int) := by
          intro k hk hne
          omega
        have hpred : ∀ k : Nat, 1 ≤ k → (k : Int) < (j' : Int) + 1 → ¬ j' = k - 1 := by
          intro k h1 hk
          omega
        obtain ⟨row, hrow, hrowL⟩ := Shaped_row S' N L i hS' hi
        have hjr : j' < row.size := by rw [hrowL]; exact hjL
        refine ⟨_, TraceDistStep_ok T N L hx hy hz S' i hi row hrow hrowL j' hj1' hjL,
          Shaped_setD S' N L i j' _ row hS' hrow, ?_, ?_, ?_⟩
        · intro i' hne
          rw [getElem?_update_other S' i i' _ row hrow hne]
          exact hoth i' hne
        · rw [at2_update S' i j' 0 _ row hrow hjr, if_neg (by omega)]
          exact h0'
        · intro k h1 hk
          rw [at2_update S' i j' k _ row hrow hjr, at2_update S' i j' (k - 1) _ row hrow hjr,
            if_neg (hpred k h1 hk)]
          by_cases hkj : j' = k
          · rw [if_pos hkj, hkj]
          · rw [if_neg hkj]
            exact hrec k h1 (hcase k hk hkj))
    exact ⟨S', hrun, hS', hoth, h0', hrec⟩

/-- The body of the loop over `i` of `_CalculateTraceDist`. -/
theorem TraceDistRow_ok (T : Trace ℝ) (N L : Nat) (hL : 1 ≤ L) (hx : Shaped T.x_ N L)
    (hy : Shaped T.y_ N L) (hz : Shaped T.z_ N L) (hns : T.nstep_.size = N)
    (hm : ∀ (i : Nat) (m : Int), T.nstep_[i]? = some m → m ≤ L)
    (S : Array (Array ℝ)) (hS : Shaped S N L) (i : Nat) (hi : i < N) :
    ∃ S', T.TraceDistRow realLibm i S = Except.ok S' ∧ Shaped S' N L ∧
      (∀ i' : Nat, i' ≠ i → S'[i']? = S[i']?) ∧ at2 S' i 0 = 0 ∧
      ∀ m : Int, T.nstep_[i]? = some m →
        ∀ k : Nat, 1 ≤ k → (k : Int) < m → at2 S' i k = at2 S' i (k - 1) + segLen T i k := by
  obtain ⟨row, hrow, hrowL⟩ := Shaped_row S N L i hS hi
  have hi0 : (0 : Int) ≤ (i : Int) := Int.ofNat_nonneg i
  have ti : ((i : Int)).toNat = i := Int.toNat_ofNat i
  have hr0 : (0 : Int) < row.size := by omega
  have hin : (i : Int) < T.nstep_.size := by omega
  have w := wr2_ok S i 0 (0.0 : ℝ) row hi0 (by rw [ti]; exact hrow) le_rfl hr0
  rw [ti] at w
  obtain ⟨m, hmrd⟩ := rd_exists T.nstep_ i hi0 hin
  have hmv : T.nstep_[i]? = some m := by
    have := ((rd_eq_ok_iff _ _ _).1 hmrd).2
    rw [ti] at this
    exact this
  have hS1 : Shaped (S.setD i (row.setD (0 : Int).toNat (0.0 : ℝ))) N L :=
    Shaped_setD S N L i _ _ row hS hrow
  have h01 : at2 (S.setD i (row.setD (0 : Int).toNat (0.0 : ℝ))) i 0 = 0 := by
    rw [at2_update S i _ 0 _ row hrow (by show 0 < row.size; omega)]
    norm_num
  obtain ⟨S', hrun, hS', hoth, h0', hrec⟩ :=
    TraceDistLoop_ok T N L hx hy hz _ hS1 i hi m (hm i m hmv) h01
  refine ⟨S', ?_, hS', ?_, h0', ?_⟩
  · unfold Trace.TraceDistRow
    simp only [w, hmrd, Exec.ok_bind]
    exact hrun
  · intro i' hne
    rw [hoth i' hne]
    exact getElem?_update_other S i i' _ row hrow hne
  · intro m' hm' k h1 hk
    rw [hmv] at hm'
    cases hm'
    exact hrec k h1 hk

/-- C6: on a batch of `N` seeds stored in rows of `L ≥ 1` elements with every
`nstep_[i] ≤ L`, `_CalculateTraceDist` returns, sets `hasDist_` and changes no
other member than `S_`; for every seed `i` the stored arc length has
`S[i][0] = 0` and, for every `1 ≤ k ≤ nstep_[i] - 1`,
`S[i][k] = S[i][k-1] + segLen`, the Euclidean distance between the samples `k`
and `k - 1`, so that `S[i][k-1] ≤ S[i][k]`. -/
theorem C6_arc_length_monotone (T : Trace ℝ) (N L : Nat) (hn : T.n_ = N) (hL : 1 ≤ L)
    (hx : Shaped T.x_ N L) (hy : Shaped T.y_ N L) (hz : Shaped T.z_ N L)
    (hS : Shaped T.S_ N L) (hns : T.nstep_.size = N)
    (hm : ∀ (i : Nat) (m : Int), T.nstep_[i]? = some m → m ≤ L) :
    ∃ T', T._CalculateTraceDist realLibm = Except.ok T' ∧
      T' = { T with S_ := T'.S_, hasDist_ := true } ∧
      ∀ (i : Nat) (m : Int), T.nstep_[i]? = some m →
        at2 T'.S_ i 0 = 0 ∧
        ∀ k : Nat, 1 ≤ k → (k : Int) < m →
          at2 T'.S_ i k = at2 T'.S_ i (k - 1) + segLen T i k ∧
          at2 T'.S_ i (k - 1) ≤ at2 T'.S_ i k := by
  obtain ⟨S', hrun, hS', hall⟩ := forLoop_inv
    (fun (i : Int) (S' : Array (Array ℝ)) => Shaped S' N L ∧
      ∀ i' : Nat, (i' : Int) < i → at2 S' i' 0 = 0 ∧
        ∀ m : Int, T.nstep_[i']? = some m →
          ∀ k : Nat, 1 ≤ k → (k : Int) < m → at2 S' i' k = at2 S' i' (k - 1) + segLen T i' k)
    0 T.n_ (T.TraceDistRow realLibm) T.S_ (by omega)
    ⟨hS, fun i' hi' => by omega⟩
    (by
      intro i S' hi0 hin ⟨hS', hprev⟩
      obtain ⟨i', rfl⟩ : ∃ i' : Nat, i = (i' : Int) := ⟨i.toNat, by omega⟩
      have hiN : i' < N := by omega
      have hcase : ∀ i'' : Nat, (i'' : Int) < (i' : Int) + 1 → i'' ≠ i' → (i'' : Int) < (i' : Int) := by
        intro i'' h1 h2
        omega
      obtain ⟨S'', hrun, hS'', hoth, h0, hrec⟩ :=
        TraceDistRow_ok T N L hL hx hy hz hns hm S' hS' i' hiN
      refine ⟨S'', hrun, hS'', ?_⟩
      intro i'' hi''
      by_cases he : i'' = i'
      · subst he
        exact ⟨h0, hrec⟩
      · have hkeep : ∀ k : Nat, at2 S'' i'' k = at2 S' i'' k :=
          fun k => at2_congr S'' S' i'' k (hoth i'' he)
        obtain ⟨p0, prec⟩ := hprev i'' (hcase i'' hi'' he)
        refine ⟨by rw [hkeep]; exact p0, ?_⟩
        intro m hm' k h1 hk
        rw [hkeep, hkeep]
        exact prec m hm' k h1 hk)
  refine ⟨{ T with S_ := S', hasDist_ := true }, ?_, rfl, ?_⟩
  · unfold Trace._CalculateTraceDist
    rw [hrun]
    rfl
  · intro i m hmi
    have hiN : (i : Int) < T.n_ := by
      have : i < T.nstep_.size := by
        by_contra hge
        have hnone : T.nstep_[i]? = none := by
          rw [Array.getElem?_eq_none_iff]
          omega
        rw [hnone] at hmi
        cases hmi
      omega
    obtain ⟨p0, prec⟩ := hall i hiN
    refine ⟨p0, fun k h1 hk => ?_⟩
    have hr := prec m hmi k h1 hk
    refine ⟨hr, ?_⟩
    show at2 S' i (k - 1) ≤ at2 S' i k
    rw [show at2 S' i k = at2 S' i (k - 1) + segLen T i k from hr]
    exact le_add_of_nonneg_right (segLen_nonneg T i k)

theorem Shaped_single {α : Type} (row : Array α) (L : Nat) (h : row.size = L) :
    Shaped #[row] 1 L := by
  refine ⟨rfl, ?_⟩
  intro i r hr
  cases i with
  | zero =>
    simp at hr
    rw [← hr]
    exact h
  | succ i => simp at hr

/-- C6 on the batch `threeSampleObj`: three samples per row, `nstep_[0] = 3`. -/
theorem C6_arc_length_monotone_witness :
    (threeSampleObj : Trace ℝ).n_ = ((1 : Nat) : Int) ∧ 1 ≤ 3 ∧
    Shaped (threeSampleObj : Trace ℝ).x_ 1 3 ∧ Shaped (threeSampleObj : Trace ℝ).S_ 1 3 ∧
    ∃ T', (threeSampleObj : Trace ℝ)._CalculateTraceDist realLibm = Except.ok T' ∧
      T' = { (threeSampleObj : Trace ℝ) with S_ := T'.S_, hasDist_ := true } ∧
      ∀ (i : Nat) (m : Int), (threeSampleObj : Trace ℝ).nstep_[i]? = some m →
        at2 T'.S_ i 0 = 0 ∧
        ∀ k : Nat, 1 ≤ k → (k : Int) < m →
          at2 T'.S_ i k = at2 T'.S_ i (k - 1) + segLen threeSampleObj i k ∧
          at2 T'.S_ i (k - 1) ≤ at2 T'.S_ i k :=
  ⟨rfl, by decide, Shaped_single _ 3 rfl, Shaped_single _ 3 rfl,
    C6_arc_length_monotone threeSampleObj 1 3 rfl (by decide) (Shaped_single _ 3 rfl)
      (Shaped_single _ 3 rfl) (Shaped_single _ 3 rfl) (Shaped_single _ 3 rfl) rfl
      (by
        intro i m h
        cases i with
        | zero =>
          have h3 : (threeSampleObj : Trace ℝ).nstep_[0]? = some 3 := rfl
          rw [h3] at h
          cases h
          decide
        | succ i =>
          have hnone : (threeSampleObj : Trace ℝ).nstep_[i + 1]? = none := by
            rw [Array.getElem?_eq_none_iff]
            show 1 ≤ i + 1
            omega
          rw [hnone] at h
          cases h)⟩

/-! ## Footprints -/

/-- C11, the code as written: `CalculateTraceFP` (both overloads) computes no
footprint.  Whatever the object, the six end-point arrays `xfn_ … zfs_` are
left as they were, the equatorial arrays `xfe_, yfe_, zfe_` are fresh storage
of indeterminate content `u`, and `hasFootprints_` is set to true. -/
theorem C11_CalculateTraceFP_computes_nothing {α : Type} (u : α) (T : Trace α)
    (FP : Array (Array α)) :
    ((T.CalculateTraceFP u).xfn_ = T.xfn_ ∧ (T.CalculateTraceFP u).yfn_ = T.yfn_ ∧
      (T.CalculateTraceFP u).zfn_ = T.zfn_ ∧ (T.CalculateTraceFP u).xfs_ = T.xfs_ ∧
      (T.CalculateTraceFP u).yfs_ = T.yfs_ ∧ (T.CalculateTraceFP u).zfs_ = T.zfs_ ∧
      (T.CalculateTraceFP u).xfe_ = newArray T.n_ u ∧
      (T.CalculateTraceFP u).yfe_ = newArray T.n_ u ∧
      (T.CalculateTraceFP u).zfe_ = newArray T.n_ u ∧
      (T.CalculateTraceFP u).hasFootprints_ = true) ∧
    T.CalculateTraceFPInto u FP =
      { T with
        FP_ := FP, xfe_ := newArray T.n_ u, yfe_ := newArray T.n_ u, zfe_ := newArray T.n_ u
        allocEqFP_ := true, hasFootprints_ := true } :=
  ⟨⟨rfl, rfl, rfl, rfl, rfl, rfl, rfl, rfl, rfl, rfl⟩, rfl⟩

/-- Method `CalculateTraceFP()` on the traced batch `tracedEndObj` (samples
`(6, 0, 0)` and `(6, 0, 0.5)`) with zeroed fresh storage: the northern and the
southern footprint stay `(0, 0, 0)`, which is not the first or the last sample,
and the equatorial footprint is the fresh `(0, 0, 0)`, which is no sample. -/
theorem CalculateTraceFP_tracedEndObj :
    rd2 (tracedEndObj : Trace ℝ).x_ 0 0 = Except.ok 6 ∧
    rd2 (tracedEndObj : Trace ℝ).x_ 0 1 = Except.ok 6 ∧
    rd ((tracedEndObj : Trace ℝ).CalculateTraceFP 0).xfn_ 0 = Except.ok 0 ∧
    rd ((tracedEndObj : Trace ℝ).CalculateTraceFP 0).xfs_ 0 = Except.ok 0 ∧
    rd ((tracedEndObj : Trace ℝ).CalculateTraceFP 0).xfe_ 0 = Except.ok 0 ∧
    ((tracedEndObj : Trace ℝ).CalculateTraceFP 0).hasFootprints_ = true :=
  ⟨rfl, rfl, rfl, rfl, rfl, rfl⟩

/-! ## The field evaluator -/

section FieldSum

variable {α : Type} [LinearOrderedField α]

/-- Method `Field` returns the three sums of the components of the outputs of
the registered contributors at `(x, y, z)`. -/
theorem Field_eq_sum (T : Trace α) (x y z : α) (hnf : T.nf_ = T.Funcs_.size) :
    T.Field x y z = Except.ok
      ((T.Funcs_.toList.map fun f => (f x y z).1).sum,
       (T.Funcs_.toList.map fun f => (f x y z).2.1).sum,
       (T.Funcs_.toList.map fun f => (f x y z).2.2).sum) := by
  have h00 : (0.0 : α) = 0 := by norm_num
  obtain ⟨B, hrun, h1, h2, h3⟩ := forLoop_inv
    (fun (i : Int) (B : α × α × α) =>
      B.1 = ((T.Funcs_.toList.take i.toNat).map fun f => (f x y z).1).sum ∧
      B.2.1 = ((T.Funcs_.toList.take i.toNat).map fun f => (f x y z).2.1).sum ∧
      B.2.2 = ((T.Funcs_.toList.take i.toNat).map fun f => (f x y z).2.2).sum)
    0 T.nf_
    (fun i B => do
      let f ← rd T.Funcs_ i
      let b := f x y z
      pure (B.1 + b.1, B.2.1 + b.2.1, B.2.2 + b.2.2))
    ((0.0 : α), (0.0 : α), (0.0 : α)) (by omega)
    ⟨by simp [h00], by simp [h00], by simp [h00]⟩
    (by
      intro i B hi0 hi ⟨h1, h2, h3⟩
      obtain ⟨f, hf⟩ := rd_exists T.Funcs_ i hi0 (by omega)
      have hf' : T.Funcs_.toList[i.toNat]? = some f := by
        rw [← Array.getElem?_eq_getElem?_toList]
        exact ((rd_eq_ok_iff _ _ _).1 hf).2
      have ht : (i + 1).toNat = i.toNat + 1 := by omega
      refine ⟨(B.1 + (f x y z).1, B.2.1 + (f x y z).2.1, B.2.2 + (f x y z).2.2), ?_, ?_, ?_, ?_⟩
      · simp only [hf, Exec.ok_bind, Exec.pure_eq]
      · simp only [ht, List.take_succ, hf', Option.toList_some, List.map_append, List.map_cons,
          List.map_nil, List.sum_append, List.sum_cons, List.sum_nil, add_zero, h1]
      · simp only [ht, List.take_succ, hf', Option.toList_some, List.map_append, List.map_cons,
          List.map_nil, List.sum_append, List.sum_cons, List.sum_nil, add_zero, h2]
      · simp only [ht, List.take_succ, hf', Option.toList_some, List.map_append, List.map_cons,
          List.map_nil, List.sum_append, List.sum_cons, List.sum_nil, add_zero, h3])
  have hall : T.Funcs_.toList.take T.nf_.toNat = T.Funcs_.toList := by
    apply List.take_of_length_le
    simp only [Array.length_toList]
    omega
  rw [hall] at h1 h2 h3
  unfold Trace.Field
  rw [hrun]
  congr 1
  exact Prod.ext h1 (Prod.ext h2 h3)

/-- In exact arithmetic (an ordered field): on an object whose `nf_` is the
number of registered contributors (as the constructor sets it), `Field` returns the component-wise sum of the outputs
of all contributors at the position; with no contributor it returns
`(0, 0, 0)`; and an object holding the same contributors in another order
returns the same vector. -/
theorem Field_exact_sum_any_order (T : Trace α) (x y z : α)
    (hnf : T.nf_ = T.Funcs_.size) :
    T.Field x y z = Except.ok
      ((T.Funcs_.toList.map fun f => (f x y z).1).sum,
       (T.Funcs_.toList.map fun f => (f x y z).2.1).sum,
       (T.Funcs_.toList.map fun f => (f x y z).2.2).sum) ∧
    (T.Funcs_ = #[] → T.Field x y z = Except.ok (0, 0, 0)) ∧
    ∀ T' : Trace α, T'.nf_ = T'.Funcs_.size → T'.Funcs_.toList.Perm T.Funcs_.toList →
      T'.Field x y z = T.Field x y z := by
  refine ⟨Field_eq_sum T x y z hnf, ?_, ?_⟩
  · intro he
    rw [Field_eq_sum T x y z hnf, he]
    rfl
  · intro T' hnf' hperm
    rw [Field_eq_sum T x y z hnf, Field_eq_sum T' x y z hnf']
    congr 1
    refine Prod.ext ?_ (Prod.ext ?_ ?_)
    · exact (hperm.map _).sum_eq
    · exact (hperm.map _).sum_eq
    · exact (hperm.map _).sum_eq

end FieldSum

/-! ## The integrator in a uniform field of any direction -/

section UniformDir

variable (T : Trace ℝ) (ux uy uz : ℝ)
  (hF : ∀ x y z : ℝ, T.Field x y z = Except.ok (ux, uy, uz))
  (hu : ux * ux + uy * uy + uz * uz = 1)
include hF hu

theorem StepVector_unit (x y z s3 : ℝ) :
    T.StepVector realLibm x y z s3 = Except.ok (s3 * ux, s3 * uy, s3 * uz) := by
  unfold Trace.StepVector
  simp [hF, realLibm, hu]

/-- The sub-steps of one pass in a uniform unit field: the five vectors are
`step3 · u` and the error estimate is `0`. -/
theorem StepTrial_unit (x y z s3 : ℝ) :
    ∃ tr, T.StepTrial realLibm x y z s3 = Except.ok tr ∧ tr.Err = 0 ∧
      tr.rx1 = s3 * ux ∧ tr.rx4 = s3 * ux ∧ tr.rx5 = s3 * ux ∧
      tr.ry1 = s3 * uy ∧ tr.ry4 = s3 * uy ∧ tr.ry5 = s3 * uy ∧
      tr.rz1 = s3 * uz ∧ tr.rz4 = s3 * uz ∧ tr.rz5 = s3 * uz := by
  refine ⟨{ rx1 := s3 * ux, ry1 := s3 * uy, rz1 := s3 * uz, rx2 := s3 * ux, ry2 := s3 * uy,
            rz2 := s3 * uz, rx3 := s3 * ux, ry3 := s3 * uy, rz3 := s3 * uz, rx4 := s3 * ux,
            ry4 := s3 * uy, rz4 := s3 * uz, rx5 := s3 * ux, ry5 := s3 * uy, rz5 := s3 * uz,
            Err := |s3 * ux - 4.5 * (s3 * ux) + 4 * (s3 * ux) - 0.5 * (s3 * ux)|
              + |s3 * uy - 4.5 * (s3 * uy) + 4 * (s3 * uy) - 0.5 * (s3 * uy)|
              + |s3 * uz - 4.5 * (s3 * uz) + 4 * (s3 * uz) - 0.5 * (s3 * uz)| }, ?_, ?_, rfl,
    rfl, rfl, rfl, rfl, rfl, rfl, rfl, rfl⟩
  · unfold Trace.StepTrial
    simp only [StepVector_unit T ux uy uz hF hu, Exec.ok_bind, Exec.pure_eq]
  · show |s3 * ux - 4.5 * (s3 * ux) + 4 * (s3 * ux) - 0.5 * (s3 * ux)|
      + |s3 * uy - 4.5 * (s3 * uy) + 4 * (s3 * uy) - 0.5 * (s3 * uy)|
      + |s3 * uz - 4.5 * (s3 * uz) + 4 * (s3 * uz) - 0.5 * (s3 * uz)| = 0
    have e : ∀ a : ℝ, a - 4.5 * a + 4 * a - 0.5 * a = 0 := fun a => by ring
    rw [e, e, e]
    norm_num

end UniformDir

theorem StepControl_accept (T : Trace ℝ) (Err step : ℝ) (h1 : Err ≤ T.ErrMax_)
    (h2 : |step| ≤ T.MaxStep_) :
    T.StepControl Err step
      = (if Err < 0.04 * T.ErrMax_ ∧ |step| < T.MaxStep_ / 1.5 then 1.5 * step else step,
          false) := by
  unfold Trace.StepControl
  simp only [h1, h2, and_self, if_true]
  split_ifs <;> rfl

/-- In exact arithmetic (the real numbers): in a field that is the same unit
vector `u` everywhere, with
`ErrMax_ > 0` and a step hint `|s| ≤ MaxStep_`, one call of
`Step` from `p` has error estimate exactly `0`, returns the position `p + s u`
with the field `u`, and leaves a hint `s'` with `|s| ≤ |s'| ≤ MaxStep_`:
`s' = 1.5 s` when `|s| < MaxStep_ / 1.5` and `s' = s` otherwise. -/
theorem Step_uniform_exact_arithmetic (T : Trace ℝ) (ux uy uz : ℝ)
    (hF : ∀ x y z : ℝ, T.Field x y z = Except.ok (ux, uy, uz))
    (hu : ux * ux + uy * uy + uz * uz = 1) (hE : 0 < T.ErrMax_)
    (x y z s : ℝ) (hs : |s| ≤ T.MaxStep_) (fuel : Nat) (hfuel : 1 ≤ fuel) :
    (∃ tr, T.StepTrial realLibm x y z (s / 3.0) = Except.ok tr ∧ tr.Err = 0) ∧
    ∃ r, T.Step realLibm fuel x y z s = Except.ok r ∧
      r.x = x + s * ux ∧ r.y = y + s * uy ∧ r.z = z + s * uz ∧
      r.Bx = ux ∧ r.By = uy ∧ r.Bz = uz ∧
      |s| ≤ |r.step| ∧ |r.step| ≤ T.MaxStep_ ∧
      (|s| < T.MaxStep_ / 1.5 → r.step = 1.5 * s) ∧
      (¬ |s| < T.MaxStep_ / 1.5 → r.step = s) := by
  obtain ⟨f, rfl⟩ : ∃ f, fuel = f + 1 := ⟨fuel - 1, by omega⟩
  obtain ⟨tr, htr, hErr, a1, a4, a5, b1, b4, b5, c1, c4, c5⟩ :=
    StepTrial_unit T ux uy uz hF hu x y z (s / 3.0)
  have hle : tr.Err ≤ T.ErrMax_ := by rw [hErr]; exact le_of_lt hE
  have hsmall : tr.Err < 0.04 * T.ErrMax_ := by rw [hErr]; positivity
  have hc := StepControl_accept T tr.Err s hle hs
  have hdiv : T.MaxStep_ / 1.5 = T.MaxStep_ * (2 / 3) := by norm_num [div_eq_mul_inv]
  refine ⟨⟨tr, htr, hErr⟩, ?_⟩
  refine ⟨{ step := if tr.Err < 0.04 * T.ErrMax_ ∧ |s| < T.MaxStep_ / 1.5 then 1.5 * s else s,
            x := x + 0.5 * (tr.rx1 + 4 * tr.rx4 + tr.rx5),
            y := y + 0.5 * (tr.ry1 + 4 * tr.ry4 + tr.ry5),
            z := z + 0.5 * (tr.rz1 + 4 * tr.rz4 + tr.rz5),
            Bx := ux, By := uy, Bz := uz }, ?_, ?_, ?_, ?_, rfl, rfl, rfl, ?_, ?_, ?_, ?_⟩
  · unfold Trace.Step
    simp only [Trace.StepLoop, htr, hc, Exec.ok_bind, Exec.pure_eq, hF, Bool.false_eq_true,
      if_false]
  · show x + 0.5 * (tr.rx1 + 4 * tr.rx4 + tr.rx5) = x + s * ux
    rw [a1, a4, a5]
    ring
  · show y + 0.5 * (tr.ry1 + 4 * tr.ry4 + tr.ry5) = y + s * uy
    rw [b1, b4, b5]
    ring
  · show z + 0.5 * (tr.rz1 + 4 * tr.rz4 + tr.rz5) = z + s * uz
    rw [c1, c4, c5]
    ring
  · show |s| ≤ |if tr.Err < 0.04 * T.ErrMax_ ∧ |s| < T.MaxStep_ / 1.5 then 1.5 * s else s|
    split_ifs
    · rw [abs_mul, abs_of_pos (by norm_num : (0 : ℝ) < 1.5)]
      nlinarith [abs_nonneg s]
    · exact le_refl _
  · show |if tr.Err < 0.04 * T.ErrMax_ ∧ |s| < T.MaxStep_ / 1.5 then 1.5 * s else s|
      ≤ T.MaxStep_
    split_ifs with h
    · rw [abs_mul, abs_of_pos (by norm_num : (0 : ℝ) < 1.5)]
      have := h.2
      rw [hdiv] at this
      nlinarith
    · exact hs
  · intro h
    show (if tr.Err < 0.04 * T.ErrMax_ ∧ |s| < T.MaxStep_ / 1.5 then 1.5 * s else s) = 1.5 * s
    rw [if_pos ⟨hsmall, h⟩]
  · intro h
    show (if tr.Err < 0.04 * T.ErrMax_ ∧ |s| < T.MaxStep_ / 1.5 then 1.5 * s else s) = s
    rw [if_neg (fun hh => h hh.2)]

/-! ## The guard of `CalculateHalpha` -/

section HalphaGuard

theorem _CheckHalpha_of_missing {α : Type} (T : Trace α) (h : T.allocAlpha_ = false ∨ T.nalpha_ < 1) :
    ∃ msg, T._CheckHalpha = (false, some msg) := by
  unfold Trace._CheckHalpha
  by_cases ha : T.allocAlpha_ = false
  · exact ⟨Message.needSetAlpha, by simp [ha]⟩
  · have hn : T.nalpha_ ≤ 0 := by
      rcases h with h | h
      · exact absurd h ha
      · omega
    exact ⟨Message.needAlpha, by simp [ha, hn]⟩

/-- C14 amended: `CalculateHalpha` tests only that `SetAlpha` has run and that
`nalpha_ ≥ 1`.  On every object with `allocAlpha_ = false` or `nalpha_ < 1`, each
of the four overloads prints a diagnostic and returns the object unchanged: no
allocation is made, `Halpha_`, `Halpha3D_`, `allocHalpha_` and `allocHalpha3D_`
are as before. -/
theorem C14_CalculateHalpha_guard {α ρ : Type} [LinearOrderedField α] (M : Libm α) (E : HalphaExt α ρ) (ui : Int) (u DSMax : α)
    (T0 T : Trace α) (halpha : Array α) (halpha3d : Array (Array (Array α)))
    (h : T.allocAlpha_ = false ∨ T.nalpha_ < 1) :
    ∃ msg,
      Trace.CalculateHalpha M E ui u DSMax T0 T = Except.ok (T, some msg) ∧
      Trace.CalculateHalphaFlat M E ui u DSMax T0 T halpha = Except.ok (T, some msg) ∧
      Trace.CalculateHalpha3D M E ui u DSMax T0 T halpha3d = Except.ok (T, some msg) ∧
      Trace.CalculateHalphaBoth M E ui u DSMax T0 T halpha halpha3d = Except.ok (T, some msg) := by
  obtain ⟨msg, hmsg⟩ := _CheckHalpha_of_missing T h
  refine ⟨msg, ?_, ?_, ?_, ?_⟩
  · unfold Trace.CalculateHalpha
    simp [hmsg]
  · unfold Trace.CalculateHalphaFlat
    simp [hmsg]
  · unfold Trace.CalculateHalpha3D
    simp [hmsg]
  · unfold Trace.CalculateHalphaBoth
    simp [hmsg]

end HalphaGuard

/-- C14 amended, on the freshly constructed object (`SetAlpha` not run). -/
theorem C14_CalculateHalpha_guard_witness :
    ((freshObj : Trace ℝ).allocAlpha_ = false ∨ (freshObj : Trace ℝ).nalpha_ < 1) ∧
    ∃ msg,
      Trace.CalculateHalpha realLibm unitExt 0 0 0 Trace.blank (freshObj : Trace ℝ)
        = Except.ok (freshObj, some msg) ∧
      Trace.CalculateHalphaFlat realLibm unitExt 0 0 0 Trace.blank (freshObj : Trace ℝ) #[]
        = Except.ok (freshObj, some msg) ∧
      Trace.CalculateHalpha3D realLibm unitExt 0 0 0 Trace.blank (freshObj : Trace ℝ) #[]
        = Except.ok (freshObj, some msg) ∧
      Trace.CalculateHalphaBoth realLibm unitExt 0 0 0 Trace.blank (freshObj : Trace ℝ) #[] #[]
        = Except.ok (freshObj, some msg) :=
  ⟨Or.inl rfl,
    C14_CalculateHalpha_guard realLibm unitExt 0 0 0 Trace.blank freshObj #[] #[] (Or.inl rfl)⟩

theorem _CalculateHalpha_of_empty {α ρ : Type} [LinearOrderedField α] (M : Libm α)
    (E : HalphaExt α ρ) (ui : Int) (u DSMax : α) (T0 T : Trace α) (h0 : T.n_ ≤ 0) :
    Trace._CalculateHalpha M E ui u DSMax T0 T = Except.ok T := by
  unfold Trace._CalculateHalpha
  exact forLoop_of_le _ _ _ _ h0

theorem CalculateHalpha_of_empty {α ρ : Type} [LinearOrderedField α] (M : Libm α)
    (E : HalphaExt α ρ) (ui : Int) (u DSMax : α) (T0 T : Trace α)
    (ha : T.allocAlpha_ = true) (hn : 1 ≤ T.nalpha_) (h0 : T.n_ ≤ 0) :
    ∃ T', Trace.CalculateHalpha M E ui u DSMax T0 T = Except.ok (T', none) ∧
      T'.allocHalpha_ = true ∧ T'.allocHalpha3D_ = true := by
  have hn' : ¬ T.nalpha_ ≤ 0 := by omega
  have hc : T._CheckHalpha = (true, none) := by
    unfold Trace._CheckHalpha
    simp [ha, hn']
  unfold Trace.CalculateHalpha
  simp only [hc, Bool.not_true, Bool.false_eq_true, if_false]
  rw [_CalculateHalpha_of_empty]
  · exact ⟨_, rfl, rfl, rfl⟩
  · exact h0

/-- C14 as stated fails: after `SetAlpha(1, (0), 0)` on the freshly constructed
object, `Delta_ = 0`, no trace and no footprint has been computed, and
`CalculateHalpha()` returns without a diagnostic, having allocated: the flags
`allocHalpha_` and `allocHalpha3D_` are true where they were false. -/
theorem C14_CalculateHalpha_allocates_without_trace :
    ∃ A A', (freshObj : Trace ℝ).SetAlpha realLibm 0 1 #[0] 0 = Except.ok A ∧
      A.Delta_ = 0 ∧ A.hasFootprints_ = false ∧ A.tracedField_ = false ∧
      A.allocHalpha_ = false ∧ A.allocHalpha3D_ = false ∧
      Trace.CalculateHalpha realLibm unitExt 0 0 0 Trace.blank A = Except.ok (A', none) ∧
      A'.allocHalpha_ = true ∧ A'.allocHalpha3D_ = true := by
  have hA : (freshObj : Trace ℝ).SetAlpha realLibm 0 1 #[0] 0 = Except.ok
      { (freshObj : Trace ℝ) with
        nalpha_ := 1, allocAlpha_ := true, Delta_ := 0
        alpha0_ := #[0 * (Real.pi / 180.0)]
        alpha1_ := #[realLibm.fmod (0 * (Real.pi / 180.0) + Real.pi) (2 * Real.pi)] } := rfl
  obtain ⟨A', h1, h2, h3⟩ := CalculateHalpha_of_empty realLibm (unitExt : HalphaExt ℝ Unit) 0 0 0
    Trace.blank
    { (freshObj : Trace ℝ) with
      nalpha_ := 1, allocAlpha_ := true, Delta_ := 0
      alpha0_ := #[0 * (Real.pi / 180.0)]
      alpha1_ := #[realLibm.fmod (0 * (Real.pi / 180.0) + Real.pi) (2 * Real.pi)] }
    rfl (le_refl 1) (le_of_eq rfl)
  exact ⟨_, A', hA, rfl, rfl, rfl, rfl, rfl, h1, h2, h3⟩

/-! ## The values stored by `_CalculateTraceHalpha` -/

theorem sepLen_nonneg (T : Trace ℝ) (i k : Nat) (xc yc zc : Array ℝ) :
    0 ≤ sepLen T i k xc yc zc := Real.sqrt_nonneg _

theorem HalphaStep_ok (T : Trace ℝ) (i m : Nat) (c : ClosestPos ℝ) (st rx ry rz : Array ℝ)
    (hx : T.x_[i]? = some rx) (hy : T.y_[i]? = some ry) (hz : T.z_[i]? = some rz)
    (hsx : m < rx.size) (hsy : m < ry.size) (hsz : m < rz.size)
    (hx0 : m < c.xc0.size) (hy0 : m < c.yc0.size) (hz0 : m < c.zc0.size)
    (hx1 : m < c.xc1.size) (hy1 : m < c.yc1.size) (hz1 : m < c.zc1.size)
    (hst : m < st.size) :
    T.HalphaStep realLibm i c m st = Except.ok (st.setD m (halphaValue T i m c)) := by
  have ei : ((i : Int)).toNat = i := Int.toNat_ofNat i
  have em : ((m : Int)).toNat = m := Int.toNat_ofNat m
  have e1 := rd2_ok T.x_ i m rx (Int.ofNat_nonneg i) (by rw [ei]; exact hx)
    (Int.ofNat_nonneg m) (by exact_mod_cast hsx)
  have e2 := rd2_ok T.y_ i m ry (Int.ofNat_nonneg i) (by rw [ei]; exact hy)
    (Int.ofNat_nonneg m) (by exact_mod_cast hsy)
  have e3 := rd2_ok T.z_ i m rz (Int.ofNat_nonneg i) (by rw [ei]; exact hz)
    (Int.ofNat_nonneg m) (by exact_mod_cast hsz)
  have c1 := rd_getD c.xc0 m (Int.ofNat_nonneg m) (by exact_mod_cast hx0)
  have c2 := rd_getD c.yc0 m (Int.ofNat_nonneg m) (by exact_mod_cast hy0)
  have c3 := rd_getD c.zc0 m (Int.ofNat_nonneg m) (by exact_mod_cast hz0)
  have c4 := rd_getD c.xc1 m (Int.ofNat_nonneg m) (by exact_mod_cast hx1)
  have c5 := rd_getD c.yc1 m (Int.ofNat_nonneg m) (by exact_mod_cast hy1)
  have c6 := rd_getD c.zc1 m (Int.ofNat_nonneg m) (by exact_mod_cast hz1)
  have w := wr_ok st m (halphaValue T i m c) (Int.ofNat_nonneg m) (by exact_mod_cast hst)
  rw [ei, em] at e1 e2 e3
  rw [em] at c1 c2 c3 c4 c5 c6 w
  unfold Trace.HalphaStep
  simp only [e1, e2, e3, c1, c2, c3, c4, c5, c6, Exec.ok_bind]
  exact w

/-- C15 amended: when `Delta_ > 0` and the storage holds the `n = nstep_[i]`
steps of trace `i`, the loop of `_CalculateTraceHalpha` returns, and every value
it stores is `0.5 * (d0 / Delta_ + d1 / Delta_)` for the two non-negative
distances `d0`, `d1` between the sample and its two closest points, hence is
non-negative. -/
theorem C15_halpha_nonneg_for_positive_Delta (T : Trace ℝ) (i n : Nat) (c : ClosestPos ℝ)
    (halpha rx ry rz : Array ℝ) (hD : 0 < T.Delta_)
    (hn : T.nstep_[i]? = some (n : Int))
    (hx : T.x_[i]? = some rx) (hy : T.y_[i]? = some ry) (hz : T.z_[i]? = some rz)
    (hsx : n ≤ rx.size) (hsy : n ≤ ry.size) (hsz : n ≤ rz.size)
    (hx0 : n ≤ c.xc0.size) (hy0 : n ≤ c.yc0.size) (hz0 : n ≤ c.zc0.size)
    (hx1 : n ≤ c.xc1.size) (hy1 : n ≤ c.yc1.size) (hz1 : n ≤ c.zc1.size)
    (hh : n ≤ halpha.size) :
    ∃ h', T.HalphaLoop realLibm i c halpha = Except.ok h' ∧ h'.size = halpha.size ∧
      ∀ k : Nat, k < n →
        h'[k]? = some (0.5 * (sepLen T i k c.xc0 c.yc0 c.zc0 / T.Delta_
          + sepLen T i k c.xc1 c.yc1 c.zc1 / T.Delta_)) ∧
        0 ≤ sepLen T i k c.xc0 c.yc0 c.zc0 ∧ 0 ≤ sepLen T i k c.xc1 c.yc1 c.zc1 ∧
        0 ≤ 0.5 * (sepLen T i k c.xc0 c.yc0 c.zc0 / T.Delta_
          + sepLen T i k c.xc1 c.yc1 c.zc1 / T.Delta_) := by
  obtain ⟨h', hrun, hsize, hval⟩ := forLoop_inv
    (fun (k : Int) (h : Array ℝ) => h.size = halpha.size ∧
      ∀ j : Nat, (j : Int) < k → h[j]? = some (halphaValue T i j c))
    0 n (T.HalphaStep realLibm i c) halpha (Int.ofNat_nonneg n)
    ⟨rfl, fun j hj => absurd hj (by omega)⟩
    (by
      intro k st hk0 hkn hP
      obtain ⟨hsize, hval⟩ := hP
      obtain ⟨m, rfl⟩ : ∃ m : Nat, k = m := ⟨k.toNat, by omega⟩
      have hm : m < n := by exact_mod_cast hkn
      refine ⟨st.setD m (halphaValue T i m c), ?_, ?_, ?_⟩
      · exact HalphaStep_ok T i m c st rx ry rz hx hy hz (by omega) (by omega) (by omega)
          (by omega) (by omega) (by omega) (by omega) (by omega) (by omega) (by omega)
      · rw [Array.size_setD]
        exact hsize
      · intro j hj
        rw [getElem?_setD _ _ _ _ (by omega)]
        by_cases e : m = j
        · rw [if_pos e, e]
        · rw [if_neg e]
          exact hval j (by omega))
  refine ⟨h', ?_, hsize, ?_⟩
  · unfold Trace.HalphaLoop
    rw [rd_ofNat _ _ _ hn]
    exact hrun
  · intro k hk
    have h0 := sepLen_nonneg T i k c.xc0 c.yc0 c.zc0
    have h1 := sepLen_nonneg T i k c.xc1 c.yc1 c.zc1
    refine ⟨hval k (by exact_mod_cast hk), h0, h1, ?_⟩
    have := div_nonneg h0 hD.le
    have := div_nonneg h1 hD.le
    positivity

/-- C15 amended, on the one-sample trace `alphaObj 2` (`Delta_ = 2`) with both
closest points at `(1, 0, 0)`. -/
theorem C15_halpha_nonneg_for_positive_Delta_witness :
    0 < (alphaObj (2 : ℝ)).Delta_ ∧
    ∃ h', (alphaObj (2 : ℝ)).HalphaLoop realLibm (0 : Nat) unitClosest #[0] = Except.ok h' ∧
      h'.size = (#[0] : Array ℝ).size ∧
      ∀ k : Nat, k < 1 →
        h'[k]? = some (0.5 * (sepLen (alphaObj 2) 0 k unitClosest.xc0 unitClosest.yc0
            unitClosest.zc0 / (alphaObj (2 : ℝ)).Delta_
          + sepLen (alphaObj 2) 0 k unitClosest.xc1 unitClosest.yc1 unitClosest.zc1
            / (alphaObj (2 : ℝ)).Delta_)) ∧
        0 ≤ sepLen (alphaObj 2) 0 k unitClosest.xc0 unitClosest.yc0 unitClosest.zc0 ∧
        0 ≤ sepLen (alphaObj 2) 0 k unitClosest.xc1 unitClosest.yc1 unitClosest.zc1 ∧
        0 ≤ 0.5 * (sepLen (alphaObj 2) 0 k unitClosest.xc0 unitClosest.yc0
            unitClosest.zc0 / (alphaObj (2 : ℝ)).Delta_
          + sepLen (alphaObj 2) 0 k unitClosest.xc1 unitClosest.yc1 unitClosest.zc1
            / (alphaObj (2 : ℝ)).Delta_) :=
  have hD : 0 < (alphaObj (2 : ℝ)).Delta_ := show (0 : ℝ) < 2 by norm_num
  ⟨hD, C15_halpha_nonneg_for_positive_Delta (alphaObj 2) 0 1 unitClosest #[0] #[0] #[0] #[0] hD
    rfl rfl rfl rfl (le_refl 1) (le_refl 1) (le_refl 1) (le_refl 1) (le_refl 1) (le_refl 1)
    (le_refl 1) (le_refl 1) (le_refl 1) (le_refl 1)⟩

/-- C15 as stated fails: `alphaObj (-1)` passes `_CheckHalpha` (`SetAlpha` has
run, `nalpha_ = 1`) with `Delta_ = -1`; its one sample is `(0, 0, 0)` and both
closest points are `(1, 0, 0)`, at distance 1.  `CalculateHalpha()` returns and
stores `0.5 * (1 / (-1) + 1 / (-1)) = -1` in `Halpha_[0]` and `Halpha3D_[0][0][0]`. -/
theorem C15_negative_Delta_stores_negative_halpha :
    (alphaObj (-1 : ℝ))._CheckHalpha = (true, none) ∧
    ∃ T', Trace.CalculateHalpha realLibm unitExt 0 0 0 Trace.blank (alphaObj (-1 : ℝ))
        = Except.ok (T', none) ∧
      T'.Halpha_ = #[-1] ∧ T'.Halpha3D_ = #[#[#[-1]]] ∧ (-1 : ℝ) < 0 := by
  have hv : (0.5 : ℝ) * (Real.sqrt ((0 - 1) * (0 - 1) + (0 - 0) * (0 - 0) + (0 - 0) * (0 - 0))
        / (-1)
      + Real.sqrt ((0 - 1) * (0 - 1) + (0 - 0) * (0 - 0) + (0 - 0) * (0 - 0)) / (-1)) = -1 := by
    norm_num
  have key : ∃ T', Trace.CalculateHalpha realLibm unitExt 0 0 0 Trace.blank (alphaObj (-1 : ℝ))
        = Except.ok (T', none) ∧
      T'.Halpha_ = #[(0.5 : ℝ) * (Real.sqrt ((0 - 1) * (0 - 1) + (0 - 0) * (0 - 0)
          + (0 - 0) * (0 - 0)) / (-1)
        + Real.sqrt ((0 - 1) * (0 - 1) + (0 - 0) * (0 - 0) + (0 - 0) * (0 - 0)) / (-1))] ∧
      T'.Halpha3D_ = #[#[#[(0.5 : ℝ) * (Real.sqrt ((0 - 1) * (0 - 1) + (0 - 0) * (0 - 0)
          + (0 - 0) * (0 - 0)) / (-1)
        + Real.sqrt ((0 - 1) * (0 - 1) + (0 - 0) * (0 - 0) + (0 - 0) * (0 - 0)) / (-1))]]] :=
    ⟨_, rfl, rfl, rfl⟩
  obtain ⟨T', h1, h2, h3⟩ := key
  rw [hv] at h2 h3
  exact ⟨rfl, T', h1, h2, h3, by norm_num⟩

/-! ## The step-size control of `Step` when the error is above `ErrMax_` -/

theorem StepControl_floor (T : Trace ℝ) (Err step : ℝ) (h1 : T.ErrMax_ < Err)
    (h0 : 0 ≤ T.ErrMax_) (h2 : step ≤ T.MinStep_) :
    T.StepControl Err step = (if |step| > T.MaxStep_ then T.MaxStep_ else step, false) := by
  have e1 : ¬ Err ≤ T.ErrMax_ := not_le.mpr h1
  have e2 : ¬ step > T.MinStep_ := not_lt.mpr h2
  have e3 : ¬ Err < 0.04 * T.ErrMax_ := by
    rw [not_lt]
    have : (0.04 : ℝ) * T.ErrMax_ ≤ T.ErrMax_ := by nlinarith
    linarith
  have e4 : Err > T.ErrMax_ := h1
  unfold Trace.StepControl
  simp only [e1, false_and, if_false, e4, if_true, e2, e3]
  split_ifs <;> rfl

theorem StepControl_halve (T : Trace ℝ) (Err step : ℝ) (h1 : T.ErrMax_ < Err)
    (h0 : 0 ≤ T.ErrMax_) (h2 : T.MinStep_ < step) :
    T.StepControl Err step
      = (if |step * 0.5| > T.MaxStep_ then T.MaxStep_ else step * 0.5, true) := by
  have e1 : ¬ Err ≤ T.ErrMax_ := not_le.mpr h1
  have e2 : step > T.MinStep_ := h2
  have e3 : ¬ Err < 0.04 * T.ErrMax_ := by
    rw [not_lt]
    have : (0.04 : ℝ) * T.ErrMax_ ≤ T.ErrMax_ := by nlinarith
    linarith
  have e4 : Err > T.ErrMax_ := h1
  unfold Trace.StepControl
  simp only [e1, false_and, if_false, e4, if_true, e2, e3]
  split_ifs <;> rfl

/-- The sub-step vectors that `Step` returns with are those of a trial made with
the `step3` computed before the loop. -/
theorem StepLoop_last {α : Type} [LinearOrderedField α] (M : Libm α) (T : Trace α)
    (x0 y0 z0 step3 : α) :
    ∀ (fuel : Nat) (step : α) (out : α × SubSteps α),
      T.StepLoop M x0 y0 z0 step3 fuel step = Except.ok out →
      T.StepTrial M x0 y0 z0 step3 = Except.ok out.2 := by
  intro fuel
  induction fuel with
  | zero =>
    intro step out h
    simp [Trace.StepLoop] at h
  | succ f ih =>
    intro step out h
    unfold Trace.StepLoop at h
    cases htr : T.StepTrial M x0 y0 z0 step3 with
    | error e => simp [htr] at h
    | ok tr =>
      simp only [htr, Exec.ok_bind] at h
      by_cases hc : (T.StepControl tr.Err step).2 = true
      · rw [if_pos hc] at h
        rw [← htr]
        exact ih _ out h
      · rw [if_neg hc] at h
        simp only [Exec.pure_eq, Except.ok.injEq] at h
        rw [← h]

theorem StepLoop_one {α : Type} [LinearOrderedField α] (M : Libm α) (T : Trace α)
    (x0 y0 z0 step3 step : α) (tr : SubSteps α)
    (htr : T.StepTrial M x0 y0 z0 step3 = Except.ok tr)
    (hc : (T.StepControl tr.Err step).2 = false) (fuel : Nat) :
    T.StepLoop M x0 y0 z0 step3 (fuel + 1) step
      = Except.ok ((T.StepControl tr.Err step).1, tr) := by
  unfold Trace.StepLoop
  simp [htr, hc]

theorem StepLoop_again {α : Type} [LinearOrderedField α] (M : Libm α) (T : Trace α)
    (x0 y0 z0 step3 step : α) (tr : SubSteps α)
    (htr : T.StepTrial M x0 y0 z0 step3 = Except.ok tr)
    (hc : (T.StepControl tr.Err step).2 = true) (fuel : Nat) :
    T.StepLoop M x0 y0 z0 step3 (fuel + 1) step
      = T.StepLoop M x0 y0 z0 step3 fuel (T.StepControl tr.Err step).1 := by
  conv_lhs => unfold Trace.StepLoop
  simp [htr, hc]

theorem Step_of_StepLoop {α : Type} [LinearOrderedField α] (M : Libm α) (T : Trace α)
    (fuel : Nat) (x0 y0 z0 step : α) (out : α × SubSteps α) (B : α × α × α)
    (hl : T.StepLoop M x0 y0 z0 (step / 3.0) fuel step = Except.ok out)
    (hB : T.Field (x0 + 0.5 * (out.2.rx1 + 4 * out.2.rx4 + out.2.rx5))
      (y0 + 0.5 * (out.2.ry1 + 4 * out.2.ry4 + out.2.ry5))
      (z0 + 0.5 * (out.2.rz1 + 4 * out.2.rz4 + out.2.rz5)) = Except.ok B) :
    T.Step M fuel x0 y0 z0 step = Except.ok
      { step := out.1
        x := x0 + 0.5 * (out.2.rx1 + 4 * out.2.rx4 + out.2.rx5)
        y := y0 + 0.5 * (out.2.ry1 + 4 * out.2.ry4 + out.2.ry5)
        z := z0 + 0.5 * (out.2.rz1 + 4 * out.2.rz4 + out.2.rz5)
        Bx := B.1, By := B.2.1, Bz := B.2.2 } := by
  unfold Trace.Step
  simp only [hl, Exec.ok_bind, hB, Exec.pure_eq]

/-! ## The kinked field -/

theorem kinkObj_Field (x y z : ℝ) :
    (kinkObj : Trace ℝ).Field x y z = Except.ok (kinkField x y z) := by
  have hnf : (kinkObj : Trace ℝ).nf_ = 0 + 1 := rfl
  unfold Trace.Field
  rw [hnf, forLoop_succ _ _ _ _ le_rfl, forLoop_of_le _ _ _ _ le_rfl]
  simp [rd, kinkObj, Trace.ctor, Trace.SetTraceCFGDefault]
  norm_num

theorem kinkObj_StepVector (x y z s3 : ℝ) :
    (kinkObj : Trace ℝ).StepVector realLibm x y z s3
      = Except.ok (if 0.25 < x * x then (0, s3, 0) else (s3, 0, 0)) := by
  unfold Trace.StepVector
  rw [kinkObj_Field]
  unfold kinkField
  by_cases h : (0.25 : ℝ) < x * x
  · simp [h, realLibm]
  · simp [h, realLibm]

/-- The trial of `kinkObj` from the origin with sub-step length `s3 = ±1`. -/
theorem kinkObj_StepTrial (s3 : ℝ) (hs : s3 * s3 = 1) :
    (kinkObj : Trace ℝ).StepTrial realLibm 0 0 0 s3 = Except.ok
      { rx1 := s3, ry1 := 0, rz1 := 0, rx2 := 0, ry2 := s3, rz2 := 0
        rx3 := s3, ry3 := 0, rz3 := 0, rx4 := 0, ry4 := s3, rz4 := 0
        rx5 := 0, ry5 := s3, rz5 := 0, Err := 7 } := by
  have h0 : ¬ (0.25 : ℝ) < 0 * 0 := by norm_num
  have h1 : (0.25 : ℝ) < (0 + s3) * (0 + s3) := by rw [zero_add, hs]; norm_num
  have h2 : ¬ (0.25 : ℝ) < (0 + 0.5 * (s3 + 0)) * (0 + 0.5 * (s3 + 0)) := by
    have : (0 + 0.5 * (s3 + 0)) * (0 + 0.5 * (s3 + 0)) = 0.25 * (s3 * s3) := by ring
    rw [this, hs]; norm_num
  have h3 : (0.25 : ℝ) < (0 + 0.375 * (s3 + 3 * s3)) * (0 + 0.375 * (s3 + 3 * s3)) := by
    have : (0 + 0.375 * (s3 + 3 * s3)) * (0 + 0.375 * (s3 + 3 * s3)) = 2.25 * (s3 * s3) := by
      ring
    rw [this, hs]; norm_num
  have h4 : (0.25 : ℝ) < (0 + 1.5 * (s3 - 3 * s3 + 4 * 0)) * (0 + 1.5 * (s3 - 3 * s3 + 4 * 0)) := by
    have : (0 + 1.5 * (s3 - 3 * s3 + 4 * 0)) * (0 + 1.5 * (s3 - 3 * s3 + 4 * 0))
        = 9 * (s3 * s3) := by ring
    rw [this, hs]; norm_num
  have hErr : |s3 - 4.5 * s3 + 4 * 0 - 0.5 * 0| + |(0 : ℝ) - 4.5 * 0 + 4 * s3 - 0.5 * s3|
      + |(0 : ℝ) - 4.5 * 0 + 4 * 0 - 0.5 * 0| = 7 := by
    have a1 : s3 - 4.5 * s3 + 4 * 0 - 0.5 * 0 = -3.5 * s3 := by ring
    have a2 : (0 : ℝ) - 4.5 * 0 + 4 * s3 - 0.5 * s3 = 3.5 * s3 := by ring
    have a3 : (0 : ℝ) - 4.5 * 0 + 4 * 0 - 0.5 * 0 = 0 := by ring
    have hs1 : |s3| = 1 := by
      have : |s3| * |s3| = 1 := by rw [← abs_mul, hs, abs_one]
      nlinarith [abs_nonneg s3]
    rw [a1, a2, a3, abs_mul, abs_mul, hs1, abs_zero]
    norm_num [abs_of_pos]
  unfold Trace.StepTrial
  simp only [kinkObj_StepVector, Exec.ok_bind, Exec.pure_eq, h0, if_false, h1, if_true, h2, h3,
    h4, hErr]

theorem kinkObj_ctrl_halve (s : ℝ) (h1 : 0.1 < s) (h2 : s ≤ 5) :
    (kinkObj : Trace ℝ).StepControl 7 s = (s * 0.5, true) := by
  have hE : (kinkObj : Trace ℝ).ErrMax_ = 0.01 := rfl
  have hMin : (kinkObj : Trace ℝ).MinStep_ = 0.1 := rfl
  have hMax : (kinkObj : Trace ℝ).MaxStep_ = 5 := rfl
  rw [StepControl_halve _ _ _ (by rw [hE]; norm_num) (by rw [hE]; norm_num) (by rw [hMin]; exact h1)]
  have : ¬ |s * 0.5| > (kinkObj : Trace ℝ).MaxStep_ := by
    rw [hMax, not_lt, abs_of_nonneg (by linarith)]
    linarith
  rw [if_neg this]

theorem kinkObj_ctrl_floor (s : ℝ) (h1 : s ≤ 0.1) (h2 : |s| ≤ 5) :
    (kinkObj : Trace ℝ).StepControl 7 s = (s, false) := by
  have hE : (kinkObj : Trace ℝ).ErrMax_ = 0.01 := rfl
  have hMin : (kinkObj : Trace ℝ).MinStep_ = 0.1 := rfl
  have hMax : (kinkObj : Trace ℝ).MaxStep_ = 5 := rfl
  rw [StepControl_floor _ _ _ (by rw [hE]; norm_num) (by rw [hE]; norm_num) (by rw [hMin]; exact h1)]
  have : ¬ |s| > (kinkObj : Trace ℝ).MaxStep_ := by
    rw [hMax, not_lt]
    exact h2
  rw [if_neg this]

/-- The loop of `Step` on `kinkObj` from the origin with the hint `3`: five
halvings, and the sixth pass is accepted with the step `0.09375` in force and
the sub-step vectors of length `1`. -/
theorem kinkObj_StepLoop_run :
    (kinkObj : Trace ℝ).StepLoop realLibm 0 0 0 1 6 3 = Except.ok
      (0.09375,
        { rx1 := 1, ry1 := 0, rz1 := 0, rx2 := 0, ry2 := 1, rz2 := 0
          rx3 := 1, ry3 := 0, rz3 := 0, rx4 := 0, ry4 := 1, rz4 := 0
          rx5 := 0, ry5 := 1, rz5 := 0, Err := 7 }) := by
  have htr := kinkObj_StepTrial 1 (by norm_num)
  have c1 := kinkObj_ctrl_halve 3 (by norm_num) (by norm_num)
  have c2 := kinkObj_ctrl_halve (3 * 0.5) (by norm_num) (by norm_num)
  have c3 := kinkObj_ctrl_halve (3 * 0.5 * 0.5) (by norm_num) (by norm_num)
  have c4 := kinkObj_ctrl_halve (3 * 0.5 * 0.5 * 0.5) (by norm_num) (by norm_num)
  have c5 := kinkObj_ctrl_halve (3 * 0.5 * 0.5 * 0.5 * 0.5) (by norm_num) (by norm_num)
  have c6 := kinkObj_ctrl_floor (3 * 0.5 * 0.5 * 0.5 * 0.5 * 0.5) (by norm_num)
    (by rw [abs_of_nonneg (by norm_num)]; norm_num)
  rw [StepLoop_again _ _ 0 0 0 1 3 _ htr (by rw [c1]) 5, c1]
  rw [StepLoop_again _ _ 0 0 0 1 _ _ htr (by rw [c2]) 4, c2]
  rw [StepLoop_again _ _ 0 0 0 1 _ _ htr (by rw [c3]) 3, c3]
  rw [StepLoop_again _ _ 0 0 0 1 _ _ htr (by rw [c4]) 2, c4]
  rw [StepLoop_again _ _ 0 0 0 1 _ _ htr (by rw [c5]) 1, c5]
  rw [StepLoop_one _ _ 0 0 0 1 _ _ htr (by rw [c6]) 0, c6]
  norm_num

theorem kinkObj_Step_run :
    (kinkObj : Trace ℝ).Step realLibm 6 0 0 0 3 = Except.ok
      { step := 0.09375, x := 0.5, y := 2.5, z := 0, Bx := 1, By := 0, Bz := 0 } := by
  have e : (3 : ℝ) / 3.0 = 1 := by norm_num
  have hl := kinkObj_StepLoop_run
  rw [← e] at hl
  rw [Step_of_StepLoop realLibm kinkObj 6 0 0 0 3 _ (1, 0, 0) hl
    (by rw [kinkObj_Field]; unfold kinkField; norm_num)]
  norm_num

/-- C16: the test that guards the halving is `step[0] > MinStep_`, on the signed
step.  For a negative step hint (the backward half of a trace), `MinStep_ ≥ 0`
and a trial whose error estimate exceeds `ErrMax_ ≥ 0`, `Step` returns on its
first pass: the trial position is accepted and the step is not halved (it is
kept, or replaced by `MaxStep_` when `|step| > MaxStep_`), whatever its
magnitude. -/
theorem C16_negative_step_accepted_without_halving (M : Libm ℝ) (T : Trace ℝ)
    (x0 y0 z0 step : ℝ) (tr : SubSteps ℝ) (B : ℝ × ℝ × ℝ)
    (htr : T.StepTrial M x0 y0 z0 (step / 3.0) = Except.ok tr)
    (hErr : T.ErrMax_ < tr.Err) (hE : 0 ≤ T.ErrMax_) (hneg : step < 0) (hMin : 0 ≤ T.MinStep_)
    (hB : T.Field (x0 + 0.5 * (tr.rx1 + 4 * tr.rx4 + tr.rx5))
      (y0 + 0.5 * (tr.ry1 + 4 * tr.ry4 + tr.ry5))
      (z0 + 0.5 * (tr.rz1 + 4 * tr.rz4 + tr.rz5)) = Except.ok B) (fuel : Nat) :
    T.Step M (fuel + 1) x0 y0 z0 step = Except.ok
      { step := if |step| > T.MaxStep_ then T.MaxStep_ else step
        x := x0 + 0.5 * (tr.rx1 + 4 * tr.rx4 + tr.rx5)
        y := y0 + 0.5 * (tr.ry1 + 4 * tr.ry4 + tr.ry5)
        z := z0 + 0.5 * (tr.rz1 + 4 * tr.rz4 + tr.rz5)
        Bx := B.1, By := B.2.1, Bz := B.2.2 } := by
  have hc := StepControl_floor T tr.Err step hErr hE (by linarith)
  have hl := StepLoop_one M T x0 y0 z0 (step / 3.0) step tr htr (by rw [hc]) fuel
  rw [hc] at hl
  exact Step_of_StepLoop M T (fuel + 1) x0 y0 z0 step _ B hl hB

/-- C16 on `kinkObj` (`MinStep_ = 0.1`, `MaxStep_ = 5`, `ErrMax_ = 0.01`) from the
origin with the hint `-3`: the error estimate is `7` and `|-3| > MinStep_`, and
the first pass is accepted with the step `-3`. -/
theorem C16_negative_step_accepted_without_halving_witness :
    ((kinkObj : Trace ℝ).ErrMax_ < 7 ∧ (kinkObj : Trace ℝ).MinStep_ < |(-3 : ℝ)|) ∧
    (kinkObj : Trace ℝ).Step realLibm 1 0 0 0 (-3) = Except.ok
      { step := -3, x := -0.5, y := -2.5, z := 0, Bx := 1, By := 0, Bz := 0 } := by
  have hE : (kinkObj : Trace ℝ).ErrMax_ = 0.01 := rfl
  have hMin : (kinkObj : Trace ℝ).MinStep_ = 0.1 := rfl
  have hMax : (kinkObj : Trace ℝ).MaxStep_ = 5 := rfl
  have e : (-3 : ℝ) / 3.0 = -1 := by norm_num
  have htr := kinkObj_StepTrial (-1) (by norm_num)
  rw [← e] at htr
  have h := C16_negative_step_accepted_without_halving realLibm kinkObj 0 0 0 (-3) _ (1, 0, 0)
    htr (by rw [hE]; norm_num) (by rw [hE]; norm_num) (by norm_num) (by rw [hMin]; norm_num)
    (by rw [kinkObj_Field]; unfold kinkField; norm_num) 0
  have hm : ¬ |(-3 : ℝ)| > (kinkObj : Trace ℝ).MaxStep_ := by
    rw [hMax, abs_neg, abs_of_pos (by norm_num)]
    norm_num
  rw [if_neg hm] at h
  refine ⟨⟨by rw [hE]; norm_num, by rw [hMin, abs_neg, abs_of_pos (by norm_num)]; norm_num⟩, ?_⟩
  rw [h]
  norm_num

/-- C17: `step3 = step[0]/3.0` is computed once, before the loop, and no pass
assigns it.  Whatever the number of halvings and the step length in force on
return, the sub-step vectors that `Step` combines into the accepted position are
those of a trial made with one third of the step hint the call was entered
with. -/
theorem C17_sub_steps_use_initial_step {α : Type} [LinearOrderedField α] (M : Libm α)
    (T : Trace α) (fuel : Nat) (x0 y0 z0 step : α) (r : StepResult α)
    (h : T.Step M fuel x0 y0 z0 step = Except.ok r) :
    ∃ tr, T.StepTrial M x0 y0 z0 (step / 3.0) = Except.ok tr ∧
      r.x = x0 + 0.5 * (tr.rx1 + 4 * tr.rx4 + tr.rx5) ∧
      r.y = y0 + 0.5 * (tr.ry1 + 4 * tr.ry4 + tr.ry5) ∧
      r.z = z0 + 0.5 * (tr.rz1 + 4 * tr.rz4 + tr.rz5) := by
  unfold Trace.Step at h
  cases hl : T.StepLoop M x0 y0 z0 (step / 3.0) fuel step with
  | error e => simp [hl] at h
  | ok out =>
    simp only [hl, Exec.ok_bind] at h
    cases hB : T.Field (x0 + 0.5 * (out.2.rx1 + 4 * out.2.rx4 + out.2.rx5))
        (y0 + 0.5 * (out.2.ry1 + 4 * out.2.ry4 + out.2.ry5))
        (z0 + 0.5 * (out.2.rz1 + 4 * out.2.rz4 + out.2.rz5)) with
    | error e => simp [hB] at h
    | ok B =>
      simp only [hB, Exec.ok_bind, Exec.pure_eq, Except.ok.injEq] at h
      refine ⟨out.2, StepLoop_last M T x0 y0 z0 _ fuel step out hl, ?_, ?_, ?_⟩
      · rw [← h]
      · rw [← h]
      · rw [← h]

/-- C17 on `kinkObj` from the origin with the hint `3`: `Step` halves five times
and returns with the step `0.09375` in force, at `(0.5, 2.5, 0)`; the sub-step
vectors it combined are `(1, 0, 0)`, `(0, 1, 0)`, `(0, 1, 0)`, of length
`1 = 3 / 3`, not `0.09375 / 3`. -/
theorem C17_sub_steps_use_initial_step_witness :
    (kinkObj : Trace ℝ).Step realLibm 6 0 0 0 3 = Except.ok
      { step := 0.09375, x := 0.5, y := 2.5, z := 0, Bx := 1, By := 0, Bz := 0 } ∧
    (kinkObj : Trace ℝ).StepTrial realLibm 0 0 0 (3 / 3.0) = Except.ok
      { rx1 := 1, ry1 := 0, rz1 := 0, rx2 := 0, ry2 := 1, rz2 := 0
        rx3 := 1, ry3 := 0, rz3 := 0, rx4 := 0, ry4 := 1, rz4 := 0
        rx5 := 0, ry5 := 1, rz5 := 0, Err := 7 } ∧
    (∃ tr, (kinkObj : Trace ℝ).StepTrial realLibm 0 0 0 (3 / 3.0) = Except.ok tr ∧
      (0.5 : ℝ) = 0 + 0.5 * (tr.rx1 + 4 * tr.rx4 + tr.rx5) ∧
      (2.5 : ℝ) = 0 + 0.5 * (tr.ry1 + 4 * tr.ry4 + tr.ry5) ∧
      (0 : ℝ) = 0 + 0.5 * (tr.rz1 + 4 * tr.rz4 + tr.rz5)) ∧
    (1 : ℝ) ≠ 0.09375 / 3 := by
  have e : (3 : ℝ) / 3.0 = 1 := by norm_num
  refine ⟨kinkObj_Step_run, ?_,
    C17_sub_steps_use_initial_step realLibm kinkObj 6 0 0 0 3 _ kinkObj_Step_run, by norm_num⟩
  rw [e]
  exact kinkObj_StepTrial 1 (by norm_num)

/-! ## Termination of the loop of `Step` -/

theorem StepVector_total {α : Type} [LinearOrderedField α] (M : Libm α) (T : Trace α)
    (hF : ∀ x y z : α, ∃ B, T.Field x y z = Except.ok B) (x y z s3 : α) :
    ∃ r, T.StepVector M x y z s3 = Except.ok r := by
  obtain ⟨B, hB⟩ := hF x y z
  unfold Trace.StepVector
  rw [hB]
  exact ⟨_, rfl⟩

theorem StepTrial_total {α : Type} [LinearOrderedField α] (M : Libm α) (T : Trace α)
    (hF : ∀ x y z : α, ∃ B, T.Field x y z = Except.ok B) (x0 y0 z0 s3 : α) :
    ∃ tr, T.StepTrial M x0 y0 z0 s3 = Except.ok tr := by
  unfold Trace.StepTrial
  obtain ⟨r1, h1⟩ := StepVector_total M T hF x0 y0 z0 s3
  simp only [h1, Exec.ok_bind]
  obtain ⟨r2, h2⟩ := StepVector_total M T hF (x0 + r1.1) (y0 + r1.2.1) (z0 + r1.2.2) s3
  simp only [h2, Exec.ok_bind]
  obtain ⟨r3, h3⟩ := StepVector_total M T hF (x0 + 0.5 * (r1.1 + r2.1))
    (y0 + 0.5 * (r1.2.1 + r2.2.1)) (z0 + 0.5 * (r1.2.2 + r2.2.2)) s3
  simp only [h3, Exec.ok_bind]
  obtain ⟨r4, h4⟩ := StepVector_total M T hF (x0 + 0.375 * (r1.1 + 3 * r3.1))
    (y0 + 0.375 * (r1.2.1 + 3 * r3.2.1)) (z0 + 0.375 * (r1.2.2 + 3 * r3.2.2)) s3
  simp only [h4, Exec.ok_bind]
  obtain ⟨r5, h5⟩ := StepVector_total M T hF (x0 + 1.5 * (r1.1 - 3 * r3.1 + 4 * r4.1))
    (y0 + 1.5 * (r1.2.1 - 3 * r3.2.1 + 4 * r4.2.1))
    (z0 + 1.5 * (r1.2.2 - 3 * r3.2.2 + 4 * r4.2.2)) s3
  simp only [h5, Exec.ok_bind]
  exact ⟨_, rfl⟩

/-- With the error within `ErrMax_`, the loop exits after two passes at most. -/
theorem StepLoop_exit_of_le (M : Libm ℝ) (T : Trace ℝ) (x0 y0 z0 step3 step : ℝ)
    (tr : SubSteps ℝ) (htr : T.StepTrial M x0 y0 z0 step3 = Except.ok tr)
    (hErr : tr.Err ≤ T.ErrMax_) (hMax : 0 < T.MaxStep_) :
    ∃ out, T.StepLoop M x0 y0 z0 step3 2 step = Except.ok out := by
  by_cases h2 : |step| ≤ T.MaxStep_
  · exact ⟨_, StepLoop_one M T x0 y0 z0 step3 step tr htr
      (StepControl_exit T tr.Err step hErr h2) 1⟩
  · by_cases hc : (T.StepControl tr.Err step).2 = true
    · rw [StepLoop_again M T x0 y0 z0 step3 step tr htr hc 1,
        StepControl_clamp T tr.Err step hErr h2 hMax.le]
      exact ⟨_, StepLoop_one M T x0 y0 z0 step3 _ tr htr
        (StepControl_exit T tr.Err _ hErr (by rw [abs_of_pos hMax])) 0⟩
    · exact ⟨_, StepLoop_one M T x0 y0 z0 step3 step tr htr (by simpa using hc) 1⟩

/-- With the error above `ErrMax_`, every pass that repeats halves the step at
least: a step of at most `MinStep_ · 2ⁿ` exits within `n + 1` passes. -/
theorem StepLoop_exit_of_gt (M : Libm ℝ) (T : Trace ℝ) (x0 y0 z0 step3 : ℝ)
    (tr : SubSteps ℝ) (htr : T.StepTrial M x0 y0 z0 step3 = Except.ok tr)
    (hErr : T.ErrMax_ < tr.Err) (hE : 0 ≤ T.ErrMax_) (hMin : 0 < T.MinStep_) :
    ∀ (n : Nat) (step : ℝ), step ≤ T.MinStep_ * 2 ^ n →
      ∃ out, T.StepLoop M x0 y0 z0 step3 (n + 1) step = Except.ok out := by
  intro n
  induction n with
  | zero =>
    intro step hs
    have hc := StepControl_floor T tr.Err step hErr hE (by simpa using hs)
    exact ⟨_, StepLoop_one M T x0 y0 z0 step3 step tr htr (by rw [hc]) 0⟩
  | succ n ih =>
    intro step hs
    by_cases h2 : step ≤ T.MinStep_
    · have hc := StepControl_floor T tr.Err step hErr hE h2
      exact ⟨_, StepLoop_one M T x0 y0 z0 step3 step tr htr (by rw [hc]) (n + 1)⟩
    · have h2' : T.MinStep_ < step := not_le.mp h2
      have hc := StepControl_halve T tr.Err step hErr hE h2'
      rw [StepLoop_again M T x0 y0 z0 step3 step tr htr (by rw [hc]) (n + 1), hc]
      apply ih
      have hpos : 0 < step := lt_trans hMin h2'
      have hhalf : step * 0.5 ≤ T.MinStep_ * 2 ^ n := by
        have : T.MinStep_ * 2 ^ (n + 1) = 2 * (T.MinStep_ * 2 ^ n) := by ring
        rw [this] at hs
        have : step * 0.5 = step / 2 := by norm_num [div_eq_mul_inv]
        rw [this]
        linarith
      show (if |step * 0.5| > T.MaxStep_ then T.MaxStep_ else step * 0.5) ≤ T.MinStep_ * 2 ^ n
      by_cases h3 : |step * 0.5| > T.MaxStep_
      · rw [if_pos h3]
        rw [abs_of_pos (by positivity)] at h3
        linarith
      · rw [if_neg h3]
        exact hhalf

theorem exists_pow_bound (m step : ℝ) (hm : 0 < m) : ∃ n : Nat, step ≤ m * 2 ^ n := by
  obtain ⟨n, hn⟩ := exists_nat_gt (step / m)
  refine ⟨n, ?_⟩
  have h1 : (n : ℝ) < 2 ^ n := by exact_mod_cast Nat.lt_two_pow n
  have h2 : step / m < 2 ^ n := lt_trans hn h1
  have h3 := (div_lt_iff₀ hm).1 h2
  linarith

/-- In exact arithmetic (the real numbers, where `q / 0 = 0` and no value is a
NaN): for every position, every total field evaluator, every step hint and
every setting with `MinStep_ > 0`, `MaxStep_ > 0`, `ErrMax_ ≥ 0`, the loop of
`Step` exits after finitely many passes and `Step` returns; and when the error
estimate exceeds `ErrMax_` with the step at or below `MinStep_`, the first pass
is accepted. -/
theorem Step_terminates_exact_arithmetic (M : Libm ℝ) (T : Trace ℝ)
    (hF : ∀ x y z : ℝ, ∃ B, T.Field x y z = Except.ok B)
    (hMin : 0 < T.MinStep_) (hMax : 0 < T.MaxStep_) (hE : 0 ≤ T.ErrMax_)
    (x0 y0 z0 step : ℝ) :
    (∃ (fuel : Nat) (r : StepResult ℝ), T.Step M fuel x0 y0 z0 step = Except.ok r) ∧
    (∀ tr, T.StepTrial M x0 y0 z0 (step / 3.0) = Except.ok tr → T.ErrMax_ < tr.Err →
      step ≤ T.MinStep_ →
      ∃ r, T.Step M 1 x0 y0 z0 step = Except.ok r ∧
        r.x = x0 + 0.5 * (tr.rx1 + 4 * tr.rx4 + tr.rx5) ∧
        r.y = y0 + 0.5 * (tr.ry1 + 4 * tr.ry4 + tr.ry5) ∧
        r.z = z0 + 0.5 * (tr.rz1 + 4 * tr.rz4 + tr.rz5)) := by
  obtain ⟨tr, htr⟩ := StepTrial_total M T hF x0 y0 z0 (step / 3.0)
  constructor
  · obtain ⟨fuel, out, hl⟩ : ∃ (fuel : Nat) (out : ℝ × SubSteps ℝ),
        T.StepLoop M x0 y0 z0 (step / 3.0) fuel step = Except.ok out := by
      by_cases hErr : tr.Err ≤ T.ErrMax_
      · obtain ⟨out, h⟩ := StepLoop_exit_of_le M T x0 y0 z0 _ step tr htr hErr hMax
        exact ⟨2, out, h⟩
      · obtain ⟨n, hn⟩ := exists_pow_bound T.MinStep_ step hMin
        obtain ⟨out, h⟩ := StepLoop_exit_of_gt M T x0 y0 z0 _ tr htr (not_le.mp hErr) hE hMin
          n step hn
        exact ⟨n + 1, out, h⟩
    obtain ⟨B, hB⟩ := hF (x0 + 0.5 * (out.2.rx1 + 4 * out.2.rx4 + out.2.rx5))
      (y0 + 0.5 * (out.2.ry1 + 4 * out.2.ry4 + out.2.ry5))
      (z0 + 0.5 * (out.2.rz1 + 4 * out.2.rz4 + out.2.rz5))
    exact ⟨fuel, _, Step_of_StepLoop M T fuel x0 y0 z0 step out B hl hB⟩
  · intro tr' htr' hErr hs
    have hc := StepControl_floor T tr'.Err step hErr hE hs
    have hl := StepLoop_one M T x0 y0 z0 (step / 3.0) step tr' htr' (by rw [hc]) 0
    obtain ⟨B, hB⟩ := hF (x0 + 0.5 * (tr'.rx1 + 4 * tr'.rx4 + tr'.rx5))
      (y0 + 0.5 * (tr'.ry1 + 4 * tr'.ry4 + tr'.ry5))
      (z0 + 0.5 * (tr'.rz1 + 4 * tr'.rz4 + tr'.rz5))
    exact ⟨_, Step_of_StepLoop M T 1 x0 y0 z0 step _ B hl hB, rfl, rfl, rfl⟩

/-! ## The junction of the two halves of a trace -/

section Junction

variable {α : Type} [LinearOrderedField α]

omit [LinearOrderedField α] in
theorem SameBelow_refl (b : TraceBuf α) (m : Int) : SameBelow b b m :=
  fun _ _ => ⟨rfl, rfl, rfl, rfl, rfl, rfl⟩

omit [LinearOrderedField α] in
theorem SameBelow_trans (b1 b2 b3 : TraceBuf α) (m n : Int) (h12 : SameBelow b1 b2 n)
    (h23 : SameBelow b2 b3 m) (hmn : m ≤ n) : SameBelow b1 b3 m := by
  intro k hk
  obtain ⟨a1, a2, a3, a4, a5, a6⟩ := h12 k (lt_of_lt_of_le hk hmn)
  obtain ⟨c1, c2, c3, c4, c5, c6⟩ := h23 k hk
  exact ⟨a1.trans c1, a2.trans c2, a3.trans c3, a4.trans c4, a5.trans c5, a6.trans c6⟩

theorem StepLink_transfer (M : Libm α) (T : Trace α) (b b' : TraceBuf α) (k : Nat) (n : Int)
    (h : StepLink M T b k) (hp : SameBelow b' b n) (hk : (k : Int) < n) :
    StepLink M T b' k := by
  obtain ⟨px, py, pz, st, fuel, res, h1, h2, h3, hs, h4, h5, h6, h7, h8, h9⟩ := h
  obtain ⟨a1, a2, a3, a4, a5, a6⟩ := hp k hk
  obtain ⟨c1, c2, c3, -, -, -⟩ := hp (k - 1) (by omega)
  exact ⟨px, py, pz, st, fuel, res, c1.trans h1, c2.trans h2, c3.trans h3, hs, a1.trans h4,
    a2.trans h5, a3.trans h6, a4.trans h7, a5.trans h8, a6.trans h9⟩

/-- One pass of a tracing loop on storage of `N` elements per array: the samples
below `nstep` are kept and sample `nstep` is the result of `Step` from sample
`nstep - 1`. -/
theorem RKMBody_step (M : Libm α) (T : Trace α) (N : Nat)
    (hStep : ∀ x y z st : α, ∃ (fuel : Nat) (r : StepResult α),
      T.Step M fuel x y z st = Except.ok r)
    (s : RKMState α) (hsz : s.buf.Sized N) (h1 : 1 ≤ s.buf.nstep) (h2 : s.buf.nstep < N) :
    ∃ (F : Nat) (s' : RKMState α),
      (∀ fuel, F ≤ fuel → T.RKMBody M fuel s = Except.ok s') ∧
      s'.buf.Sized N ∧ s'.buf.nstep = s.buf.nstep + 1 ∧
      SameBelow s'.buf s.buf s.buf.nstep ∧ StepLink M T s'.buf s.buf.nstep.toNat := by
  obtain ⟨hR, hx, hy, hz, hBx, hBy, hBz⟩ := hsz
  have hn : s.buf.nstep.toNat < N := by omega
  have hn1 : (s.buf.nstep - 1).toNat = s.buf.nstep.toNat - 1 := by omega
  have hne : ¬ s.buf.nstep.toNat = s.buf.nstep.toNat - 1 := by omega
  have hpre : ∀ k : Nat, (k : Int) < s.buf.nstep → ¬ s.buf.nstep.toNat = k := by
    intro k hk
    omega
  obtain ⟨px, hpx⟩ := rd_exists s.buf.x (s.buf.nstep - 1) (by omega) (by omega)
  obtain ⟨py, hpy⟩ := rd_exists s.buf.y (s.buf.nstep - 1) (by omega) (by omega)
  obtain ⟨pz, hpz⟩ := rd_exists s.buf.z (s.buf.nstep - 1) (by omega) (by omega)
  obtain ⟨f, r, hr⟩ := hStep px py pz s.step
  have gx := ((rd_eq_ok_iff _ _ _).1 hpx).2
  have gy := ((rd_eq_ok_iff _ _ _).1 hpy).2
  have gz := ((rd_eq_ok_iff _ _ _).1 hpz).2
  rw [hn1] at gx gy gz
  clear h1 h2
  refine ⟨f, _, fun fuel hf => RKMBody_ok M T fuel s N ⟨hR, hx, hy, hz, hBx, hBy, hBz⟩ (by omega)
    (by omega) px py pz hpx hpy hpz r (Step_mono M T f px py pz s.step r hr fuel hf),
    ?_, rfl, ?_, ?_⟩
  · refine ⟨?_, ?_, ?_, ?_, ?_, ?_, ?_⟩ <;> simp only [Array.size_setD] <;> assumption
  · intro k hk
    have e := hpre k hk
    refine ⟨?_, ?_, ?_, ?_, ?_, ?_⟩
    · show (s.buf.x.setD s.buf.nstep.toNat r.x)[k]? = s.buf.x[k]?
      rw [getElem?_setD _ _ _ _ (by rw [hx]; exact hn), if_neg e]
    · show (s.buf.y.setD s.buf.nstep.toNat r.y)[k]? = s.buf.y[k]?
      rw [getElem?_setD _ _ _ _ (by rw [hy]; exact hn), if_neg e]
    · show (s.buf.z.setD s.buf.nstep.toNat r.z)[k]? = s.buf.z[k]?
      rw [getElem?_setD _ _ _ _ (by rw [hz]; exact hn), if_neg e]
    · show (s.buf.Bx.setD s.buf.nstep.toNat r.Bx)[k]? = s.buf.Bx[k]?
      rw [getElem?_setD _ _ _ _ (by rw [hBx]; exact hn), if_neg e]
    · show (s.buf.By.setD s.buf.nstep.toNat r.By)[k]? = s.buf.By[k]?
      rw [getElem?_setD _ _ _ _ (by rw [hBy]; exact hn), if_neg e]
    · show (s.buf.Bz.setD s.buf.nstep.toNat r.Bz)[k]? = s.buf.Bz[k]?
      rw [getElem?_setD _ _ _ _ (by rw [hBz]; exact hn), if_neg e]
  · refine ⟨px, py, pz, s.step, f, r, ?_, ?_, ?_, hr, ?_, ?_, ?_, ?_, ?_, ?_⟩
    · show (s.buf.x.setD s.buf.nstep.toNat r.x)[s.buf.nstep.toNat - 1]? = some px
      rw [getElem?_setD _ _ _ _ (by rw [hx]; exact hn), if_neg hne, gx]
    · show (s.buf.y.setD s.buf.nstep.toNat r.y)[s.buf.nstep.toNat - 1]? = some py
      rw [getElem?_setD _ _ _ _ (by rw [hy]; exact hn), if_neg hne, gy]
    · show (s.buf.z.setD s.buf.nstep.toNat r.z)[s.buf.nstep.toNat - 1]? = some pz
      rw [getElem?_setD _ _ _ _ (by rw [hz]; exact hn), if_neg hne, gz]
    · show (s.buf.x.setD s.buf.nstep.toNat r.x)[s.buf.nstep.toNat]? = some r.x
      rw [getElem?_setD _ _ _ _ (by rw [hx]; exact hn), if_pos rfl]
    · show (s.buf.y.setD s.buf.nstep.toNat r.y)[s.buf.nstep.toNat]? = some r.y
      rw [getElem?_setD _ _ _ _ (by rw [hy]; exact hn), if_pos rfl]
    · show (s.buf.z.setD s.buf.nstep.toNat r.z)[s.buf.nstep.toNat]? = some r.z
      rw [getElem?_setD _ _ _ _ (by rw [hz]; exact hn), if_pos rfl]
    · show (s.buf.Bx.setD s.buf.nstep.toNat r.Bx)[s.buf.nstep.toNat]? = some r.Bx
      rw [getElem?_setD _ _ _ _ (by rw [hBx]; exact hn), if_pos rfl]
    · show (s.buf.By.setD s.buf.nstep.toNat r.By)[s.buf.nstep.toNat]? = some r.By
      rw [getElem?_setD _ _ _ _ (by rw [hBy]; exact hn), if_pos rfl]
    · show (s.buf.Bz.setD s.buf.nstep.toNat r.Bz)[s.buf.nstep.toNat]? = some r.Bz
      rw [getElem?_setD _ _ _ _ (by rw [hBz]; exact hn), if_pos rfl]

/-- A tracing loop guarded by the direction test `c`, started at `s0`: the
samples below `s0.buf.nstep` are kept and every sample from there on is the
result of `Step` from the sample before it. -/
theorem RKMPhase_chain (M : Libm α) (T : Trace α) (c : Prop) [Decidable c] (bound : Int)
    (N : Nat) (hb : bound < N)
    (hStep : ∀ x y z st : α, ∃ (fuel : Nat) (r : StepResult α),
      T.Step M fuel x y z st = Except.ok r)
    (s0 : RKMState α) (hsz : s0.buf.Sized N) (h1 : 1 ≤ s0.buf.nstep) :
    ∃ (F : Nat) (s' : RKMState α),
      (∀ fuel, F ≤ fuel →
        (if c then T.RKMLoop M fuel bound (bound - s0.buf.nstep).toNat s0 else pure s0)
          = Except.ok s') ∧
      s'.buf.Sized N ∧ s0.buf.nstep ≤ s'.buf.nstep ∧ s'.buf.nstep ≤ max s0.buf.nstep bound ∧
      SameBelow s'.buf s0.buf s0.buf.nstep ∧
      (∀ k : Nat, s0.buf.nstep ≤ k → (k : Int) < s'.buf.nstep → StepLink M T s'.buf k) ∧
      (¬ c → s' = s0) := by
  by_cases hc : c
  · obtain ⟨F, s', hrun, ⟨hsz', hm', hp', hl'⟩, hle, hmax, _⟩ :=
      RKMLoop_inv M T bound
        (fun s => s.buf.Sized N ∧ s0.buf.nstep ≤ s.buf.nstep ∧
          SameBelow s.buf s0.buf s0.buf.nstep ∧
          ∀ k : Nat, s0.buf.nstep ≤ k → (k : Int) < s.buf.nstep → StepLink M T s.buf k)
        (by
          intro s ⟨hs, hm, hp, hl⟩ _ hlt
          obtain ⟨F, s', hrun, hs', hn', hp', hl'⟩ :=
            RKMBody_step M T N hStep s hs (by omega) (by omega)
          refine ⟨F, s', hrun, ⟨hs', by omega, ?_, ?_⟩, hn'⟩
          · exact SameBelow_trans _ _ _ _ _ hp' hp hm
          · intro k hk1 hk2
            by_cases hk : (k : Int) < s.buf.nstep
            · exact StepLink_transfer M T s.buf s'.buf k _ (hl k hk1 hk) hp' hk
            · have : k = s.buf.nstep.toNat := by omega
              rw [this]
              exact hl')
        (bound - s0.buf.nstep).toNat s0
        ⟨hsz, le_refl _, SameBelow_refl _ _, fun k hk1 hk2 => absurd hk2 (by omega)⟩ le_rfl
    exact ⟨F, s', fun fuel hf => by rw [if_pos hc]; exact hrun fuel hf, hsz', hle, hmax, hp',
      hl', fun h => absurd hc h⟩
  · exact ⟨0, s0, fun fuel _ => by rw [if_neg hc]; rfl, hsz, le_rfl, le_max_left _ _,
      SameBelow_refl _ _, fun k hk1 hk2 => absurd hk2 (by omega), fun _ => rfl⟩

end Junction

/-- C19: for `MaxLen_ ≥ 1`, storage of `MaxLen_` elements per array and every
field evaluator for which each `Step` returns, `RKMTrace` returns, and with `m`
the number of samples of the forward pass (`m = 1` when `TraceDir_ = -1`):
the forward pass starts at the seed and each of its samples is the `Step` from
the one before; in the final trace sample `m - 1` is the seed, samples
`0 .. m-1` are the forward samples in reversed order, and every sample `k` with
`m ≤ k < nstep` is the `Step` from sample `k - 1`. -/
theorem C19_seed_at_junction {α : Type} [LinearOrderedField α] (M : Libm α) (T : Trace α)
    (x0 y0 z0 : α) (b : TraceBuf α)
    (hMaxLen : 1 ≤ T.MaxLen_) (hsz : b.Sized T.MaxLen_.toNat)
    (hStep : ∀ x y z st : α, ∃ (fuel : Nat) (r : StepResult α),
      T.Step M fuel x y z st = Except.ok r) :
    ∃ (F : Nat) (s1 : RKMState α) (r : TraceBuf α),
      (∀ fuel, F ≤ fuel → T.RKMForward M fuel x0 y0 z0 b = Except.ok s1 ∧
        T.RKMTrace M fuel x0 y0 z0 b = Except.ok r) ∧
      1 ≤ s1.buf.nstep ∧ s1.buf.nstep ≤ r.nstep ∧
      (T.TraceDir_ = -1 → s1.buf.nstep = 1) ∧
      (s1.buf.x[0]? = some x0 ∧ s1.buf.y[0]? = some y0 ∧ s1.buf.z[0]? = some z0) ∧
      (∀ k : Nat, 1 ≤ k → (k : Int) < s1.buf.nstep → StepLink M T s1.buf k) ∧
      (r.x[(s1.buf.nstep - 1).toNat]? = some x0 ∧ r.y[(s1.buf.nstep - 1).toNat]? = some y0 ∧
        r.z[(s1.buf.nstep - 1).toNat]? = some z0) ∧
      (∀ k : Nat, (k : Int) < s1.buf.nstep →
        r.x[k]? = s1.buf.x[(s1.buf.nstep - 1 - k).toNat]? ∧
        r.y[k]? = s1.buf.y[(s1.buf.nstep - 1 - k).toNat]? ∧
        r.z[k]? = s1.buf.z[(s1.buf.nstep - 1 - k).toNat]? ∧
        r.Bx[k]? = s1.buf.Bx[(s1.buf.nstep - 1 - k).toNat]? ∧
        r.By[k]? = s1.buf.By[(s1.buf.nstep - 1 - k).toNat]? ∧
        r.Bz[k]? = s1.buf.Bz[(s1.buf.nstep - 1 - k).toNat]?) ∧
      (∀ k : Nat, s1.buf.nstep ≤ k → (k : Int) < r.nstep → StepLink M T r k) := by
  have hN : ((T.MaxLen_.toNat : Nat) : Int) = T.MaxLen_ := by omega
  have hN1 : 1 ≤ T.MaxLen_.toNat := by omega
  have hdiv : Int.tdiv T.MaxLen_ 2 = T.MaxLen_ / 2 := Int.tdiv_eq_ediv (by omega) (by norm_num)
  have hb1 : Int.tdiv T.MaxLen_ 2 - 1 < (T.MaxLen_.toNat : Nat) := by rw [hdiv]; omega
  have hb2 : T.MaxLen_ - 1 < (T.MaxLen_.toNat : Nat) := by omega
  obtain ⟨f0, r0, hr0⟩ := hStep x0 y0 z0 0
  obtain ⟨B, hB⟩ := Field_ok_of_Step_ok M T f0 x0 y0 z0 0 r0 hr0
  obtain ⟨s0, hinit, hs0, hn0, hx0, hy0, hz0⟩ : ∃ s0, T.RKMInit M x0 y0 z0 b = Except.ok s0 ∧
      s0.buf.Sized T.MaxLen_.toNat ∧ s0.buf.nstep = 1 ∧
      s0.buf.x[0]? = some x0 ∧ s0.buf.y[0]? = some y0 ∧ s0.buf.z[0]? = some z0 := by
    obtain ⟨hR, hx, hy, hz, hBx, hBy, hBz⟩ := hsz
    refine ⟨_, RKMInit_ok M T x0 y0 z0 b _ ⟨hR, hx, hy, hz, hBx, hBy, hBz⟩ hN1 B hB, ?_, rfl,
      ?_, ?_, ?_⟩
    · refine ⟨?_, ?_, ?_, ?_, ?_, ?_, ?_⟩ <;> simp only [Array.size_setD] <;> assumption
    · show (b.x.setD 0 x0)[0]? = some x0
      rw [getElem?_setD _ _ _ _ (by omega), if_pos rfl]
    · show (b.y.setD 0 y0)[0]? = some y0
      rw [getElem?_setD _ _ _ _ (by omega), if_pos rfl]
    · show (b.z.setD 0 z0)[0]? = some z0
      rw [getElem?_setD _ _ _ _ (by omega), if_pos rfl]
  obtain ⟨F1, s1, hrun1, hs1, hle1, hmax1, hp1, hl1, hnc1⟩ :=
    RKMPhase_chain M T (T.TraceDir_ = 1 ∨ T.TraceDir_ = 0) _ _ hb1 hStep s0 hs0 (by omega)
  have hn1 : 1 ≤ s1.buf.nstep := by omega
  have hn1' : s1.buf.nstep ≤ (T.MaxLen_.toNat : Nat) := by
    rcases le_max_iff.1 hmax1 with h | h <;> omega
  have hseed : s1.buf.x[0]? = some x0 ∧ s1.buf.y[0]? = some y0 ∧ s1.buf.z[0]? = some z0 := by
    obtain ⟨a1, a2, a3, -, -, -⟩ := hp1 0 (by omega)
    exact ⟨a1.trans hx0, a2.trans hy0, a3.trans hz0⟩
  have hidx : (s1.buf.nstep - 1 - ((s1.buf.nstep - 1).toNat : Nat)).toNat = 0 := by omega
  have hlast : (((s1.buf.nstep - 1).toNat : Nat) : Int) < s1.buf.nstep := by omega
  have hdir : T.TraceDir_ = -1 → s1.buf.nstep = 1 := by
    intro hd
    have : ¬ (T.TraceDir_ = 1 ∨ T.TraceDir_ = 0) := by omega
    rw [hnc1 this]
    exact hn0
  obtain ⟨s2, hturn, hs2, hn2, -, hrev, -⟩ := RKMTurn_ok M T s1 _ hs1 hn1 hn1'
  obtain ⟨F2, s3, hrun2, hs3, hle3, hmax3, hp3, hl3, -⟩ :=
    RKMPhase_chain M T (T.TraceDir_ = -1 ∨ T.TraceDir_ = 0) _ _ hb2 hStep s2 hs2
      (by rw [hn2]; exact hn1)
  rw [hn2] at hp3 hl3 hle3
  have hrevd : ∀ k : Nat, (k : Int) < s1.buf.nstep →
      s3.buf.x[k]? = s1.buf.x[(s1.buf.nstep - 1 - k).toNat]? ∧
      s3.buf.y[k]? = s1.buf.y[(s1.buf.nstep - 1 - k).toNat]? ∧
      s3.buf.z[k]? = s1.buf.z[(s1.buf.nstep - 1 - k).toNat]? ∧
      s3.buf.Bx[k]? = s1.buf.Bx[(s1.buf.nstep - 1 - k).toNat]? ∧
      s3.buf.By[k]? = s1.buf.By[(s1.buf.nstep - 1 - k).toNat]? ∧
      s3.buf.Bz[k]? = s1.buf.Bz[(s1.buf.nstep - 1 - k).toNat]? := by
    intro k hk
    obtain ⟨a1, a2, a3, a4, a5, a6⟩ := hp3 k hk
    obtain ⟨c1, c2, c3, c4, c5, c6⟩ := hrev k hk
    exact ⟨a1.trans c1, a2.trans c2, a3.trans c3, a4.trans c4, a5.trans c5, a6.trans c6⟩
  refine ⟨max F1 F2, s1, s3.buf, fun fuel hf => ?_, hn1, hle3, hdir, hseed,
    fun k hk1 hk2 => hl1 k (by rw [hn0]; exact_mod_cast hk1) hk2, ?_, hrevd, hl3⟩
  · have e1 := hrun1 fuel (le_trans (le_max_left _ _) hf)
    have e2 := hrun2 fuel (le_trans (le_max_right _ _) hf)
    simp only [Exec.pure_eq] at e1 e2
    constructor
    · unfold Trace.RKMForward
      simp only [hinit, Exec.ok_bind, Exec.pure_eq, e1]
    · unfold Trace.RKMTrace
      simp only [hinit, Exec.ok_bind, Exec.pure_eq, e1, hturn, e2]
  · obtain ⟨a1, a2, a3, -, -, -⟩ := hrevd _ hlast
    rw [hidx] at a1 a2 a3
    exact ⟨a1.trans hseed.1, a2.trans hseed.2.1, a3.trans hseed.2.2⟩

/-- C19 on the scenario object (uniform axial field, `MaxLen_ = 100`) from the
seed `(6, 0, 0)` with zeroed storage of 100 elements per array. -/
theorem C19_seed_at_junction_witness :
    ∃ (F : Nat) (s1 : RKMState ℝ) (r : TraceBuf ℝ),
      (∀ fuel, F ≤ fuel →
        (scenarioObj (0 : ℝ)).RKMForward realLibm fuel 6 0 0 (zeroBuf 100) = Except.ok s1 ∧
        (scenarioObj (0 : ℝ)).RKMTrace realLibm fuel 6 0 0 (zeroBuf 100) = Except.ok r) ∧
      1 ≤ s1.buf.nstep ∧ s1.buf.nstep ≤ r.nstep ∧
      ((scenarioObj (0 : ℝ)).TraceDir_ = -1 → s1.buf.nstep = 1) ∧
      (s1.buf.x[0]? = some 6 ∧ s1.buf.y[0]? = some 0 ∧ s1.buf.z[0]? = some 0) ∧
      (∀ k : Nat, 1 ≤ k → (k : Int) < s1.buf.nstep →
        StepLink realLibm (scenarioObj (0 : ℝ)) s1.buf k) ∧
      (r.x[(s1.buf.nstep - 1).toNat]? = some 6 ∧ r.y[(s1.buf.nstep - 1).toNat]? = some 0 ∧
        r.z[(s1.buf.nstep - 1).toNat]? = some 0) ∧
      (∀ k : Nat, (k : Int) < s1.buf.nstep →
        r.x[k]? = s1.buf.x[(s1.buf.nstep - 1 - k).toNat]? ∧
        r.y[k]? = s1.buf.y[(s1.buf.nstep - 1 - k).toNat]? ∧
        r.z[k]? = s1.buf.z[(s1.buf.nstep - 1 - k).toNat]? ∧
        r.Bx[k]? = s1.buf.Bx[(s1.buf.nstep - 1 - k).toNat]? ∧
        r.By[k]? = s1.buf.By[(s1.buf.nstep - 1 - k).toNat]? ∧
        r.Bz[k]? = s1.buf.Bz[(s1.buf.nstep - 1 - k).toNat]?) ∧
      (∀ k : Nat, s1.buf.nstep ≤ k → (k : Int) < r.nstep →
        StepLink realLibm (scenarioObj (0 : ℝ)) r k) :=
  C19_seed_at_junction realLibm (scenarioObj (0 : ℝ)) 6 0 0 (zeroBuf 100)
    (by show (1 : Int) ≤ 100; decide)
    (by
      show (zeroBuf 100 : TraceBuf ℝ).Sized 100
      simp [TraceBuf.Sized, zeroBuf])
    (fun x y z st => ⟨2, Step_uniform_returns (scenarioObj (0 : ℝ)) (scenarioObj_Field 0)
      (le_refl (0 : ℝ)) (by show (0 : ℝ) ≤ 0.5; norm_num) x y z st⟩)

/-! ## The start points of the two neighbouring traces -/

theorem fmod_cos (x : ℝ) : Real.cos (realLibm.fmod x (2 * Real.pi)) = Real.cos x := by
  show Real.cos (x - truncR (x / (2 * Real.pi)) * (2 * Real.pi)) = Real.cos x
  unfold truncR
  split_ifs
  · exact Real.cos_sub_int_mul_two_pi x _
  · exact Real.cos_sub_int_mul_two_pi x _

theorem fmod_sin (x : ℝ) : Real.sin (realLibm.fmod x (2 * Real.pi)) = Real.sin x := by
  show Real.sin (x - truncR (x / (2 * Real.pi)) * (2 * Real.pi)) = Real.sin x
  unfold truncR
  split_ifs
  · exact Real.sin_sub_int_mul_two_pi x _
  · exact Real.sin_sub_int_mul_two_pi x _

theorem start_offset_sq (D a b : ℝ) :
    (D * Real.sin a * Real.cos b - D * Real.cos a * Real.sin b)
        * (D * Real.sin a * Real.cos b - D * Real.cos a * Real.sin b)
      + (D * Real.sin a * Real.sin b + D * Real.cos a * Real.cos b)
        * (D * Real.sin a * Real.sin b + D * Real.cos a * Real.cos b) = D * D := by
  have h1 := Real.sin_sq_add_cos_sq a
  have h2 := Real.sin_sq_add_cos_sq b
  calc _ = D * D * (Real.sin a ^ 2 + Real.cos a ^ 2) * (Real.sin b ^ 2 + Real.cos b ^ 2) := by
        ring
    _ = D * D := by rw [h1, h2]; ring

theorem HalphaStartPoint_fmod (D x fx fy fz : ℝ) :
    HalphaStartPoint realLibm D (realLibm.fmod x (2 * Real.pi)) fx fy fz
      = HalphaStartPoint realLibm D x fx fy fz := by
  have hc : realLibm.cos = Real.cos := rfl
  have hs : realLibm.sin = Real.sin := rfl
  unfold HalphaStartPoint
  simp only [hc, hs, fmod_cos, fmod_sin]

/-- In exact arithmetic (the real numbers, with the real `cos` and `sin`): for a
seed `i` and a probe angle `j` within the storage,
`_CalculateHalphaStartPoints` returns two points that both lie at distance
`|Delta_|` from the equatorial footprint, have its `z`, and have the footprint
as their midpoint; the first is the start-point formula at the angle
`alpha0_[j]`, the second is the same formula at that angle plus `π`, and also at
`fmod(alpha0_[j] + π, 2π)`, the value `SetAlpha` stores in `alpha1_[j]`. -/
theorem StartPoints_mirror_exact_arithmetic (T : Trace ℝ) (i j : Nat) (a fx fy fz : ℝ)
    (ha : T.alpha0_[j]? = some a) (hx : T.xfe_[i]? = some fx) (hy : T.yfe_[i]? = some fy)
    (hz : T.zfe_[i]? = some fz) :
    ∃ p, T._CalculateHalphaStartPoints realLibm i j = Except.ok p ∧
      Real.sqrt ((p.1.1 - fx) * (p.1.1 - fx) + (p.1.2.1 - fy) * (p.1.2.1 - fy)
        + (p.1.2.2 - fz) * (p.1.2.2 - fz)) = |T.Delta_| ∧
      Real.sqrt ((p.2.1 - fx) * (p.2.1 - fx) + (p.2.2.1 - fy) * (p.2.2.1 - fy)
        + (p.2.2.2 - fz) * (p.2.2.2 - fz)) = |T.Delta_| ∧
      p.1.2.2 = fz ∧ p.2.2.2 = fz ∧
      (p.1.1 + p.2.1) / 2 = fx ∧ (p.1.2.1 + p.2.2.1) / 2 = fy ∧ (p.1.2.2 + p.2.2.2) / 2 = fz ∧
      p.1 = HalphaStartPoint realLibm T.Delta_ a fx fy fz ∧
      p.2 = HalphaStartPoint realLibm T.Delta_ (a + Real.pi) fx fy fz ∧
      p.2 = HalphaStartPoint realLibm T.Delta_ (realLibm.fmod (a + Real.pi) (2 * Real.pi))
        fx fy fz := by
  have ea := rd_ofNat _ _ _ ha
  have ex := rd_ofNat _ _ _ hx
  have ey := rd_ofNat _ _ _ hy
  have ez := rd_ofNat _ _ _ hz
  have hsq := start_offset_sq T.Delta_ a (Complex.arg ⟨-fy, -fx⟩)
  have hp2 : HalphaStartPoint realLibm T.Delta_ (a + Real.pi) fx fy fz
      = (fx - (T.Delta_ * Real.sin a * Real.cos (Complex.arg ⟨-fy, -fx⟩)
            - T.Delta_ * Real.cos a * Real.sin (Complex.arg ⟨-fy, -fx⟩)),
          fy - (T.Delta_ * Real.sin a * Real.sin (Complex.arg ⟨-fy, -fx⟩)
            + T.Delta_ * Real.cos a * Real.cos (Complex.arg ⟨-fy, -fx⟩)), fz) := by
    show (_, _, _) = _
    simp only [realLibm, Real.cos_add_pi, Real.sin_add_pi]
    refine Prod.ext ?_ (Prod.ext ?_ rfl)
    · show _ = _
      ring
    · show _ = _
      ring
  refine ⟨((fx + (T.Delta_ * Real.sin a * Real.cos (Complex.arg ⟨-fy, -fx⟩)
            - T.Delta_ * Real.cos a * Real.sin (Complex.arg ⟨-fy, -fx⟩)),
          fy + (T.Delta_ * Real.sin a * Real.sin (Complex.arg ⟨-fy, -fx⟩)
            + T.Delta_ * Real.cos a * Real.cos (Complex.arg ⟨-fy, -fx⟩)), fz),
        (fx - (T.Delta_ * Real.sin a * Real.cos (Complex.arg ⟨-fy, -fx⟩)
            - T.Delta_ * Real.cos a * Real.sin (Complex.arg ⟨-fy, -fx⟩)),
          fy - (T.Delta_ * Real.sin a * Real.sin (Complex.arg ⟨-fy, -fx⟩)
            + T.Delta_ * Real.cos a * Real.cos (Complex.arg ⟨-fy, -fx⟩)), fz)),
      ?_, ?_, ?_, rfl, rfl, ?_, ?_, ?_, rfl, hp2.symm, ?_⟩
  · unfold Trace._CalculateHalphaStartPoints
    simp only [ea, ex, ey, ez, Exec.ok_bind, Exec.pure_eq]
    rfl
  · rw [← Real.sqrt_mul_self_eq_abs, ← hsq]
    congr 1
    ring
  · rw [← Real.sqrt_mul_self_eq_abs, ← hsq]
    congr 1
    ring
  · show (_ + _) / 2 = fx
    ring
  · show (_ + _) / 2 = fy
    ring
  · show (fz + fz) / 2 = fz
    ring
  · rw [HalphaStartPoint_fmod, hp2]

/-! ## The auxiliary object built by `TracePosition` -/

/-- Method `InputPos(1, &x, &y, &z)`. -/
theorem InputPos_one {α : Type} [LinearOrderedField α] (u : α) (T0 : Trace α) (x y z : α) :
    Trace.InputPos u T0 1 #[x] #[y] #[z] = Except.ok
      (if T0.inputPos_ then (T0, some Message.inputPosAlreadySet)
       else ({ T0 with n_ := 1, x0_ := #[x], y0_ := #[y], z0_ := #[z], inputPos_ := true },
         none)) := by
  unfold Trace.InputPos
  cases h : T0.inputPos_
  · simp only [Bool.false_eq_true, if_false]
    rfl
  · simp only [if_true]
    rfl

theorem _TraceField_frame {α : Type} (u : α) (T : Trace α) :
    (T._TraceField u).1.Funcs_ = T.Funcs_ ∧ (T._TraceField u).1.nf_ = T.nf_ ∧
    (T._TraceField u).1.InitStep_ = T.InitStep_ ∧ (T._TraceField u).1.MinStep_ = T.MinStep_ ∧
    (T._TraceField u).1.MaxStep_ = T.MaxStep_ ∧ (T._TraceField u).1.ErrMax_ = T.ErrMax_ ∧
    (T._TraceField u).1.MaxR_ = T.MaxR_ ∧ (T._TraceField u).1.MaxLen_ = T.MaxLen_ ∧
    (T._TraceField u).1.TraceDir_ = T.TraceDir_ ∧ (T._TraceField u).1.n_ = T.n_ := by
  unfold Trace._TraceField
  split_ifs <;> exact ⟨rfl, rfl, rfl, rfl, rfl, rfl, rfl, rfl, rfl, rfl⟩

theorem _CalculateTraceDist_frame {α : Type} [LinearOrderedField α] (M : Libm α)
    (T A : Trace α) (h : T._CalculateTraceDist M = Except.ok A) :
    ∃ S, A = { T with S_ := S, hasDist_ := true } := by
  unfold Trace._CalculateTraceDist at h
  cases hS : forLoop 0 T.n_ (T.TraceDistRow M) T.S_ with
  | error e => simp [hS] at h
  | ok S =>
    simp only [hS, Exec.ok_bind, Exec.pure_eq, Except.ok.injEq] at h
    exact ⟨S, h.symm⟩

theorem CalculateTraceDist_frame {α : Type} [LinearOrderedField α] (M : Libm α) (u : α)
    (T A : Trace α) (h : T.CalculateTraceDist M u = Except.ok A) :
    ∃ S, A = { T with S_ := S, allocDist_ := true, hasDist_ := true } := by
  unfold Trace.CalculateTraceDist at h
  obtain ⟨S, hS⟩ := _CalculateTraceDist_frame M _ A h
  exact ⟨S, hS⟩

/-- What `TraceField()` leaves in the object, whatever its checks decide: the
configuration is kept, the six trace arrays are fresh storage, and the step
counts are fresh storage unless they were allocated before. -/
theorem TraceField_frame {α : Type} (ui : Int) (u : α) (T : Trace α) :
    ((T.TraceField ui u).1.Funcs_ = T.Funcs_ ∧ (T.TraceField ui u).1.nf_ = T.nf_) ∧
    ((T.TraceField ui u).1.InitStep_ = T.InitStep_ ∧
      (T.TraceField ui u).1.MinStep_ = T.MinStep_ ∧
      (T.TraceField ui u).1.MaxStep_ = T.MaxStep_ ∧
      (T.TraceField ui u).1.ErrMax_ = T.ErrMax_ ∧ (T.TraceField ui u).1.MaxR_ = T.MaxR_) ∧
    ((T.TraceField ui u).1.MaxLen_ = T.MaxLen_ ∧
      (T.TraceField ui u).1.TraceDir_ = T.TraceDir_) ∧
    (T.TraceField ui u).1.n_ = T.n_ ∧
    ((T.TraceField ui u).1.nstep_ = (if T.allocNstep_ then T.nstep_ else newArray T.n_ ui) ∧
      (T.TraceField ui u).1.x_ = newArray T.n_ (newArray T.MaxLen_ u) ∧
      (T.TraceField ui u).1.y_ = newArray T.n_ (newArray T.MaxLen_ u) ∧
      (T.TraceField ui u).1.z_ = newArray T.n_ (newArray T.MaxLen_ u) ∧
      (T.TraceField ui u).1.bx_ = newArray T.n_ (newArray T.MaxLen_ u) ∧
      (T.TraceField ui u).1.by_ = newArray T.n_ (newArray T.MaxLen_ u) ∧
      (T.TraceField ui u).1.bz_ = newArray T.n_ (newArray T.MaxLen_ u) ∧
      (T.TraceField ui u).1.tracedField_ = T.tracedField_) := by
  unfold Trace.TraceField
  cases han : T.allocNstep_
  all_goals
    simp only [Bool.not_false, Bool.not_true, Bool.false_eq_true, if_true, if_false]
    refine ⟨⟨?_, ?_⟩, ⟨?_, ?_, ?_, ?_, ?_⟩, ⟨?_, ?_⟩, ?_, ⟨?_, ?_, ?_, ?_, ?_, ?_, ?_, ?_⟩⟩
  all_goals first
    | exact (_TraceField_frame u _).1
    | exact (_TraceField_frame u _).2.1
    | exact (_TraceField_frame u _).2.2.1
    | exact (_TraceField_frame u _).2.2.2.1
    | exact (_TraceField_frame u _).2.2.2.2.1
    | exact (_TraceField_frame u _).2.2.2.2.2.1
    | exact (_TraceField_frame u _).2.2.2.2.2.2.1
    | exact (_TraceField_frame u _).2.2.2.2.2.2.2.1
    | exact (_TraceField_frame u _).2.2.2.2.2.2.2.2.1
    | exact (_TraceField_frame u _).2.2.2.2.2.2.2.2.2
    | exact (_TraceField_keeps u _).1
    | exact (_TraceField_keeps u _).2.1
    | exact (_TraceField_keeps u _).2.2.1
    | exact (_TraceField_keeps u _).2.2.2.1
    | exact (_TraceField_keeps u _).2.2.2.2.1
    | exact (_TraceField_keeps u _).2.2.2.2.2.1
    | exact (_TraceField_keeps u _).2.2.2.2.2.2.1
    | exact (_TraceField_keeps u _).2.2.2.2.2.2.2

theorem forLoop_one {σ : Type} (n : Int) (h : n = 1) (body : Int → σ → Exec σ) (s : σ) :
    forLoop 0 n body s = body 0 s := by
  subst h
  have e : (1 : Int) = 0 + 1 := rfl
  rw [e, forLoop_succ _ _ _ _ le_rfl, forLoop_of_le _ _ _ _ le_rfl]
  rfl

/-- The call `TracePosition` returns when the object that `Trace T;` yields has
no input positions and no step counts allocated, the primary has `MaxLen_ ≥ 1`
and the content `ui` of the fresh step count is at most `MaxLen_`. -/
theorem TracePosition_returns (ui : Int) (u DSMax : ℝ) (T0 T : Trace ℝ) (i : Int)
    (x y z : ℝ) (hip : T0.inputPos_ = false) (han : T0.allocNstep_ = false)
    (hL : 1 ≤ T.MaxLen_) (hui : ui ≤ T.MaxLen_) :
    ∃ A, Trace.TracePosition realLibm ui u DSMax T0 T i x y z = Except.ok A := by
  obtain ⟨L, hLn⟩ : ∃ L : Nat, T.MaxLen_ = L := ⟨T.MaxLen_.toNat, by omega⟩
  have hL1 : 1 ≤ L := by omega
  have hrow : (newArray T.MaxLen_ u : Array ℝ).size = L := by
    unfold newArray
    rw [Array.size_mkArray, hLn]
    rfl
  have hsh : Shaped (newArray 1 (newArray T.MaxLen_ u) : Array (Array ℝ)) 1 L :=
    Shaped_single _ L hrow
  unfold Trace.TracePosition
  rw [InputPos_one]
  simp only [hip, Bool.false_eq_true, if_false, Exec.ok_bind]
  obtain ⟨-, -, F3, F4, F5, Fx, Fy, Fz, -⟩ := TraceField_frame ui u
    (Trace.SetTraceCFG
      { T0 with
        n_ := 1, x0_ := #[x], y0_ := #[y], z0_ := #[z]
        inputPos_ := true } DSMax T.MaxLen_ T.StepSize_ false 0)
  generalize (Trace.TraceField ui u
    (Trace.SetTraceCFG
      { T0 with
        n_ := 1, x0_ := #[x], y0_ := #[y], z0_ := #[z]
        inputPos_ := true } DSMax T.MaxLen_ T.StepSize_ false 0)).1 = A3 at F3 F4 F5 Fx Fy Fz ⊢
  have hn : A3.n_ = 1 := F4
  have hML : A3.MaxLen_ = T.MaxLen_ := F3.1
  have hx : Shaped A3.x_ 1 L := by rw [Fx]; exact hsh
  have hy : Shaped A3.y_ 1 L := by rw [Fy]; exact hsh
  have hz : Shaped A3.z_ 1 L := by rw [Fz]; exact hsh
  have hns : A3.nstep_ = #[ui] := by
    rw [F5]
    show (if T0.allocNstep_ = true then _ else _) = _
    rw [han]
    rfl
  unfold Trace.CalculateTraceDist Trace._CalculateTraceDist
  obtain ⟨S', hS', -⟩ := TraceDistRow_ok
    { A3 with S_ := newArray A3.n_ (newArray A3.MaxLen_ u), allocDist_ := true } 1 L hL1
    hx hy hz (by show A3.nstep_.size = 1; rw [hns]; rfl)
    (by
      intro k m hk
      have hk' : A3.nstep_[k]? = some m := hk
      rw [hns] at hk'
      cases k with
      | zero =>
        simp at hk'
        omega
      | succ k => simp at hk')
    (newArray A3.n_ (newArray A3.MaxLen_ u))
    (by rw [hn, hML]; exact hsh) 0 (by norm_num)
  rw [forLoop_one _ hn]
  have hS'' : Trace.TraceDistRow realLibm
      { A3 with
        S_ := newArray A3.n_ (newArray A3.MaxLen_ u)
        allocDist_ := true } 0
      (newArray A3.n_ (newArray A3.MaxLen_ u)) = Except.ok S' := hS'
  rw [hS'']
  exact ⟨_, rfl⟩

/-- C21: the object that `TracePosition` returns takes nothing from the primary
object but `MaxLen_`.  Its field-contributor list, `InitStep_`, `MinStep_`,
`MaxStep_`, `ErrMax_` and `MaxR_` are those of the object `T0` that the
declaration `Trace T;` yields, its direction flag is the constant `0`, and its
`TraceField()` has stored no trace: the six trace arrays are fresh storage, the
step counts are fresh storage (or those `T0` held) and `tracedField_` is as in
`T0`.  Any primary object with the same `MaxLen_` gives the same auxiliary
object. -/
theorem C21_TracePosition_ignores_primary {α : Type} [LinearOrderedField α] (M : Libm α)
    (ui : Int) (u DSMax : α) (T0 T : Trace α) (i : Int) (x y z : α) (A : Trace α)
    (h : Trace.TracePosition M ui u DSMax T0 T i x y z = Except.ok A) :
    (A.Funcs_ = T0.Funcs_ ∧ A.nf_ = T0.nf_) ∧
    (A.InitStep_ = T0.InitStep_ ∧ A.MinStep_ = T0.MinStep_ ∧ A.MaxStep_ = T0.MaxStep_ ∧
      A.ErrMax_ = T0.ErrMax_ ∧ A.MaxR_ = T0.MaxR_) ∧
    (A.MaxLen_ = T.MaxLen_ ∧ A.TraceDir_ = 0) ∧
    (A.nstep_ = (if T0.allocNstep_ then T0.nstep_ else newArray A.n_ ui) ∧
      A.x_ = newArray A.n_ (newArray T.MaxLen_ u) ∧
      A.y_ = newArray A.n_ (newArray T.MaxLen_ u) ∧
      A.z_ = newArray A.n_ (newArray T.MaxLen_ u) ∧
      A.bx_ = newArray A.n_ (newArray T.MaxLen_ u) ∧
      A.by_ = newArray A.n_ (newArray T.MaxLen_ u) ∧
      A.bz_ = newArray A.n_ (newArray T.MaxLen_ u) ∧
      A.tracedField_ = T0.tracedField_) ∧
    (∀ (T' : Trace α) (i' : Int), T'.MaxLen_ = T.MaxLen_ →
      Trace.TracePosition M ui u DSMax T0 T' i' x y z = Except.ok A) := by
  have hind : ∀ (T' : Trace α) (i' : Int), T'.MaxLen_ = T.MaxLen_ →
      Trace.TracePosition M ui u DSMax T0 T' i' x y z = Except.ok A := by
    intro T' i' hT'
    rw [← h]
    unfold Trace.TracePosition Trace.SetTraceCFG
    rw [hT']
  unfold Trace.TracePosition at h
  rw [InputPos_one] at h
  simp only [Exec.ok_bind] at h
  obtain ⟨S, hA⟩ := CalculateTraceDist_frame M u _ A h
  refine ⟨?_, ?_, ?_, ?_, hind⟩
  all_goals
    rw [hA]
    clear hA h hind
    cases hip : T0.inputPos_
  all_goals simp only [Bool.false_eq_true, if_false, if_true]
  all_goals first
    | exact (TraceField_frame ui u _).1
    | exact (TraceField_frame ui u _).2.1
    | exact (TraceField_frame ui u _).2.2.1
    | (rw [(TraceField_frame ui u _).2.2.2.1]
       exact (TraceField_frame ui u _).2.2.2.2)

/-- C21 with `Trace.blank` for the object that `Trace T;` yields and the primary
`forwardObj` (one contributor, `TraceDir_ = 1`, `InitStep_ = 0.5`, `MaxR_ = 10`,
`MaxLen_ = 1`), at the start point `(1, 2, 3)`: the auxiliary object has no
contributor, `TraceDir_ = 0`, `InitStep_ = 0`, `MaxR_ = 0`, and its step count is
the content `0` of the fresh storage. -/
theorem C21_TracePosition_ignores_primary_witness :
    ((forwardObj : Trace ℝ).Funcs_.size = 1 ∧ (forwardObj : Trace ℝ).TraceDir_ = 1 ∧
      (forwardObj : Trace ℝ).InitStep_ = 0.5 ∧ (forwardObj : Trace ℝ).MaxR_ = 10) ∧
    ∃ A, Trace.TracePosition realLibm 0 0 0 Trace.blank (forwardObj : Trace ℝ) 0 1 2 3
        = Except.ok A ∧
      A.Funcs_.size = 0 ∧ A.nstep_ = #[0] ∧ A.x_ = #[#[0]] ∧
      (A.Funcs_ = (Trace.blank : Trace ℝ).Funcs_ ∧ A.nf_ = (Trace.blank : Trace ℝ).nf_) ∧
      (A.InitStep_ = (Trace.blank : Trace ℝ).InitStep_ ∧
        A.MinStep_ = (Trace.blank : Trace ℝ).MinStep_ ∧
        A.MaxStep_ = (Trace.blank : Trace ℝ).MaxStep_ ∧
        A.ErrMax_ = (Trace.blank : Trace ℝ).ErrMax_ ∧
        A.MaxR_ = (Trace.blank : Trace ℝ).MaxR_) ∧
      (A.MaxLen_ = (forwardObj : Trace ℝ).MaxLen_ ∧ A.TraceDir_ = 0) ∧
      (A.nstep_ = (if (Trace.blank : Trace ℝ).allocNstep_ then (Trace.blank : Trace ℝ).nstep_
          else newArray A.n_ 0) ∧
        A.x_ = newArray A.n_ (newArray (forwardObj : Trace ℝ).MaxLen_ 0) ∧
        A.y_ = newArray A.n_ (newArray (forwardObj : Trace ℝ).MaxLen_ 0) ∧
        A.z_ = newArray A.n_ (newArray (forwardObj : Trace ℝ).MaxLen_ 0) ∧
        A.bx_ = newArray A.n_ (newArray (forwardObj : Trace ℝ).MaxLen_ 0) ∧
        A.by_ = newArray A.n_ (newArray (forwardObj : Trace ℝ).MaxLen_ 0) ∧
        A.bz_ = newArray A.n_ (newArray (forwardObj : Trace ℝ).MaxLen_ 0) ∧
        A.tracedField_ = (Trace.blank : Trace ℝ).tracedField_) ∧
      (∀ (T' : Trace ℝ) (i' : Int), T'.MaxLen_ = (forwardObj : Trace ℝ).MaxLen_ →
        Trace.TracePosition realLibm 0 0 0 Trace.blank T' i' 1 2 3 = Except.ok A) := by
  obtain ⟨A, hA, h1, h2, h3⟩ : ∃ A,
      Trace.TracePosition realLibm 0 0 0 Trace.blank (forwardObj : Trace ℝ) 0 1 2 3
        = Except.ok A ∧ A.Funcs_.size = 0 ∧ A.nstep_ = #[0] ∧ A.x_ = #[#[0]] :=
    ⟨_, rfl, rfl, rfl, rfl⟩
  exact ⟨⟨rfl, rfl, rfl, rfl⟩, A, hA, h1, h2, h3,
    C21_TracePosition_ignores_primary realLibm 0 0 0 Trace.blank forwardObj 0 1 2 3 A hA⟩

/-! ## Reversal in place -/

/-- C22: for every array `x` and every `n` with `0 ≤ n ≤ size`, `ReverseElements`
returns, the result `x'` has the same length, `x'[i] = x[n-1-i]` for every
`i < n`, every element at an index `≥ n` is unchanged, and `ReverseElements`
with the same `n` on `x'` returns `x`. -/
theorem C22_ReverseElements_involution {α : Type} [LinearOrderedField α] (n : Int)
    (x : Array α) (h0 : 0 ≤ n) (hn : n ≤ x.size) :
    ∃ x', Trace.ReverseElements n x = Except.ok x' ∧ x'.size = x.size ∧
      (∀ i : Nat, (i : Int) < n → x'[i]? = x[(n - 1 - i).toNat]?) ∧
      (∀ i : Nat, n ≤ i → x'[i]? = x[i]?) ∧
      Trace.ReverseElements n x' = Except.ok x := by
  obtain ⟨x', h1, hs1, ha1, hb1⟩ := ReverseElements_spec n x h0 hn
  obtain ⟨x'', h2, hs2, ha2, hb2⟩ := ReverseElements_spec n x' h0 (by rw [hs1]; exact hn)
  refine ⟨x', h1, hs1, ha1, hb1, ?_⟩
  rw [h2]
  congr 1
  apply Array.ext
  · rw [hs2, hs1]
  · intro i hi1 hi2
    have e : x''[i]? = x[i]? := by
      by_cases hi : (i : Int) < n
      · have hk : (((n - 1 - i).toNat : Nat) : Int) < n := by omega
        have hidx : (n - 1 - ((n - 1 - i).toNat : Nat)).toNat = i := by omega
        rw [ha2 i hi, ha1 _ hk, hidx]
      · rw [hb2 i (by omega), hb1 i (by omega)]
    rw [Array.getElem?_eq_getElem hi1, Array.getElem?_eq_getElem hi2] at e
    exact Option.some.inj e

/-- C22 on the array `(1, 2, 3, 4)` with `n = 3`: the result is `(3, 2, 1, 4)`. -/
theorem C22_ReverseElements_involution_witness :
    Trace.ReverseElements 3 (#[1, 2, 3, 4] : Array ℝ) = Except.ok #[3, 2, 1, 4] ∧
    ∃ x', Trace.ReverseElements 3 (#[1, 2, 3, 4] : Array ℝ) = Except.ok x' ∧
      x'.size = (#[1, 2, 3, 4] : Array ℝ).size ∧
      (∀ i : Nat, (i : Int) < 3 → x'[i]? = (#[1, 2, 3, 4] : Array ℝ)[((3 : Int) - 1 - i).toNat]?) ∧
      (∀ i : Nat, (3 : Int) ≤ i → x'[i]? = (#[1, 2, 3, 4] : Array ℝ)[i]?) ∧
      Trace.ReverseElements 3 x' = Except.ok #[1, 2, 3, 4] :=
  ⟨rfl, C22_ReverseElements_involution 3 #[1, 2, 3, 4] (by decide) (by decide)⟩

/-! ## The sign and the size of the step hint that `Step` hands back -/

theorem grow_bound (a m : ℝ) (h : |a| < m / 1.5) : |1.5 * a| ≤ m := by
  have e : m / 1.5 = m * (2 / 3) := by norm_num [div_eq_mul_inv]
  rw [e] at h
  rw [abs_mul, abs_of_pos (by norm_num : (0 : ℝ) < 1.5)]
  have : (1.5 : ℝ) * |a| = 3 / 2 * |a| := by norm_num
  rw [this]
  linarith

/-- The hint of a pass that ends the loop is at most `MaxStep_` in magnitude. -/
theorem StepControl_exit_bound (T : Trace ℝ) (Err s : ℝ) (hM : 0 ≤ T.MaxStep_)
    (h : (T.StepControl Err s).2 = false) : |(T.StepControl Err s).1| ≤ T.MaxStep_ := by
  have hMM : |T.MaxStep_| ≤ T.MaxStep_ := by rw [abs_of_nonneg hM]
  unfold Trace.StepControl at h ⊢
  dsimp only at h ⊢
  split_ifs at h ⊢ with h1 h2 h3 h4 h5 h6 h7 h8 h9
  all_goals try dsimp only at *
  all_goals first
    | exact grow_bound _ _ (by assumption)
    | exact grow_bound _ _ (And.right (by assumption))
    | (exfalso; simp at h; done)
    | exact hMM
    | exact h1.2
    | exact le_of_not_lt (by assumption)

/-- A positive hint stays positive in every pass. -/
theorem StepControl_pos (T : Trace ℝ) (Err s : ℝ) (hM : 0 < T.MaxStep_) (hs : 0 < s) :
    0 < (T.StepControl Err s).1 := by
  have h5 : 0 < s * 0.5 := by positivity
  unfold Trace.StepControl
  dsimp only
  split_ifs
  all_goals try dsimp only at *
  all_goals first
    | assumption
    | positivity

/-- A negative hint of magnitude at most `MaxStep_` stays negative and of
magnitude at most `MaxStep_` in every pass. -/
theorem StepControl_neg (T : Trace ℝ) (Err s : ℝ) (hs : s < 0) (hb : |s| ≤ T.MaxStep_) :
    (T.StepControl Err s).1 < 0 ∧ |(T.StepControl Err s).1| ≤ T.MaxStep_ := by
  have h5 : s * 0.5 < 0 := by
    have : s * 0.5 = s / 2 := by norm_num [div_eq_mul_inv]
    rw [this]
    linarith
  have h6 : |s * 0.5| ≤ T.MaxStep_ := by
    rw [abs_of_neg h5]
    rw [abs_of_neg hs] at hb
    have : s * 0.5 = s / 2 := by norm_num [div_eq_mul_inv]
    rw [this]
    linarith
  have g1 : (1.5 : ℝ) * s < 0 := by
    have : (1.5 : ℝ) * s = 3 / 2 * s := by norm_num
    rw [this]
    linarith
  have g2 : (1.5 : ℝ) * (s * 0.5) < 0 := by
    have : (1.5 : ℝ) * (s * 0.5) = 3 / 2 * (s * 0.5) := by norm_num
    rw [this]
    linarith
  unfold Trace.StepControl
  dsimp only
  split_ifs
  all_goals try dsimp only at *
  all_goals first
    | exact ⟨g1, grow_bound _ _ (And.right (by assumption))⟩
    | exact ⟨g2, grow_bound _ _ (And.right (by assumption))⟩
    | exact ⟨hs, hb⟩
    | exact ⟨h5, h6⟩
    | (exfalso; linarith)

/-- What the loop of `Step` hands back is the hint of the pass that ended it,
and a property of the hint that every pass preserves holds for the hint that
pass started from. -/
theorem StepLoop_hint (M : Libm ℝ) (T : Trace ℝ) (x0 y0 z0 step3 : ℝ) (P : ℝ → Prop)
    (hP : ∀ Err s, P s → P (T.StepControl Err s).1) :
    ∀ (fuel : Nat) (s : ℝ) (out : ℝ × SubSteps ℝ),
      T.StepLoop M x0 y0 z0 step3 fuel s = Except.ok out → P s →
      ∃ s', P s' ∧ (T.StepControl out.2.Err s').2 = false ∧
        out.1 = (T.StepControl out.2.Err s').1 := by
  intro fuel
  induction fuel with
  | zero =>
    intro s out h
    simp [Trace.StepLoop] at h
  | succ f ih =>
    intro s out h hs
    unfold Trace.StepLoop at h
    cases htr : T.StepTrial M x0 y0 z0 step3 with
    | error e => simp [htr] at h
    | ok tr =>
      simp only [htr, Exec.ok_bind] at h
      by_cases hc : (T.StepControl tr.Err s).2 = true
      · rw [if_pos hc] at h
        exact ih _ out h (hP _ _ hs)
      · rw [if_neg hc] at h
        simp only [Exec.pure_eq, Except.ok.injEq] at h
        rw [← h]
        exact ⟨s, hs, by simpa using hc, rfl⟩

theorem Step_hint (M : Libm ℝ) (T : Trace ℝ) (fuel : Nat) (x0 y0 z0 s : ℝ)
    (r : StepResult ℝ) (h : T.Step M fuel x0 y0 z0 s = Except.ok r) :
    ∃ out, T.StepLoop M x0 y0 z0 (s / 3.0) fuel s = Except.ok out ∧ r.step = out.1 := by
  unfold Trace.Step at h
  cases hl : T.StepLoop M x0 y0 z0 (s / 3.0) fuel s with
  | error e => simp [hl] at h
  | ok out =>
    simp only [hl, Exec.ok_bind] at h
    cases hB : T.Field (x0 + 0.5 * (out.2.rx1 + 4 * out.2.rx4 + out.2.rx5))
        (y0 + 0.5 * (out.2.ry1 + 4 * out.2.ry4 + out.2.ry5))
        (z0 + 0.5 * (out.2.rz1 + 4 * out.2.rz4 + out.2.rz5)) with
    | error e => simp [hB] at h
    | ok B =>
      simp only [hB, Exec.ok_bind, Exec.pure_eq, Except.ok.injEq] at h
      exact ⟨out, rfl, by rw [← h]⟩

/-- A negative hint larger than `MaxStep_` in magnitude comes back as `+MaxStep_`. -/
theorem StepLoop_flip (M : Libm ℝ) (T : Trace ℝ) (x0 y0 z0 step3 s : ℝ) (tr : SubSteps ℝ)
    (htr : T.StepTrial M x0 y0 z0 step3 = Except.ok tr)
    (hMax : 0 < T.MaxStep_) (hMin : 0 ≤ T.MinStep_) (hE : 0 ≤ T.ErrMax_)
    (hneg : s < 0) (hbig : T.MaxStep_ < |s|) :
    T.StepLoop M x0 y0 z0 step3 2 s = Except.ok (T.MaxStep_, tr) := by
  have hnb : ¬ |s| ≤ T.MaxStep_ := not_le.mpr hbig
  have hkeep : T.StepControl tr.Err T.MaxStep_ = (T.MaxStep_, false) →
      T.StepLoop M x0 y0 z0 step3 1 T.MaxStep_ = Except.ok (T.MaxStep_, tr) := by
    intro hk
    have := StepLoop_one M T x0 y0 z0 step3 T.MaxStep_ tr htr (by rw [hk]) 0
    rw [hk] at this
    exact this
  by_cases hErr : tr.Err ≤ T.ErrMax_
  · have h1 := StepControl_clamp T tr.Err s hErr hnb hMax.le
    have h3 : ¬ |T.MaxStep_| < T.MaxStep_ / 1.5 := by
      rw [abs_of_pos hMax, not_lt]
      have : T.MaxStep_ / 1.5 = T.MaxStep_ * (2 / 3) := by norm_num [div_eq_mul_inv]
      rw [this]
      nlinarith
    have hk := StepControl_keep T tr.Err T.MaxStep_ hErr (by rw [abs_of_pos hMax]) h3
    by_cases hc : (T.StepControl tr.Err s).2 = true
    · rw [StepLoop_again M T x0 y0 z0 step3 s tr htr hc 1, h1]
      exact hkeep hk
    · have := StepLoop_one M T x0 y0 z0 step3 s tr htr (by simpa using hc) 1
      rw [h1] at this
      exact this
  · have hc := StepControl_floor T tr.Err s (not_le.mp hErr) hE (by linarith)
    rw [if_pos hbig] at hc
    have := StepLoop_one M T x0 y0 z0 step3 s tr htr (by rw [hc]) 1
    rw [hc] at this
    exact this

/-- C23: for `MaxStep_ > 0`, the hint `s'` that `Step` hands back satisfies
`|s'| ≤ MaxStep_`; it is positive for a positive hint `s`, and negative for a
negative hint with `|s| ≤ MaxStep_`.  But the clamp is `step[0] = MaxStep_`:
for a negative hint with `|s| > MaxStep_` (total field evaluator,
`MinStep_ ≥ 0`, `ErrMax_ ≥ 0`) `Step` returns within two passes and hands
back `s' = +MaxStep_`, a positive hint. -/
theorem C23_Step_hint_sign (M : Libm ℝ) (T : Trace ℝ) (hMax : 0 < T.MaxStep_)
    (x0 y0 z0 s : ℝ) :
    (∀ (fuel : Nat) (r : StepResult ℝ), T.Step M fuel x0 y0 z0 s = Except.ok r →
      |r.step| ≤ T.MaxStep_ ∧ (0 < s → 0 < r.step) ∧
      (s < 0 → |s| ≤ T.MaxStep_ → r.step < 0)) ∧
    ((∀ x y z : ℝ, ∃ B, T.Field x y z = Except.ok B) → 0 ≤ T.MinStep_ → 0 ≤ T.ErrMax_ →
      s < 0 → T.MaxStep_ < |s| →
      ∃ r, T.Step M 2 x0 y0 z0 s = Except.ok r ∧ r.step = T.MaxStep_ ∧ 0 < r.step) := by
  constructor
  · intro fuel r h
    obtain ⟨out, hl, hr⟩ := Step_hint M T fuel x0 y0 z0 s r h
    rw [hr]
    refine ⟨?_, ?_, ?_⟩
    · obtain ⟨s', -, hc, he⟩ := StepLoop_hint M T x0 y0 z0 _ (fun _ => True)
        (fun _ _ _ => trivial) fuel s out hl trivial
      rw [he]
      exact StepControl_exit_bound T _ s' hMax.le hc
    · intro hs
      obtain ⟨s', hs', -, he⟩ := StepLoop_hint M T x0 y0 z0 _ (fun a => 0 < a)
        (fun Err a ha => StepControl_pos T Err a hMax ha) fuel s out hl hs
      rw [he]
      exact StepControl_pos T _ s' hMax hs'
    · intro hs hb
      obtain ⟨s', hs', -, he⟩ := StepLoop_hint M T x0 y0 z0 _
        (fun a => a < 0 ∧ |a| ≤ T.MaxStep_)
        (fun Err a ha => StepControl_neg T Err a ha.1 ha.2) fuel s out hl ⟨hs, hb⟩
      rw [he]
      exact (StepControl_neg T _ s' hs'.1 hs'.2).1
  · intro hF hMin hE hneg hbig
    obtain ⟨tr, htr⟩ := StepTrial_total M T hF x0 y0 z0 (s / 3.0)
    have hl := StepLoop_flip M T x0 y0 z0 (s / 3.0) s tr htr hMax hMin hE hneg hbig
    obtain ⟨B, hB⟩ := hF (x0 + 0.5 * (tr.rx1 + 4 * tr.rx4 + tr.rx5))
      (y0 + 0.5 * (tr.ry1 + 4 * tr.ry4 + tr.ry5))
      (z0 + 0.5 * (tr.rz1 + 4 * tr.rz4 + tr.rz5))
    exact ⟨_, Step_of_StepLoop M T 2 x0 y0 z0 s _ B hl hB, rfl, hMax⟩

/-- C23 on the scenario object (uniform axial field, `MaxStep_ = 0.5`,
`MinStep_ = 0.5`, `ErrMax_ = 0`) from `(6, 0, 0)` with the backward hint `-3`:
`Step` returns with the hint `+0.5`. -/
theorem C23_Step_hint_sign_witness :
    ((0 : ℝ) < (scenarioObj (0 : ℝ)).MaxStep_ ∧ (-3 : ℝ) < 0 ∧
      (scenarioObj (0 : ℝ)).MaxStep_ < |(-3 : ℝ)|) ∧
    ∃ r, (scenarioObj (0 : ℝ)).Step realLibm 2 6 0 0 (-3) = Except.ok r ∧
      r.step = (scenarioObj (0 : ℝ)).MaxStep_ ∧ 0 < r.step :=
  have hMax : (0 : ℝ) < (scenarioObj (0 : ℝ)).MaxStep_ := show (0 : ℝ) < 0.5 by norm_num
  have hMin : (0 : ℝ) ≤ (scenarioObj (0 : ℝ)).MinStep_ := show (0 : ℝ) ≤ 0.5 by norm_num
  have hE : (0 : ℝ) ≤ (scenarioObj (0 : ℝ)).ErrMax_ := le_refl (0 : ℝ)
  have hneg : (-3 : ℝ) < 0 := by norm_num
  have hbig : (scenarioObj (0 : ℝ)).MaxStep_ < |(-3 : ℝ)| := by
    show (0.5 : ℝ) < |(-3 : ℝ)|
    rw [abs_neg, abs_of_pos (by norm_num)]
    norm_num
  ⟨⟨hMax, hneg, hbig⟩,
    (C23_Step_hint_sign realLibm (scenarioObj (0 : ℝ)) hMax 6 0 0 (-3)).2
      (fun x y z => ⟨_, scenarioObj_Field 0 x y z⟩) hMin hE hneg hbig⟩

/-! ## The tracer in `double` arithmetic

The statements below are about the binary64 model `F64`: closed computations
are evaluated by the kernel. -/

set_option exponentiation.threshold 5000

/-! ## Rounding in `double` arithmetic -/

namespace F64

theorem roundEven_bound (q d : Nat) (hd : 0 < d) : 2 * (roundEven q d * d) ≤ 2 * q + d := by
  have h := Nat.div_add_mod q d
  have hm := Nat.mod_lt q hd
  have e1 : (q / d + 1) * d = d * (q / d) + d := by ring
  have e2 : q / d * d = d * (q / d) := by ring
  unfold roundEven
  split_ifs <;> simp only [e1, e2] <;> omega

theorem topStep_le (f b e : Nat) (h : 2 ^ e ≤ f) : 2 ^ topStep f b e ≤ f := by
  unfold topStep
  split_ifs with hb
  · exact hb
  · exact h

theorem topBit_le (f : Nat) (hf : 1 ≤ f) : 2 ^ topBit f ≤ f := by
  unfold topBit
  repeat apply topStep_le
  simpa using hf

/-- The rounded magnitude is at most one and a half times the exact quotient
plus a half: a crude bound, enough for the three products and quotients of the
step control. -/
theorem roundMag_bound (q d : Nat) (hd : 0 < d) : 2 * (roundMag q d * d) ≤ 3 * q + d := by
  unfold roundMag
  generalize hk : topBit (q / d) + 1 - 53 = k
  have hb := roundEven_bound q (d * 2 ^ k) (Nat.mul_pos hd (Nat.pow_pos (by norm_num)))
  have e : roundEven q (d * 2 ^ k) * 2 ^ k * d = roundEven q (d * 2 ^ k) * (d * 2 ^ k) := by ring
  rw [e]
  have hdk : d * 2 ^ k ≤ q + d := by
    rcases Nat.eq_zero_or_pos (q / d) with h0 | hpos
    · have : k = 0 := by
        rw [← hk, h0]
        decide
      rw [this]
      omega
    · have h1 : 2 ^ topBit (q / d) ≤ q / d := topBit_le _ hpos
      have h2 : 2 ^ k ≤ 2 ^ topBit (q / d) := Nat.pow_le_pow_right (by norm_num) (by omega)
      have h3 : d * (q / d) ≤ q := Nat.mul_div_le q d
      have h4 : d * 2 ^ k ≤ d * (q / d) := Nat.mul_le_mul_left d (le_trans h2 h1)
      omega
  omega

end F64

namespace F64

theorem round_nonneg (q d : Nat) (h : roundMag q d < 2 ^ 2098) :
    round (q : Int) d = fin (roundMag q d : Int) := by
  unfold round
  rw [Int.natAbs_cast, if_neg (not_le.2 h), if_neg (by omega)]

/-- Halving a positive finite `double` gives a smaller one. -/
theorem mul_half (m : Nat) (h1 : 1 ≤ m) (h2 : m < 2 ^ 2098) :
    ∃ r : Nat, fin (m : Int) * (0.5 : F64) = fin (r : Int) ∧ r < m := by
  have h05 : (0.5 : F64) = fin ((2 ^ 1073 : Nat) : Int) := by decide
  have e : fin (m : Int) * (0.5 : F64) = round ((m * 2 ^ 1073 : Nat) : Int) (2 ^ 1074) := by
    rw [h05]
    show mul (fin (m : Int)) (fin ((2 ^ 1073 : Nat) : Int)) = _
    unfold mul
    simp only
    rw [← Nat.cast_mul]
  have hb := roundMag_bound (m * 2 ^ 1073) (2 ^ 1074) (by norm_num)
  rcases Nat.lt_or_ge m 3 with h3 | h3
  · interval_cases m
    · exact ⟨0, by decide, by decide⟩
    · exact ⟨1, by decide, by decide⟩
  · have hR : roundMag (m * 2 ^ 1073) (2 ^ 1074) < m := by omega
    exact ⟨_, by rw [e, round_nonneg _ _ (by omega)], hR⟩

/-- The quotient of a positive finite `double` by `1.5` is not above it. -/
theorem div_growth (k : Nat) (h2 : k < 2 ^ 2098) :
    ∃ r : Nat, fin (k : Int) / (1.5 : F64) = fin (r : Int) ∧ r ≤ k := by
  have h15 : (1.5 : F64) = fin ((3 * 2 ^ 1073 : Nat) : Int) := by decide
  have e : fin (k : Int) / (1.5 : F64) = round ((k * 2 ^ 1074 : Nat) : Int) (3 * 2 ^ 1073) := by
    rw [h15]
    show div (fin (k : Int)) (fin ((3 * 2 ^ 1073 : Nat) : Int)) = _
    unfold div
    simp only
    rw [if_neg (by norm_num), if_neg (by norm_num), ← Nat.cast_mul, Int.natAbs_cast]
  have hb := roundMag_bound (k * 2 ^ 1074) (3 * 2 ^ 1073) (by norm_num)
  have hR : roundMag (k * 2 ^ 1074) (3 * 2 ^ 1073) ≤ k := by omega
  exact ⟨_, by rw [e, round_nonneg _ _ (by omega)], hR⟩

/-- The product of `0.04` and a finite `double` that is not negative is not above it. -/
theorem mul_small (e : Nat) (h2 : e < 2 ^ 2098) :
    ∃ r : Nat, (0.04 : F64) * fin (e : Int) = fin (r : Int) ∧ r ≤ e := by
  have h04 : (0.04 : F64) = fin ((roundMag (4 * 2 ^ 1074) 100 : Nat) : Int) := by decide
  have hc : 20 * roundMag (4 * 2 ^ 1074) 100 ≤ 2 ^ 1074 := by decide
  generalize roundMag (4 * 2 ^ 1074) 100 = c at h04 hc
  have e' : (0.04 : F64) * fin (e : Int) = round ((c * e : Nat) : Int) (2 ^ 1074) := by
    rw [h04]
    show mul (fin (c : Int)) (fin (e : Int)) = _
    unfold mul
    simp only
    rw [← Nat.cast_mul]
  have hb := roundMag_bound (c * e) (2 ^ 1074) (by norm_num)
  have hce : 20 * (c * e) ≤ 2 ^ 1074 * e := by
    calc 20 * (c * e) = 20 * c * e := by ring
      _ ≤ 2 ^ 1074 * e := Nat.mul_le_mul_right e hc
  have hR : roundMag (c * e) (2 ^ 1074) ≤ e := by
    have h3 : 40 * (roundMag (c * e) (2 ^ 1074) * 2 ^ 1074) ≤ 3 * (2 ^ 1074 * e) + 20 * 2 ^ 1074 := by
      omega
    have h4 : roundMag (c * e) (2 ^ 1074) * 2 ^ 1074 = 2 ^ 1074 * roundMag (c * e) (2 ^ 1074) := by
      ring
    rw [h4] at h3
    have h5 : 2 ^ 1074 * (40 * roundMag (c * e) (2 ^ 1074)) ≤ 2 ^ 1074 * (3 * e + 20) := by
      calc 2 ^ 1074 * (40 * roundMag (c * e) (2 ^ 1074))
          = 40 * (2 ^ 1074 * roundMag (c * e) (2 ^ 1074)) := by ring
        _ ≤ 3 * (2 ^ 1074 * e) + 20 * 2 ^ 1074 := h3
        _ = 2 ^ 1074 * (3 * e + 20) := by ring
    have h6 := Nat.le_of_mul_le_mul_left h5 (by norm_num)
    rcases Nat.eq_zero_or_pos e with h0 | hpos
    · subst h0
      simp only [Nat.mul_zero] at hb ⊢
      omega
    · omega
  exact ⟨_, by rw [e', round_nonneg _ _ (by omega)], hR⟩

end F64

namespace F64

/-! ## Comparisons of `double` -/

theorem zero_eq : (0 : F64) = fin 0 := by decide

theorem le_def (a b : F64) : a ≤ b ↔ le a b = true := Iff.rfl

theorem lt_def (a b : F64) : a < b ↔ lt a b = true := Iff.rfl

theorem not_nan_le (x : F64) : ¬ (nan ≤ x) := by
  cases x <;> simp [le_def, le]

theorem not_nan_lt (x : F64) : ¬ (nan < x) := by
  cases x <;> simp [lt_def, lt]

theorem not_lt_nan (x : F64) : ¬ (x < nan) := by
  cases x <;> simp [lt_def, lt]

theorem le_or_gt (a b : F64) (ha : a ≠ nan) (hb : b ≠ nan) : a ≤ b ∨ b < a := by
  cases a with
  | fin m =>
    cases b with
    | fin n =>
      simp only [le_def, lt_def, le, lt, decide_eq_true_eq]
      omega
    | inf t => cases t <;> simp [le_def, lt_def, le, lt]
    | nan => exact absurd rfl hb
  | inf s =>
    cases b with
    | fin n => cases s <;> simp [le_def, lt_def, le, lt]
    | inf t => cases s <;> cases t <;> simp [le_def, lt_def, le, lt]
    | nan => exact absurd rfl hb
  | nan => exact absurd rfl ha

theorem not_lt_of_le (a b : F64) (h : a ≤ b) : ¬ (b < a) := by
  cases a with
  | fin m =>
    cases b with
    | fin n =>
      simp only [le_def, lt_def, le, lt, decide_eq_true_eq] at h ⊢
      omega
    | inf t => cases t <;> simp_all [le_def, lt_def, le, lt]
    | nan => simp_all [le_def, lt_def, le, lt]
  | inf s =>
    cases b with
    | fin n => cases s <;> simp_all [le_def, lt_def, le, lt]
    | inf t => cases s <;> cases t <;> simp_all [le_def, lt_def, le, lt]
    | nan => simp_all [le_def, lt_def, le, lt]
  | nan => simp_all [le_def, lt_def, le, lt]

/-- A positive `double` is a positive finite value or plus infinity. -/
theorem pos_cases (x : F64) (h : 0 < x) : (∃ k : Nat, 1 ≤ k ∧ x = fin (k : Int)) ∨ x = inf false := by
  rw [zero_eq] at h
  cases x with
  | fin n =>
    left
    simp only [lt_def, lt, decide_eq_true_eq] at h
    exact ⟨n.toNat, by omega, by rw [Int.toNat_of_nonneg (by omega)]⟩
  | inf t =>
    right
    cases t
    · rfl
    · simp [lt_def, lt] at h
  | nan => simp [lt_def, lt] at h

/-- A `double` that is not negative is a finite value that is not negative, or
plus infinity. -/
theorem nonneg_cases (x : F64) (h : 0 ≤ x) : (∃ k : Nat, x = fin (k : Int)) ∨ x = inf false := by
  rw [zero_eq] at h
  cases x with
  | fin n =>
    left
    simp only [le_def, le, decide_eq_true_eq] at h
    exact ⟨n.toNat, by rw [Int.toNat_of_nonneg (by omega)]⟩
  | inf t =>
    right
    cases t
    · rfl
    · simp [le_def, le] at h
  | nan => simp [le_def, le] at h

theorem fin_lt_fin (a b : Int) : (fin a < fin b) ↔ a < b := by
  simp [lt_def, lt]

theorem fin_le_fin (a b : Int) : (fin a ≤ fin b) ↔ a ≤ b := by
  simp [le_def, le]

theorem not_inf_lt_fin (a : Int) : ¬ (inf false < fin a) := by
  simp [lt_def, lt]

theorem fabs_fin (a : Int) : fabs (fin a) = fin |a| := rfl

end F64

/-! ## The integration step in `double` arithmetic -/

theorem StepVector64_uniform (M : Libm F64) (T : Trace F64) (ux uy uz : F64)
    (hF : ∀ x y z : F64, T.Field x y z = Except.ok (ux, uy, uz)) (x y z s3 : F64) :
    T.StepVector64 M x y z s3 = Except.ok (uniformStepVector64 M ux uy uz s3) := by
  unfold Trace.StepVector64
  rw [hF]
  rfl

/-- In a field that is the same everywhere the five sub-step vectors of a pass
are one vector, and the error estimate is its rounding residue. -/
theorem StepTrial64_uniform (M : Libm F64) (T : Trace F64) (ux uy uz : F64)
    (hF : ∀ x y z : F64, T.Field x y z = Except.ok (ux, uy, uz)) (x0 y0 z0 s3 : F64) :
    T.StepTrial64 M x0 y0 z0 s3 = Except.ok
      { rx1 := (uniformStepVector64 M ux uy uz s3).1
        ry1 := (uniformStepVector64 M ux uy uz s3).2.1
        rz1 := (uniformStepVector64 M ux uy uz s3).2.2
        rx2 := (uniformStepVector64 M ux uy uz s3).1
        ry2 := (uniformStepVector64 M ux uy uz s3).2.1
        rz2 := (uniformStepVector64 M ux uy uz s3).2.2
        rx3 := (uniformStepVector64 M ux uy uz s3).1
        ry3 := (uniformStepVector64 M ux uy uz s3).2.1
        rz3 := (uniformStepVector64 M ux uy uz s3).2.2
        rx4 := (uniformStepVector64 M ux uy uz s3).1
        ry4 := (uniformStepVector64 M ux uy uz s3).2.1
        rz4 := (uniformStepVector64 M ux uy uz s3).2.2
        rx5 := (uniformStepVector64 M ux uy uz s3).1
        ry5 := (uniformStepVector64 M ux uy uz s3).2.1
        rz5 := (uniformStepVector64 M ux uy uz s3).2.2
        Err := uniformErr64 (uniformStepVector64 M ux uy uz s3) } := by
  unfold Trace.StepTrial64
  simp only [StepVector64_uniform M T ux uy uz hF, Exec.ok_bind]
  rfl

theorem StepVector64_total (M : Libm F64) (T : Trace F64)
    (hF : ∀ x y z : F64, ∃ b, T.Field x y z = Except.ok b) (x y z s3 : F64) :
    ∃ r, T.StepVector64 M x y z s3 = Except.ok r := by
  obtain ⟨b, hb⟩ := hF x y z
  unfold Trace.StepVector64
  rw [hb]
  exact ⟨_, rfl⟩

theorem StepTrial64_total (M : Libm F64) (T : Trace F64)
    (hF : ∀ x y z : F64, ∃ b, T.Field x y z = Except.ok b) (x0 y0 z0 s3 : F64) :
    ∃ tr, T.StepTrial64 M x0 y0 z0 s3 = Except.ok tr := by
  unfold Trace.StepTrial64
  obtain ⟨r1, h1⟩ := StepVector64_total M T hF x0 y0 z0 s3
  simp only [h1, Exec.ok_bind]
  obtain ⟨r2, h2⟩ := StepVector64_total M T hF (x0 + r1.1) (y0 + r1.2.1) (z0 + r1.2.2) s3
  simp only [h2, Exec.ok_bind]
  obtain ⟨r3, h3⟩ := StepVector64_total M T hF (x0 + 0.5 * (r1.1 + r2.1))
    (y0 + 0.5 * (r1.2.1 + r2.2.1)) (z0 + 0.5 * (r1.2.2 + r2.2.2)) s3
  simp only [h3, Exec.ok_bind]
  obtain ⟨r4, h4⟩ := StepVector64_total M T hF (x0 + 0.375 * (r1.1 + 3 * r3.1))
    (y0 + 0.375 * (r1.2.1 + 3 * r3.2.1)) (z0 + 0.375 * (r1.2.2 + 3 * r3.2.2)) s3
  simp only [h4, Exec.ok_bind]
  obtain ⟨r5, h5⟩ := StepVector64_total M T hF (x0 + 1.5 * (r1.1 - 3 * r3.1 + 4 * r4.1))
    (y0 + 1.5 * (r1.2.1 - 3 * r3.2.1 + 4 * r4.2.1))
    (z0 + 1.5 * (r1.2.2 - 3 * r3.2.2 + 4 * r4.2.2)) s3
  simp only [h5, Exec.ok_bind]
  exact ⟨_, rfl⟩

theorem StepLoop64_exit (M : Libm F64) (T : Trace F64) (x0 y0 z0 s3 step : F64)
    (tr : SubSteps F64) (fuel : Nat) (htr : T.StepTrial64 M x0 y0 z0 s3 = Except.ok tr)
    (h : (T.StepControl64 tr.Err step).2 = false) :
    T.StepLoop64 M x0 y0 z0 s3 (fuel + 1) step
      = Except.ok ((T.StepControl64 tr.Err step).1, tr) := by
  rw [Trace.StepLoop64, htr]
  simp only [Exec.ok_bind, h]
  rfl

theorem StepLoop64_again (M : Libm F64) (T : Trace F64) (x0 y0 z0 s3 step : F64)
    (tr : SubSteps F64) (fuel : Nat) (htr : T.StepTrial64 M x0 y0 z0 s3 = Except.ok tr)
    (h : (T.StepControl64 tr.Err step).2 = true) :
    T.StepLoop64 M x0 y0 z0 s3 (fuel + 1) step
      = T.StepLoop64 M x0 y0 z0 s3 fuel (T.StepControl64 tr.Err step).1 := by
  rw [Trace.StepLoop64, htr]
  simp only [Exec.ok_bind, h]
  rfl

theorem Step64_of_StepLoop64 (M : Libm F64) (T : Trace F64) (fuel : Nat)
    (x0 y0 z0 step : F64) (out : F64 × SubSteps F64) (B : F64 × F64 × F64)
    (hloop : T.StepLoop64 M x0 y0 z0 (step / 3.0) fuel step = Except.ok out)
    (hB : T.Field (x0 + 0.5 * (out.2.rx1 + 4 * out.2.rx4 + out.2.rx5))
      (y0 + 0.5 * (out.2.ry1 + 4 * out.2.ry4 + out.2.ry5))
      (z0 + 0.5 * (out.2.rz1 + 4 * out.2.rz4 + out.2.rz5)) = Except.ok B) :
    T.Step64 M fuel x0 y0 z0 step = Except.ok
      { step := out.1
        x := x0 + 0.5 * (out.2.rx1 + 4 * out.2.rx4 + out.2.rx5)
        y := y0 + 0.5 * (out.2.ry1 + 4 * out.2.ry4 + out.2.ry5)
        z := z0 + 0.5 * (out.2.rz1 + 4 * out.2.rz4 + out.2.rz5)
        Bx := B.1, By := B.2.1, Bz := B.2.2 } := by
  unfold Trace.Step64
  simp only [hloop, Exec.ok_bind, hB]
  rfl

/-- With an error estimate that is a NaN every comparison of the step control
is false, and `repeat` stays true. -/
theorem StepControl64_nan (T : Trace F64) (step : F64) :
    (T.StepControl64 F64.nan step).2 = true := by
  have h1 := F64.not_nan_le T.ErrMax_
  have h2 := F64.not_lt_nan T.ErrMax_
  have h3 := F64.not_nan_lt (0.04 * T.ErrMax_)
  unfold Trace.StepControl64
  dsimp only
  split_ifs <;> simp_all

theorem StepControl64_accept (T : Trace F64) (E step : F64) (hE : E ≤ T.ErrMax_)
    (hs : F64.fabs step ≤ T.MaxStep_) :
    T.StepControl64 E step
      = (if E < 0.04 * T.ErrMax_ ∧ F64.fabs step < T.MaxStep_ / 1.5 then 1.5 * step else step,
          false) := by
  unfold Trace.StepControl64
  dsimp only
  split_ifs <;> simp_all

theorem StepControl64_floor (T : Trace F64) (E step : F64) (hE : T.ErrMax_ < E)
    (hs : ¬ (T.MinStep_ < step)) : (T.StepControl64 E step).2 = false := by
  have h1 := F64.not_lt_of_le E T.ErrMax_
  unfold Trace.StepControl64
  dsimp only
  split_ifs <;> simp_all

theorem StepControl64_halve (T : Trace F64) (E step : F64) (hE : T.ErrMax_ < E)
    (hs : T.MinStep_ < step) (hg : ¬ (E < 0.04 * T.ErrMax_)) :
    T.StepControl64 E step
      = (if T.MaxStep_ < F64.fabs (step * 0.5) then T.MaxStep_ else step * 0.5, true) := by
  have h1 := F64.not_lt_of_le E T.ErrMax_
  unfold Trace.StepControl64
  dsimp only
  split_ifs <;> simp_all

theorem StepControl64_clamp (T : Trace F64) (E step : F64) (hE : E ≤ T.ErrMax_)
    (hc : T.MaxStep_ < F64.fabs step) (hg : ¬ (F64.fabs T.MaxStep_ < T.MaxStep_ / 1.5)) :
    T.StepControl64 E step = (T.MaxStep_, true) := by
  have h1 := F64.not_lt_of_le E T.ErrMax_ hE
  have h2 := F64.not_lt_of_le (F64.fabs step) T.MaxStep_
  unfold Trace.StepControl64
  dsimp only
  split_ifs <;> simp_all

theorem uniformObj64_Field (E x y z : F64) :
    (uniformObj64 E).Field x y z = Except.ok (0, 0, 1) := by
  rfl

theorem faintObj64_Field (x y z : F64) :
    faintObj64.Field x y z = Except.ok (1e-200, 0, 0) := by
  rfl

/-- The loop of `Step` depends on the math library through the sub-steps only. -/
theorem StepLoop64_congr (M N : Libm F64) (T : Trace F64) (x0 y0 z0 s3 : F64)
    (h : T.StepTrial64 M x0 y0 z0 s3 = T.StepTrial64 N x0 y0 z0 s3) (fuel : Nat) (step : F64) :
    T.StepLoop64 M x0 y0 z0 s3 fuel step = T.StepLoop64 N x0 y0 z0 s3 fuel step := by
  induction fuel generalizing step with
  | zero => rfl
  | succ k ih =>
    rw [Trace.StepLoop64, Trace.StepLoop64, h]
    cases T.StepTrial64 N x0 y0 z0 s3 with
    | error e => rfl
    | ok tr =>
      simp only [Exec.ok_bind]
      split_ifs
      · exact ih _
      · rfl

theorem Step64_congr (M N : Libm F64) (T : Trace F64) (x0 y0 z0 step : F64)
    (h : T.StepTrial64 M x0 y0 z0 (step / 3.0) = T.StepTrial64 N x0 y0 z0 (step / 3.0))
    (fuel : Nat) :
    T.Step64 M fuel x0 y0 z0 step = T.Step64 N fuel x0 y0 z0 step := by
  unfold Trace.Step64
  simp only [StepLoop64_congr M N T x0 y0 z0 _ h]

/-- Two math libraries whose `sqrt` agree at the squared norm of a uniform field
give the same sub-steps. -/
theorem StepTrial64_uniform_congr (M N : Libm F64) (T : Trace F64) (ux uy uz : F64)
    (hF : ∀ x y z : F64, T.Field x y z = Except.ok (ux, uy, uz))
    (h : M.sqrt (ux * ux + uy * uy + uz * uz) = N.sqrt (ux * ux + uy * uy + uz * uz))
    (x0 y0 z0 s3 : F64) :
    T.StepTrial64 M x0 y0 z0 s3 = T.StepTrial64 N x0 y0 z0 s3 := by
  rw [StepTrial64_uniform M T ux uy uz hF, StepTrial64_uniform N T ux uy uz hF]
  unfold uniformStepVector64
  rw [h]

theorem StepLoop64_nan (M : Libm F64) (T : Trace F64) (x0 y0 z0 s3 : F64) (tr : SubSteps F64)
    (htr : T.StepTrial64 M x0 y0 z0 s3 = Except.ok tr) (hE : tr.Err = F64.nan) (fuel : Nat)
    (step : F64) : T.StepLoop64 M x0 y0 z0 s3 fuel step = Except.error Fault.outOfFuel := by
  induction fuel generalizing step with
  | zero => rfl
  | succ k ih =>
    rw [StepLoop64_again M T x0 y0 z0 s3 step tr k htr (by rw [hE]; exact StepControl64_nan T step)]
    exact ih _

/-- With an error estimate that is a NaN, `Step` returns for no number of passes. -/
theorem Step64_never_returns_of_nan (M : Libm F64) (T : Trace F64) (x0 y0 z0 step : F64)
    (tr : SubSteps F64) (htr : T.StepTrial64 M x0 y0 z0 (step / 3.0) = Except.ok tr)
    (hE : tr.Err = F64.nan) (fuel : Nat) :
    T.Step64 M fuel x0 y0 z0 step = Except.error Fault.outOfFuel := by
  unfold Trace.Step64
  dsimp only
  rw [StepLoop64_nan M T x0 y0 z0 _ tr htr hE]
  rfl

theorem StepLoop64_pass (M : Libm F64) (T : Trace F64) (x0 y0 z0 s3 step next : F64)
    (tr : SubSteps F64) (fuel : Nat) (htr : T.StepTrial64 M x0 y0 z0 s3 = Except.ok tr)
    (h : T.StepControl64 tr.Err step = (next, true)) :
    T.StepLoop64 M x0 y0 z0 s3 (fuel + 1) step = T.StepLoop64 M x0 y0 z0 s3 fuel next := by
  rw [StepLoop64_again M T x0 y0 z0 s3 step tr fuel htr (by rw [h]), h]

/-- An error estimate above `ErrMax_` is not below `0.04 ErrMax_`: the step
does not grow in a pass that halves it. -/
theorem F64.growth_blocked (E A : F64) (hA : 0 ≤ A) (hR : A.InRange) (h : A < E) :
    ¬ (E < 0.04 * A) := by
  rcases F64.nonneg_cases A hA with ⟨e, rfl⟩ | rfl
  · have he : e < 2 ^ 2098 := by simpa [F64.InRange] using hR
    obtain ⟨r, hr, hre⟩ := F64.mul_small e he
    rw [hr]
    cases E with
    | fin x =>
      rw [F64.fin_lt_fin] at h ⊢
      omega
    | inf t =>
      cases t
      · exact F64.not_inf_lt_fin _
      · simp [F64.lt_def, F64.lt] at h
    | nan => exact absurd h (F64.not_lt_nan _)
  · cases E <;> simp [F64.lt_def, F64.lt] at h

theorem F64.not_min_lt_of_nonpos (A : F64) (hA : 0 < A) (m : Int) (hm : m ≤ 0) :
    ¬ (A < F64.fin m) := by
  rcases F64.pos_cases A hA with ⟨k, hk, rfl⟩ | rfl
  · rw [F64.fin_lt_fin]
    omega
  · exact F64.not_inf_lt_fin _

/-- When the error estimate exceeds `ErrMax_` the loop halves a finite hint
until it is at or below `MinStep_`: it exits within `N + 1` passes, where the
hint is at most `N` units of `2⁻¹⁰⁷⁴`. -/
theorem StepLoop64_halving (M : Libm F64) (T : Trace F64) (x0 y0 z0 s3 : F64)
    (tr : SubSteps F64) (htr : T.StepTrial64 M x0 y0 z0 s3 = Except.ok tr)
    (hMin : 0 < T.MinStep_) (hMax : 0 < T.MaxStep_) (hE : 0 ≤ T.ErrMax_)
    (hR : T.ErrMax_.InRange) (hErr : T.ErrMax_ < tr.Err) (N : Nat) :
    ∀ m : Int, m.toNat ≤ N → m.natAbs < 2 ^ 2098 →
      ∃ out, T.StepLoop64 M x0 y0 z0 s3 (N + 1) (F64.fin m) = Except.ok out := by
  have hg := F64.growth_blocked tr.Err T.ErrMax_ hE hR hErr
  induction N with
  | zero =>
    intro m hm _
    exact ⟨_, StepLoop64_exit M T x0 y0 z0 s3 _ tr 0 htr
      (StepControl64_floor T _ _ hErr (F64.not_min_lt_of_nonpos _ hMin m (by omega)))⟩
  | succ N ih =>
    intro m hm hn
    by_cases hs : T.MinStep_ < F64.fin m
    · have hpos : 1 ≤ m := by
        by_contra hc
        exact F64.not_min_lt_of_nonpos _ hMin m (by omega) hs
      obtain ⟨r, hr, hrm⟩ := F64.mul_half m.toNat (by omega) (by omega)
      rw [Int.toNat_of_nonneg (by omega)] at hr
      have hc := StepControl64_halve T tr.Err (F64.fin m) hErr hs hg
      rw [hr] at hc
      by_cases hcl : T.MaxStep_ < F64.fabs (F64.fin (r : Int))
      · rw [if_pos hcl] at hc
        rw [StepLoop64_pass M T x0 y0 z0 s3 _ _ tr (N + 1) htr hc]
        rcases F64.pos_cases _ hMax with ⟨k, hk, hkeq⟩ | hinf
        · rw [hkeq, F64.fabs_fin, F64.fin_lt_fin] at hcl
          rw [hkeq]
          have hkr : (k : Int) < (r : Int) := by
            rwa [abs_of_nonneg (by omega)] at hcl
          exact ih k (by omega) (by omega)
        · rw [hinf] at hcl
          exact absurd hcl (F64.not_inf_lt_fin _)
      · rw [if_neg hcl] at hc
        rw [StepLoop64_pass M T x0 y0 z0 s3 _ _ tr (N + 1) htr hc]
        exact ih r (by omega) (by omega)
    · exact ⟨_, StepLoop64_exit M T x0 y0 z0 s3 _ tr (N + 1) htr
        (StepControl64_floor T _ _ hErr hs)⟩

/-- When the error estimate is within `ErrMax_` the loop exits within two
passes: at once, or after the hint is set to `MaxStep_`. -/
theorem StepLoop64_within (M : Libm F64) (T : Trace F64) (x0 y0 z0 s3 : F64)
    (tr : SubSteps F64) (htr : T.StepTrial64 M x0 y0 z0 s3 = Except.ok tr)
    (hMax : 0 < T.MaxStep_) (hErr : tr.Err ≤ T.ErrMax_) (n : Int) (hn : n.natAbs < 2 ^ 2098) :
    ∃ out, T.StepLoop64 M x0 y0 z0 s3 2 (F64.fin n) = Except.ok out := by
  by_cases hs : F64.fabs (F64.fin n) ≤ T.MaxStep_
  · exact ⟨_, StepLoop64_exit M T x0 y0 z0 s3 _ tr 1 htr
      (by rw [StepControl64_accept T _ _ hErr hs])⟩
  · rcases F64.pos_cases _ hMax with ⟨k, hk, hkeq⟩ | hinf
    · have hc : T.MaxStep_ < F64.fabs (F64.fin n) := by
        rcases F64.le_or_gt (F64.fabs (F64.fin n)) T.MaxStep_ (by simp [F64.fabs])
          (by rw [hkeq]; simp) with h | h
        · exact absurd h hs
        · exact h
      have hkn : (k : Int) < |n| := by
        rwa [hkeq, F64.fabs_fin, F64.fin_lt_fin] at hc
      have hk2 : k < 2 ^ 2098 := by
        have := Int.abs_eq_natAbs n
        omega
      obtain ⟨r, hr, hrk⟩ := F64.div_growth k hk2
      have hgr : ¬ (F64.fabs T.MaxStep_ < T.MaxStep_ / 1.5) := by
        rw [hkeq, hr, F64.fabs_fin, F64.fin_lt_fin, abs_of_nonneg (by omega)]
        omega
      have hcl := StepControl64_clamp T tr.Err (F64.fin n) hErr hc hgr
      rw [StepLoop64_pass M T x0 y0 z0 s3 _ _ tr 1 htr hcl]
      have hs2 : F64.fabs T.MaxStep_ ≤ T.MaxStep_ := by
        rw [hkeq, F64.fabs_fin, F64.fin_le_fin, abs_of_nonneg (by omega)]
      exact ⟨_, StepLoop64_exit M T x0 y0 z0 s3 _ tr 0 htr
        (by rw [StepControl64_accept T _ _ hErr hs2])⟩
    · exfalso
      apply hs
      rw [hinf]
      simp [F64.fabs, F64.le_def, F64.le]

theorem Step64_returns_of_StepLoop64 (M : Libm F64) (T : Trace F64)
    (hF : ∀ x y z : F64, ∃ b, T.Field x y z = Except.ok b) (fuel : Nat) (x0 y0 z0 step : F64)
    (out : F64 × SubSteps F64)
    (hloop : T.StepLoop64 M x0 y0 z0 (step / 3.0) fuel step = Except.ok out) :
    ∃ r, T.Step64 M fuel x0 y0 z0 step = Except.ok r ∧ r.step = out.1 ∧
      r.x = x0 + 0.5 * (out.2.rx1 + 4 * out.2.rx4 + out.2.rx5) ∧
      r.y = y0 + 0.5 * (out.2.ry1 + 4 * out.2.ry4 + out.2.ry5) ∧
      r.z = z0 + 0.5 * (out.2.rz1 + 4 * out.2.rz4 + out.2.rz5) := by
  obtain ⟨B, hB⟩ := hF (x0 + 0.5 * (out.2.rx1 + 4 * out.2.rx4 + out.2.rx5))
    (y0 + 0.5 * (out.2.ry1 + 4 * out.2.ry4 + out.2.ry5))
    (z0 + 0.5 * (out.2.rz1 + 4 * out.2.rz4 + out.2.rz5))
  exact ⟨_, Step64_of_StepLoop64 M T fuel x0 y0 z0 step out B hloop hB, rfl, rfl, rfl, rfl⟩

/-- C18 amended: in `double` arithmetic, for every math library, every total
field evaluator, every position and every finite step hint, with
`MinStep_ > 0`, `MaxStep_ > 0` and a `double` `ErrMax_ ≥ 0`: the sub-steps of a
pass are computed, and when their error estimate is not a NaN the retry loop of
`Step` exits after finitely many passes and `Step` returns; when the estimate
exceeds `ErrMax_` and the hint is not above `MinStep_`, `Step` returns after
one pass with the position of that trial; and when the estimate is a NaN,
`Step` returns for no number of passes. -/
theorem C18_Step64_terminates_unless_NaN (M : Libm F64) (T : Trace F64)
    (hF : ∀ x y z : F64, ∃ b, T.Field x y z = Except.ok b)
    (hMin : 0 < T.MinStep_) (hMax : 0 < T.MaxStep_) (hE : 0 ≤ T.ErrMax_)
    (hR : T.ErrMax_.InRange) (x0 y0 z0 : F64) (n : Int) (hn : n.natAbs < 2 ^ 2098) :
    ∃ tr, T.StepTrial64 M x0 y0 z0 (F64.fin n / 3.0) = Except.ok tr ∧
      (tr.Err ≠ F64.nan → ∃ fuel r, T.Step64 M fuel x0 y0 z0 (F64.fin n) = Except.ok r) ∧
      (T.ErrMax_ < tr.Err → ¬ (T.MinStep_ < F64.fin n) →
        ∃ r, T.Step64 M 1 x0 y0 z0 (F64.fin n) = Except.ok r ∧
          r.x = x0 + 0.5 * (tr.rx1 + 4 * tr.rx4 + tr.rx5) ∧
          r.y = y0 + 0.5 * (tr.ry1 + 4 * tr.ry4 + tr.ry5) ∧
          r.z = z0 + 0.5 * (tr.rz1 + 4 * tr.rz4 + tr.rz5)) ∧
      (tr.Err = F64.nan →
        ∀ fuel : Nat, T.Step64 M fuel x0 y0 z0 (F64.fin n) = Except.error Fault.outOfFuel) := by
  obtain ⟨tr, htr⟩ := StepTrial64_total M T hF x0 y0 z0 (F64.fin n / 3.0)
  refine ⟨tr, htr, ?_, ?_, Step64_never_returns_of_nan M T x0 y0 z0 _ tr htr⟩
  · intro hnan
    have hA : T.ErrMax_ ≠ F64.nan := by
      rcases F64.nonneg_cases _ hE with ⟨e, he⟩ | he <;> rw [he] <;> simp
    rcases F64.le_or_gt tr.Err T.ErrMax_ hnan hA with h | h
    · obtain ⟨out, hout⟩ := StepLoop64_within M T x0 y0 z0 _ tr htr hMax h n hn
      obtain ⟨r, hr, _⟩ := Step64_returns_of_StepLoop64 M T hF 2 x0 y0 z0 _ out hout
      exact ⟨2, r, hr⟩
    · obtain ⟨out, hout⟩ := StepLoop64_halving M T x0 y0 z0 _ tr htr hMin hMax hE hR h
        n.toNat n (le_refl _) hn
      obtain ⟨r, hr, _⟩ := Step64_returns_of_StepLoop64 M T hF _ x0 y0 z0 _ out hout
      exact ⟨_, r, hr⟩
  · intro hgt hle
    have hout := StepLoop64_exit M T x0 y0 z0 _ (F64.fin n) tr 0 htr
      (StepControl64_floor T _ _ hgt hle)
    obtain ⟨r, hr, _, hx, hy, hz⟩ := Step64_returns_of_StepLoop64 M T hF 1 x0 y0 z0 _ _ hout
    exact ⟨r, hr, hx, hy, hz⟩

/-- C18 amended, on `uniformObj64 1e-17` (field `(0, 0, 1)`, `MinStep_ = 0.001`,
`MaxStep_ = 2`, `ErrMax_ = 1e-17`) with the library `libm64`, from the origin
with the hint `0.5`, which is `2 ^ 1073` units of `2⁻¹⁰⁷⁴`. -/
theorem C18_Step64_terminates_unless_NaN_witness :
    ((∀ x y z : F64, ∃ b, (uniformObj64 1e-17).Field x y z = Except.ok b) ∧
      0 < (uniformObj64 1e-17).MinStep_ ∧ 0 < (uniformObj64 1e-17).MaxStep_ ∧
      0 ≤ (uniformObj64 1e-17).ErrMax_ ∧ (uniformObj64 1e-17).ErrMax_.InRange ∧
      (((2 ^ 1073 : Nat) : Int)).natAbs < 2 ^ 2098 ∧
      F64.fin ((2 ^ 1073 : Nat) : Int) = 0.5) ∧
    ∃ tr, (uniformObj64 1e-17).StepTrial64 libm64 0 0 0 (F64.fin ((2 ^ 1073 : Nat) : Int) / 3.0)
        = Except.ok tr ∧
      (tr.Err ≠ F64.nan → ∃ fuel r,
        (uniformObj64 1e-17).Step64 libm64 fuel 0 0 0 (F64.fin ((2 ^ 1073 : Nat) : Int))
          = Except.ok r) ∧
      ((uniformObj64 1e-17).ErrMax_ < tr.Err →
        ¬ ((uniformObj64 1e-17).MinStep_ < F64.fin ((2 ^ 1073 : Nat) : Int)) →
        ∃ r, (uniformObj64 1e-17).Step64 libm64 1 0 0 0 (F64.fin ((2 ^ 1073 : Nat) : Int))
            = Except.ok r ∧
          r.x = 0 + 0.5 * (tr.rx1 + 4 * tr.rx4 + tr.rx5) ∧
          r.y = 0 + 0.5 * (tr.ry1 + 4 * tr.ry4 + tr.ry5) ∧
          r.z = 0 + 0.5 * (tr.rz1 + 4 * tr.rz4 + tr.rz5)) ∧
      (tr.Err = F64.nan →
        ∀ fuel : Nat,
          (uniformObj64 1e-17).Step64 libm64 fuel 0 0 0 (F64.fin ((2 ^ 1073 : Nat) : Int))
            = Except.error Fault.outOfFuel) :=
  ⟨⟨fun x y z => ⟨_, uniformObj64_Field _ x y z⟩, by decide, by decide, by decide, by decide,
      by decide, by decide⟩,
    C18_Step64_terminates_unless_NaN libm64 (uniformObj64 1e-17)
      (fun x y z => ⟨_, uniformObj64_Field _ x y z⟩) (by decide) (by decide) (by decide)
      (by decide) 0 0 0 ((2 ^ 1073 : Nat) : Int) (by decide)⟩

/-- C18 as stated fails in `double` arithmetic.  On `faintObj64`, whose field
evaluator is total and returns the nonzero vector `(1e-200, 0, 0)` everywhere,
with `MinStep_ = 0.001 > 0`, `MaxStep_ = 2 > 0`, `ErrMax_ = 0.001 ≥ 0`, and every
math library that has `sqrt 0 = 0`: the squared norm `1e-400` underflows to `0`,
`step3 / 0` is an infinity, the sub-step vector has the components `∞ · 0`,
which are NaN, the error estimate is a NaN, every comparison of the step control
is false and `repeat` stays true: whatever the number of passes allowed, `Step`
does not return.  The library `libm64` is such a library. -/
theorem C18_Step64_never_returns_in_faint_field :
    (∃ M : Libm F64, M.sqrt 0 = 0) ∧
    ∀ M : Libm F64, M.sqrt 0 = 0 →
      (∀ x y z : F64, faintObj64.Field x y z = Except.ok (1e-200, 0, 0)) ∧
      (1e-200 : F64) ≠ 0 ∧
      0 < faintObj64.MinStep_ ∧ 0 < faintObj64.MaxStep_ ∧ 0 ≤ faintObj64.ErrMax_ ∧
      (1e-200 : F64) * 1e-200 + 0 * 0 + 0 * 0 = 0 ∧
      (∃ tr, faintObj64.StepTrial64 M 0 0 0 (0.5 / 3.0) = Except.ok tr ∧ tr.Err = F64.nan) ∧
      ∀ fuel : Nat, faintObj64.Step64 M fuel 0 0 0 0.5 = Except.error Fault.outOfFuel := by
  refine ⟨⟨libm64, by decide⟩, ?_⟩
  intro M hM
  have hn : (1e-200 : F64) * 1e-200 + 0 * 0 + 0 * 0 = 0 := by decide
  have hl : libm64.sqrt 0 = 0 := by decide
  have hcongr := StepTrial64_uniform_congr M libm64 faintObj64 1e-200 0 0
    faintObj64_Field (by rw [hn, hM, hl]) 0 0 0 (0.5 / 3.0)
  obtain ⟨tr, htr, hErr⟩ : ∃ tr,
      faintObj64.StepTrial64 libm64 0 0 0 (0.5 / 3.0) = Except.ok tr ∧ tr.Err = F64.nan :=
    ⟨_, StepTrial64_uniform libm64 _ 1e-200 0 0 faintObj64_Field 0 0 0 (0.5 / 3.0), by decide⟩
  refine ⟨faintObj64_Field, by decide, by decide, by decide, by decide, hn,
    ⟨tr, by rw [hcongr]; exact htr, hErr⟩, ?_⟩
  intro fuel
  rw [Step64_congr M libm64 _ 0 0 0 0.5 hcongr]
  exact Step64_never_returns_of_nan libm64 faintObj64 0 0 0 0.5 tr htr hErr fuel

/-! ## The field sum in any arithmetic -/

/-- C12 amended: on an object whose `nf_` is the number of registered
contributors (as the constructor sets it), in any arithmetic, `Field` calls
every contributor once and returns the accumulation
`((0.0 + b₀) + b₁) + … ` of their outputs, component by component, in the order
of registration; with no contributor it returns `(0.0, 0.0, 0.0)`. -/
theorem C12_Field_accumulates_in_registration_order {β : Type} [Add β] [OfScientific β]
    (T : Trace β) (x y z : β) (hnf : T.nf_ = T.Funcs_.size) :
    T.Field x y z = Except.ok (T.Funcs_.toList.foldl
      (fun B f => (B.1 + (f x y z).1, B.2.1 + (f x y z).2.1, B.2.2 + (f x y z).2.2))
      ((0.0 : β), (0.0 : β), (0.0 : β))) ∧
    (T.Funcs_ = #[] → T.Field x y z = Except.ok ((0.0 : β), (0.0 : β), (0.0 : β))) := by
  have main : T.Field x y z = Except.ok (T.Funcs_.toList.foldl
      (fun B f => (B.1 + (f x y z).1, B.2.1 + (f x y z).2.1, B.2.2 + (f x y z).2.2))
      ((0.0 : β), (0.0 : β), (0.0 : β))) := by
    obtain ⟨B, hrun, hB⟩ := forLoop_inv
      (fun (i : Int) (B : β × β × β) =>
        B = (T.Funcs_.toList.take i.toNat).foldl
          (fun B f => (B.1 + (f x y z).1, B.2.1 + (f x y z).2.1, B.2.2 + (f x y z).2.2))
          ((0.0 : β), (0.0 : β), (0.0 : β)))
      0 T.nf_
      (fun i B => do
        let f ← rd T.Funcs_ i
        let b := f x y z
        pure (B.1 + b.1, B.2.1 + b.2.1, B.2.2 + b.2.2))
      ((0.0 : β), (0.0 : β), (0.0 : β)) (by omega)
      (by simp)
      (by
        intro i B hi0 hi hB
        obtain ⟨f, hf⟩ := rd_exists T.Funcs_ i hi0 (by omega)
        have hf' : T.Funcs_.toList[i.toNat]? = some f := by
          rw [← Array.getElem?_eq_getElem?_toList]
          exact ((rd_eq_ok_iff _ _ _).1 hf).2
        have ht : (i + 1).toNat = i.toNat + 1 := by omega
        refine ⟨(B.1 + (f x y z).1, B.2.1 + (f x y z).2.1, B.2.2 + (f x y z).2.2), ?_, ?_⟩
        · simp only [hf, Exec.ok_bind, Exec.pure_eq]
        · simp only [ht, List.take_succ, hf', Option.toList_some, List.foldl_append,
            List.foldl_cons, List.foldl_nil, ← hB])
    have hall : T.Funcs_.toList.take T.nf_.toNat = T.Funcs_.toList := by
      apply List.take_of_length_le
      simp only [Array.length_toList]
      omega
    rw [hall] at hB
    unfold Trace.Field
    rw [hrun, hB]
  refine ⟨main, ?_⟩
  intro he
  rw [main, he]
  rfl

/-- C12 amended, on the object `cancelObj64` in `double` arithmetic at the
origin: the accumulation `((0.0 + 1e16) + 1) + -1e16` is `0`. -/
theorem C12_Field_accumulates_in_registration_order_witness :
    cancelObj64.nf_ = (cancelObj64.Funcs_.size : Int) ∧
    (cancelObj64.Field 0 0 0 = Except.ok (cancelObj64.Funcs_.toList.foldl
      (fun B f => (B.1 + (f 0 0 0).1, B.2.1 + (f 0 0 0).2.1, B.2.2 + (f 0 0 0).2.2))
      ((0.0 : F64), (0.0 : F64), (0.0 : F64))) ∧
    (cancelObj64.Funcs_ = #[] →
      cancelObj64.Field 0 0 0 = Except.ok ((0.0 : F64), (0.0 : F64), (0.0 : F64)))) ∧
    cancelObj64.Funcs_.toList.foldl
      (fun B f => (B.1 + (f 0 0 0).1, B.2.1 + (f 0 0 0).2.1, B.2.2 + (f 0 0 0).2.2))
      ((0.0 : F64), (0.0 : F64), (0.0 : F64)) = (0, 0, 0) :=
  ⟨rfl, C12_Field_accumulates_in_registration_order cancelObj64 0 0 0 rfl, by decide⟩

/-- C12 as stated fails in `double` arithmetic: the objects `cancelObj64` and
`cancelObjSwap64` hold the same three contributors `(1e16, 0, 0)`, `(1, 0, 0)`,
`(-1e16, 0, 0)` in two orders, and at the origin `Field` returns `(0, 0, 0)` for
the first (`1e16 + 1` rounds to `1e16`) and `(1, 0, 0)` for the second. -/
theorem C12_Field_depends_on_registration_order :
    cancelObjSwap64.Funcs_.toList.Perm cancelObj64.Funcs_.toList ∧
    cancelObj64.nf_ = (cancelObj64.Funcs_.size : Int) ∧
    cancelObjSwap64.nf_ = (cancelObjSwap64.Funcs_.size : Int) ∧
    cancelObj64.Field 0 0 0 = Except.ok (0, 0, 0) ∧
    cancelObjSwap64.Field 0 0 0 = Except.ok (1, 0, 0) ∧
    cancelObj64.Field 0 0 0 ≠ cancelObjSwap64.Field 0 0 0 := by
  have h1 : cancelObj64.Field 0 0 0 = Except.ok (0, 0, 0) := by rfl
  have h2 : cancelObjSwap64.Field 0 0 0 = Except.ok (1, 0, 0) := by rfl
  refine ⟨?_, rfl, rfl, h1, h2, ?_⟩
  · exact (List.Perm.swap _ _ _).cons _ 
  · rw [h1, h2]
    intro h
    have h0 := (Prod.mk.inj (Except.ok.inj h)).1
    revert h0
    decide

/-! ## The start points in any arithmetic -/

